import Mathlib

/-!
# gocsv: a verification development

A shallow embedding of `github.com/rickbassham/gocsv` (`decoder.go`, `encoder.go`,
`tag.go`, `error.go`) together with the part of Go's `strconv` package that the
integer and boolean conversions go through.

Conventions of the embedding:

* a Go `string` is a Lean `String`; byte-wise loops run over `String.data`
  (a character outside ASCII fails every digit test, as each of its bytes does);
* a Go `map[string]T` is an association list with unique keys, kept in insertion
  order; the code never depends on the iteration order of a map;
* machine integers are `Nat`/`Int` with explicit wrap-around modulo `2 ^ 64`;
* a runtime panic is the outcome `Err.panicked`;
* the floating-point and time functions of the Go library are taken as the
  parameter `Lib`.
-/

namespace gocsv

/-! ## error.go -/

/-- Every failure a call can end in: the package's `Error` constants, the error kinds of
`strconv.NumError`, `io.EOF`, an error of a collaborator or hook, and a runtime panic. -/
inductive Err where
  | ErrInvalidFloatPrecision
  | ErrInvalidIntBase
  | ErrInvalidType
  | ErrMissingColumn
  | ErrInvalidDestType
  | ErrMissingHeader
  | ErrNonPointerReceiver
  | numSyn
  | numRange
  | numBase
  | numBitSize
  | EOF
  | other (msg : String)
  | panicked (msg : String)
  deriving DecidableEq, Repr

/-! ## strconv (Go standard library): integers and booleans -/

namespace strconv

/-- The constant `strconv.IntSize` on a 64-bit platform. -/
def IntSize : Nat := 64

/-- The constant `maxUint64`. -/
def maxUint64 : Nat := 2 ^ 64 - 1

/-- The helper `lower(c) = c | ('x' - 'X')`. -/
def lower (c : Nat) : Nat := c ||| 0x20

/-- The digit test of the `ParseUint` loop: the value of `c` as a digit, if it is one. -/
def digitVal (c : Char) : Option Nat :=
  if 48 ≤ c.toNat ∧ c.toNat ≤ 57 then some (c.toNat - 48)
  else if 97 ≤ lower c.toNat ∧ lower c.toNat ≤ 122 then some (lower c.toNat - 97 + 10)
  else none

/-- The main loop of `ParseUint`: `n` is the accumulator, `us` records an underscore. The
value returned next to an error is the one Go returns with it. -/
def parseUintLoop (base : Nat) (base0 : Bool) (cutoff maxVal : Nat) :
    List Char → Nat → Bool → (Nat × Bool) × Option Err
  | [], n, us => ((n, us), none)
  | c :: cs, n, us =>
    if c = '_' ∧ base0 = true then parseUintLoop base base0 cutoff maxVal cs n true
    else
      match digitVal c with
      | none => ((0, us), some Err.numSyn)
      | some d =>
        if d ≥ base then ((0, us), some Err.numSyn)
        else if n ≥ cutoff then ((maxVal, us), some Err.numRange)
        else
          let n0 := (n * base) % 2 ^ 64
          let n1 := (n0 + d) % 2 ^ 64
          if n1 < n0 ∨ n1 > maxVal then ((maxVal, us), some Err.numRange)
          else parseUintLoop base base0 cutoff maxVal cs n1 us

/-- The scan of `underscoreOK` over the number proper; `saw` is the last character class
seen (`'0'` digit or base mark, `'_'` underscore, `'!'` anything else, `'^'` start). -/
def underscoreScan (hex : Bool) : List Char → Char → Bool
  | [], saw => saw ≠ '_'
  | c :: cs, saw =>
    if (48 ≤ c.toNat ∧ c.toNat ≤ 57) ∨ (hex = true ∧ 97 ≤ lower c.toNat ∧ lower c.toNat ≤ 102) then
      underscoreScan hex cs '0'
    else if c = '_' then
      if saw ≠ '0' then false else underscoreScan hex cs '_'
    else if saw = '_' then false
    else underscoreScan hex cs '!'

/-- The function `underscoreOK`: underscores only separate digits. -/
def underscoreOK (s : List Char) : Bool :=
  let s1 := match s with
    | c :: cs => if c = '-' ∨ c = '+' then cs else s
    | [] => s
  match s1 with
  | c0 :: c1 :: cs =>
    if c0 = '0' ∧ (lower c1.toNat = 98 ∨ lower c1.toNat = 111 ∨ lower c1.toNat = 120) then
      underscoreScan (lower c1.toNat = 120) cs '0'
    else underscoreScan false s1 '^'
  | _ => underscoreScan false s1 '^'

/-- The base selection at the head of `ParseUint`: the base to use and the digits left, or
`none` for an invalid base. -/
def pickBase (s : List Char) (base : Int) : Option (Nat × List Char) :=
  if 2 ≤ base ∧ base ≤ 36 then some (base.toNat, s)
  else if base = 0 then
    match s with
    | '0' :: rest =>
      match rest with
      | c1 :: c2 :: tl =>
        if lower c1.toNat = 98 then some (2, c2 :: tl)
        else if lower c1.toNat = 111 then some (8, c2 :: tl)
        else if lower c1.toNat = 120 then some (16, c2 :: tl)
        else some (8, rest)
      | _ => some (8, rest)
    | _ => some (10, s)
  else none

/-- Go's `strconv.ParseUint(s, base, bitSize)`; the pair is the value and the error that Go
returns together. -/
def ParseUint (s : String) (base : Int) (bitSize : Nat) : Nat × Option Err :=
  if s = "" then (0, some Err.numSyn)
  else
    match pickBase s.data base with
    | none => (0, some Err.numBase)
    | some (b, digits) =>
      if bitSize > 64 then (0, some Err.numBitSize)
      else
        let bits := if bitSize = 0 then IntSize else bitSize
        let cutoff := maxUint64 / b + 1
        let maxVal := (2 ^ bits % 2 ^ 64 + (2 ^ 64 - 1)) % 2 ^ 64
        match parseUintLoop b (decide (base = 0)) cutoff maxVal digits 0 false with
        | ((n, _), some e) => (n, some e)
        | ((n, us), none) =>
          if us = true ∧ underscoreOK s.data = false then (0, some Err.numSyn)
          else (n, none)

/-- The conversion `int64(u)` followed by an optional negation, in two's complement. -/
def wrapInt64 (z : Int) : Int := (z + 2 ^ 63) % 2 ^ 64 - 2 ^ 63

/-- Go's `strconv.ParseInt(s, base, bitSize)`. -/
def ParseInt (s : String) (base : Int) (bitSize : Nat) : Int × Option Err :=
  if s = "" then (0, some Err.numSyn)
  else
    let neg := decide (s.data.head? = some '-')
    let rest := if s.data.head? = some '+' ∨ s.data.head? = some '-' then s.data.tail else s.data
    let r := ParseUint (String.mk rest) base bitSize
    if r.2 ≠ none ∧ r.2 ≠ some Err.numRange then (0, r.2)
    else
      let bits := if bitSize = 0 then IntSize else bitSize
      let cutoff := 2 ^ (bits - 1) % 2 ^ 64
      if neg = false ∧ r.1 ≥ cutoff then (wrapInt64 ((cutoff : Int) - 1), some Err.numRange)
      else if neg = true ∧ r.1 > cutoff then (wrapInt64 (-(cutoff : Int)), some Err.numRange)
      else (if neg then wrapInt64 (-(wrapInt64 r.1)) else wrapInt64 r.1, none)

/-- The constant `digits` of `itoa.go`. -/
def digits : List Char := "0123456789abcdefghijklmnopqrstuvwxyz".data

/-- The character `digits[d]`. -/
def digitChar (d : Nat) : Char := digits.getD d '0'

/-- The digit loop of `formatBits` (general path; the decimal and power-of-two paths
compute the same digits). The fuel is the size of its 65-byte buffer. -/
def formatBitsLoop (b : Nat) : Nat → Nat → List Char → List Char
  | 0, u, acc => digitChar u :: acc
  | fuel + 1, u, acc =>
    if u ≥ b then formatBitsLoop b fuel (u / b) (digitChar (u % b) :: acc)
    else digitChar u :: acc

/-- The function `formatBits`: `none` is the panic on a base outside `2..36`. -/
def formatBits (u : Nat) (base : Int) (neg : Bool) : Option String :=
  if base < 2 ∨ base > 36 then none
  else
    let u1 := if neg then (2 ^ 64 - u) % 2 ^ 64 else u
    let ds := formatBitsLoop base.toNat 64 u1 []
    some (String.mk (if neg then '-' :: ds else ds))

/-- Go's `strconv.FormatInt(i, base)`; `none` is its panic on an illegal base. -/
def FormatInt (i : Int) (base : Int) : Option String :=
  formatBits (i % 2 ^ 64).toNat base (decide (i < 0))

/-- Go's `strconv.FormatUint(i, base)`; `none` is its panic on an illegal base. -/
def FormatUint (i : Nat) (base : Int) : Option String :=
  formatBits i base false

/-- Go's `strconv.FormatBool`. -/
def FormatBool (b : Bool) : String := if b then "true" else "false"

/-- Go's `strconv.ParseBool`. -/
def ParseBool (str : String) : Except Err Bool :=
  if str = "1" ∨ str = "t" ∨ str = "T" ∨ str = "TRUE" ∨ str = "true" ∨ str = "True" then
    Except.ok true
  else if str = "0" ∨ str = "f" ∨ str = "F" ∨ str = "FALSE" ∨ str = "false" ∨ str = "False" then
    Except.ok false
  else Except.error Err.numSyn

end strconv


/-! ## Collaborators and the data model -/

/-- A Go `map[string]T`: an association list with unique keys. -/
abbrev GoMap (α : Type) := List (String × α)

/-- The lookup `m[k]` with the comma-ok result. -/
def GoMap.get? {α : Type} : GoMap α → String → Option α
  | [], _ => none
  | (k1, v) :: rest, k => if k1 = k then some v else GoMap.get? rest k

/-- The assignment `m[k] = v`. -/
def GoMap.set {α : Type} : GoMap α → String → α → GoMap α
  | [], k, v => [(k, v)]
  | (k1, v1) :: rest, k, v => if k1 = k then (k, v) :: rest else (k1, v1) :: GoMap.set rest k v

/-- A row source (`Reader`): the results its successive `Read` calls will give; an
exhausted source answers `io.EOF`. -/
abbrev Reader := List (Except Err (List String))

/-- One call of `Read`. -/
def Reader.Read : Reader → Except Err (List String) × Reader
  | [] => (Except.error Err.EOF, [])
  | x :: rest => (x, rest)

/-- A row sink (`Writer`): the rows handed to `Write` so far, oldest first, and the results
its coming `Write` calls will give (success once the list is used up). -/
structure Writer where
  rows : List (List String)
  replies : List (Option Err)
  deriving DecidableEq, Repr

/-- One call of `Write`. -/
def Writer.Write (w : Writer) (line : List String) : Writer × Option Err :=
  match w.replies with
  | [] => ({ rows := w.rows ++ [line], replies := [] }, none)
  | e :: rest => ({ rows := w.rows ++ [line], replies := rest }, e)

/-- A float value as `valf.Float()` returns it: a `float64`, given by its IEEE 754 bit
pattern (sign, 11 exponent bits, 52 fraction bits). Only `FormatFloatFixed` looks into it. -/
structure GoFloat where
  bits : Nat
  deriving DecidableEq, Repr

/-- A `time.Time` value, kept abstract. -/
structure GoTime where
  instant : Nat
  deriving DecidableEq, Repr

/-- The floating-point and time functions of the Go library that the package calls. -/
structure Lib where
  /-- The function `strconv.ParseFloat(s, bitSize)`. -/
  ParseFloat : String → Nat → Except Err GoFloat
  /-- The function `strconv.FormatFloat(f, 'f', prec, 64)`. -/
  FormatFloat : GoFloat → Int → String
  /-- The function `fmt.Sprintf(format, f)`. -/
  Sprintf : String → GoFloat → String
  /-- The function `time.Parse(layout, value)`. -/
  timeParse : String → String → Except Err GoTime
  /-- The method `t.Format(layout)`. -/
  timeFormat : GoTime → String → String

/-- The constant `time.RFC3339`. -/
def RFC3339 : String := "2006-01-02T15:04:05Z07:00"

/-- The type of a struct field, by its `reflect.Kind`; `time` is the struct type
`time.Time`, `struct` any other struct type. -/
inductive Ty where
  | string
  | bool
  | int
  | int8
  | int16
  | int32
  | int64
  | uint
  | uint8
  | uint16
  | uint32
  | uint64
  | float32
  | float64
  | time
  | struct
  | slice
  | iface
  | ptr (elem : Ty)
  deriving DecidableEq, Repr

/-- The value held by a struct field; `nil` is a nil pointer, `ptr v` a pointer to `v`,
`other` a value of a kind the package does not convert. -/
inductive Value where
  | str (s : String)
  | bool (b : Bool)
  | int (n : Int)
  | uint (n : Nat)
  | float (f : GoFloat)
  | time (t : GoTime)
  | nil
  | ptr (v : Value)
  | other
  deriving DecidableEq, Repr

/-- The zero value of a type, as `reflect.New(t).Elem()` holds it. -/
def Ty.zero : Ty → Value
  | Ty.string => Value.str ""
  | Ty.bool => Value.bool false
  | Ty.int | Ty.int8 | Ty.int16 | Ty.int32 | Ty.int64 => Value.int 0
  | Ty.uint | Ty.uint8 | Ty.uint16 | Ty.uint32 | Ty.uint64 => Value.uint 0
  | Ty.float32 | Ty.float64 => Value.float { bits := 0 }
  | Ty.time => Value.time { instant := 0 }
  | Ty.struct | Ty.slice | Ty.iface => Value.other
  | Ty.ptr _ => Value.nil

/-- A struct tag (`reflect.StructTag`), as its list of `key:"value"` pairs. -/
abbrev StructTag := List (String × String)

/-- The method `tag.Lookup(key)`: the value of the first pair with that key. -/
def StructTag.Lookup : StructTag → String → Option String
  | [], _ => none
  | (k, v) :: rest, key => if k = key then some v else StructTag.Lookup rest key

/-- The method `tag.Get(key)`: the empty string when the key is absent. -/
def StructTag.Get (tag : StructTag) (key : String) : String :=
  (tag.Lookup key).getD ""

/-- The per-value hook `UnmarshalCSVValue`, by its effect on the value it is called on. -/
abbrev UnmarshalHook := Value → String → Value × Option Err

/-- A declared struct field (`reflect.StructField`), exported and with a name unique in its
struct, so that `val.FieldByName(f.Name)` is the field itself. The four hooks are the
outcomes of the type assertions made on the field: `valf.Interface().(ValueUnmarshaler)`,
`valf.Addr().Interface().(ValueUnmarshaler)` (both after the pointer of a pointer field has
been followed), `valf.Addr().Interface().(ValueMarshaller)` and
`valf.Interface().(ValueMarshaller)`. -/
structure Field where
  name : String
  ty : Ty
  tag : StructTag
  valueUnmarshaler : Option UnmarshalHook := none
  addrUnmarshaler : Option UnmarshalHook := none
  addrMarshaller : Option (Value → String) := none
  valueMarshaller : Option (Value → String) := none

/-- A struct value: its declared fields, in declaration order, each with its current value. -/
abbrev Record := List (Field × Value)

/-- What the argument `v interface{}` of `Decode`/`Encode` holds, apart from its hooks: a
string map that is not nil, by value or behind a pointer, a nil `map[string]string`, by
value or behind a pointer, a pointer to a struct value, a pointer to something else, a
value that is neither a pointer nor a string map, or nothing at all (the nil interface). -/
inductive Shape where
  | map (m : GoMap String)
  | mapPtr (m : GoMap String)
  | nilMap
  | nilMapPtr
  | structPtr (rec : Record)
  | otherPtr
  | nonPointer
  | nilIface

/-- The argument `v interface{}`: its shape and the whole-record hooks it implements
(`Unmarshaler`, `MapUnmarshaler`, `Marshaler`), each by its effect on the value. -/
structure Target where
  shape : Shape
  UnmarshalCSV : Option (Shape → List String → Shape × Option Err) := none
  UnmarshalCSVMap : Option (Shape → GoMap String → Shape × Option Err) := none
  MarshalCSV : Option (Shape → List String × Option Err) := none

/-! ## tag.go -/

/-- Go's `strings.Split(s, ",")` on the bytes of `s`. -/
def splitComma : List Char → List (List Char)
  | [] => [[]]
  | c :: cs =>
    if c = ',' then [] :: splitComma cs
    else
      match splitComma cs with
      | [] => [[c]]
      | seg :: segs => (c :: seg) :: segs

/-- The function `parseTag`: the column name and the options that follow it. -/
def parseTag (tag : String) : String × List String :=
  match (splitComma tag.data).map String.mk with
  | first :: rest => (first, rest)
  | [] => ("", [])

/-- The function `omitEmpty`. -/
def omitEmpty : List String → Bool
  | [] => false
  | option :: rest => if option = "omitempty" then true else omitEmpty rest

/-- The function `base`: the numeric base of a field, 10 without a `base` tag. -/
def base (tag : StructTag) : Int × Option Err :=
  match tag.Lookup "base" with
  | some baseStr =>
    match strconv.ParseInt baseStr 10 32 with
    | (b, some _) => (b, some Err.ErrInvalidIntBase)
    | (b, none) => (b, none)
  | none => (10, none)

/-! ## decoder.go -/

/-- The struct `Decoder`; `hdr = none` is the nil map. -/
structure Decoder where
  r : Reader
  hdr : Option (GoMap Nat)
  nilVal : String
  allowMissingColumns : Bool

/-- The function `NewDecoder`. -/
def NewDecoder (r : Reader) : Decoder :=
  { r := r, hdr := none, nilVal := "", allowMissingColumns := false }

/-- The loop of `WithHeader`: `hdr[h[i]] = i` for the names from position `i` on. -/
def headerLoop : List String → Nat → GoMap Nat → GoMap Nat
  | [], _, hdr => hdr
  | name :: rest, i, hdr => headerLoop rest (i + 1) (hdr.set name i)

/-- The method `Decoder.WithHeader`. -/
def Decoder.WithHeader (dec : Decoder) (h : List String) : Decoder :=
  { dec with hdr := some (headerLoop h 0 []) }

/-- The method `Decoder.ReadHeader`; on a read error the decoder keeps its header. -/
def Decoder.ReadHeader (dec : Decoder) : Decoder × Option Err :=
  match dec.r.Read with
  | (Except.error e, r1) => ({ dec with r := r1 }, some e)
  | (Except.ok line, r1) => (Decoder.WithHeader { dec with r := r1 } line, none)

/-- The loop of `Header`: `hdr[i] = key` for every entry; `none` is the panic of an index
out of range. -/
def headerFill : GoMap Nat → List String → Option (List String)
  | [], out => some out
  | (key, i) :: rest, out => if i < out.length then headerFill rest (out.set i key) else none

/-- The method `Decoder.Header`. -/
def Decoder.Header (dec : Decoder) : Except Err (List String) :=
  let m := dec.hdr.getD []
  match headerFill m (List.replicate m.length "") with
  | some out => Except.ok out
  | none => Except.error (Err.panicked "index out of range")

/-- The method `Decoder.WithNilValue`. -/
def Decoder.WithNilValue (dec : Decoder) (val : String) : Decoder :=
  { dec with nilVal := val }

/-- The method `Decoder.WithAllowMissingColumns`. -/
def Decoder.WithAllowMissingColumns (dec : Decoder) : Decoder :=
  { dec with allowMissingColumns := true }

/-- The store `valf.SetInt(x)` into a signed field of the given width. -/
def setInt (bits : Nat) (x : Int) : Value :=
  Value.int ((x + 2 ^ (bits - 1)) % 2 ^ bits - 2 ^ (bits - 1))

/-- The store `valf.SetUint(x)` into an unsigned field of the given width. -/
def setUint (bits : Nat) (x : Nat) : Value :=
  Value.uint (x % 2 ^ bits)

/-- The function `decodeInt`, by the value it stores; `bits` is the width of the field. -/
def decodeInt (bits : Nat) (tag : StructTag) (bitSize : Nat) (value : String) : Except Err Value :=
  match base tag with
  | (_, some e) => Except.error e
  | (b, none) =>
    match strconv.ParseInt value b bitSize with
    | (_, some e) => Except.error e
    | (intVal, none) => Except.ok (setInt bits intVal)

/-- The function `decodeUint`, by the value it stores; `bits` is the width of the field. -/
def decodeUint (bits : Nat) (tag : StructTag) (bitSize : Nat) (value : String) : Except Err Value :=
  match base tag with
  | (_, some e) => Except.error e
  | (b, none) =>
    match strconv.ParseUint value b bitSize with
    | (_, some e) => Except.error e
    | (intVal, none) => Except.ok (setUint bits intVal)

/-- The `switch kind` of `Decode`: the built-in conversion of the cell into a value of the
kind. -/
def decodeKind (lib : Lib) (tag : StructTag) (kind : Ty) (cell : String) : Except Err Value :=
  match kind with
  | Ty.string => Except.ok (Value.str cell)
  | Ty.bool =>
    match strconv.ParseBool cell with
    | Except.error e => Except.error e
    | Except.ok boolVal => Except.ok (Value.bool boolVal)
  | Ty.int => decodeInt strconv.IntSize tag 0 cell
  | Ty.int8 => decodeInt 8 tag 8 cell
  | Ty.int16 => decodeInt 16 tag 16 cell
  | Ty.int32 => decodeInt 32 tag 32 cell
  | Ty.int64 => decodeInt 64 tag 64 cell
  | Ty.uint => decodeUint strconv.IntSize tag 0 cell
  | Ty.uint8 => decodeUint 8 tag 8 cell
  | Ty.uint16 => decodeUint 16 tag 16 cell
  | Ty.uint32 => decodeUint 32 tag 32 cell
  | Ty.uint64 => decodeUint 64 tag 64 cell
  | Ty.float32 =>
    match lib.ParseFloat cell 32 with
    | Except.error e => Except.error e
    | Except.ok floatVal => Except.ok (Value.float floatVal)
  | Ty.float64 =>
    match lib.ParseFloat cell 64 with
    | Except.error e => Except.error e
    | Except.ok floatVal => Except.ok (Value.float floatVal)
  | Ty.time =>
    let format := if tag.Get "format" = "" then RFC3339 else tag.Get "format"
    match lib.timeParse format cell with
    | Except.error e => Except.error e
    | Except.ok timeVal => Except.ok (Value.time timeVal)
  | Ty.struct => Except.error Err.ErrInvalidDestType
  | _ => Except.error Err.ErrInvalidDestType

/-- The part of the loop body of `Decode` after the cell was found not to be skipped: the
pointer of a pointer field is replaced by a fresh zero value, then the hooks or the
built-in conversion write into the slot. The result is the new value of the field and the
error returned, if any. -/
def decodeValue (lib : Lib) (f : Field) (v : Value) (cell : String) : Value × Option Err :=
  let isPtr := match f.ty with
    | Ty.ptr _ => true
    | _ => false
  let kind := match f.ty with
    | Ty.ptr elem => elem
    | t => t
  let slot := match f.ty with
    | Ty.ptr elem => elem.zero
    | _ => v
  let wrap := fun (x : Value) => if isPtr then Value.ptr x else x
  match f.valueUnmarshaler with
  | some u =>
    if (match kind with | Ty.ptr _ => false | _ => true) then
      (wrap slot, some Err.ErrNonPointerReceiver)
    else
      let r := u slot cell
      (wrap r.1, r.2)
  | none =>
    match f.addrUnmarshaler with
    | some u =>
      let r := u slot cell
      (wrap r.1, r.2)
    | none =>
      match decodeKind lib f.tag kind cell with
      | Except.error e => (wrap slot, some e)
      | Except.ok x => (wrap x, none)

/-- One pass of the loop body of `Decode` for the field `f` holding `v`: the new value of
the field and the error `Decode` returns at this field (`none`: go on to the next field). -/
def decodeField (lib : Lib) (hdr : GoMap Nat) (nilVal : String) (allowMissingColumns : Bool)
    (line : List String) (f : Field) (v : Value) : Value × Option Err :=
  let tag := (parseTag (f.tag.Get "csv")).1
  let tagOptions := (parseTag (f.tag.Get "csv")).2
  if tag = "" ∨ tag = "-" then (v, none)
  else
    match hdr.get? tag with
    | none => if allowMissingColumns then (v, none) else (v, some Err.ErrMissingColumn)
    | some index =>
      match line.get? index with
      | none => (v, some (Err.panicked "index out of range"))
      | some cell =>
        if cell = nilVal ∧ omitEmpty tagOptions = true then (v, none)
        else decodeValue lib f v cell

/-- The field loop of `Decode`: the record as the loop leaves it and the error returned. -/
def decodeFields (lib : Lib) (hdr : GoMap Nat) (nilVal : String) (allowMissingColumns : Bool)
    (line : List String) : Record → Record × Option Err
  | [] => ([], none)
  | (f, v) :: rest =>
    match decodeField lib hdr nilVal allowMissingColumns line f v with
    | (v1, some e) => ((f, v1) :: rest, some e)
    | (v1, none) =>
      match decodeFields lib hdr nilVal allowMissingColumns line rest with
      | (rest1, e) => ((f, v1) :: rest1, e)

/-- The method `decodeMap`: `u[k] = line[v]` for every header entry. -/
def decodeMap (line : List String) : GoMap Nat → GoMap String → GoMap String × Option Err
  | [], u => (u, none)
  | (k, v) :: rest, u =>
    match line.get? v with
    | none => (u, some (Err.panicked "index out of range"))
    | some cell => decodeMap line rest (u.set k cell)

/-- The method `decodeMap` on a nil map: the first assignment `u[k] = line[v]` evaluates
`line[v]` and then panics on the nil map; with an empty header nothing is assigned. -/
def decodeMapNil (line : List String) : GoMap Nat → Option Err
  | [] => none
  | (_, v) :: _ =>
    match line.get? v with
    | none => some (Err.panicked "index out of range")
    | some _ => some (Err.panicked "assignment to entry in nil map")

/-- The method `Decoder.Decode`: the decoder and the target after the call, and the error
returned. -/
def Decoder.Decode (lib : Lib) (dec : Decoder) (v : Target) : Decoder × Target × Option Err :=
  match dec.hdr with
  | none => (dec, v, some Err.ErrMissingHeader)
  | some hdr =>
    match dec.r.Read with
    | (Except.error e, r1) => ({ dec with r := r1 }, v, some e)
    | (Except.ok line, r1) =>
      let dec1 := { dec with r := r1 }
      match v.UnmarshalCSV with
      | some u =>
        let res := u v.shape line
        (dec1, { v with shape := res.1 }, res.2)
      | none =>
        match v.UnmarshalCSVMap with
        | some u =>
          match decodeMap line hdr [] with
          | (_, some e) => (dec1, v, some e)
          | (m, none) =>
            let res := u v.shape m
            (dec1, { v with shape := res.1 }, res.2)
        | none =>
          match v.shape with
          | Shape.map m =>
            let res := decodeMap line hdr m
            (dec1, { v with shape := Shape.map res.1 }, res.2)
          | Shape.mapPtr m =>
            let res := decodeMap line hdr m
            (dec1, { v with shape := Shape.mapPtr res.1 }, res.2)
          | Shape.nilMap => (dec1, v, decodeMapNil line hdr)
          | Shape.nilMapPtr => (dec1, v, decodeMapNil line hdr)
          | Shape.nilIface =>
            (dec1, v, some (Err.panicked "invalid memory address or nil pointer dereference"))
          | Shape.nonPointer => (dec1, v, some Err.ErrInvalidType)
          | Shape.otherPtr => (dec1, v, some (Err.panicked "reflect: NumField of non-struct type"))
          | Shape.structPtr rec =>
            let res := decodeFields lib hdr dec.nilVal dec.allowMissingColumns line rec
            (dec1, { v with shape := Shape.structPtr res.1 }, res.2)

/-! ## encoder.go -/

/-- The struct `Encoder`; the nil map and the empty map are both `[]`. -/
structure Encoder where
  w : Writer
  hdr : GoMap Nat
  nilVal : String
  allowMissingColumns : Bool

/-- The function `NewEncoder`. -/
def NewEncoder (w : Writer) : Encoder :=
  { w := w, hdr := [], nilVal := "", allowMissingColumns := false }

/-- The method `Encoder.WithHeader`. -/
def Encoder.WithHeader (enc : Encoder) (h : List String) : Encoder :=
  { enc with hdr := headerLoop h 0 [] }

/-- The method `Encoder.WithNilValue`. -/
def Encoder.WithNilValue (enc : Encoder) (val : String) : Encoder :=
  { enc with nilVal := val }

/-- The method `Encoder.WithAllowMissingColumns`. -/
def Encoder.WithAllowMissingColumns (enc : Encoder) : Encoder :=
  { enc with allowMissingColumns := true }

/-- The loop of `buildHeader`: `hdr[tag] = i` for every field that is not excluded, `i`
being the index of the field in the struct. -/
def buildHeaderLoop : List Field → Nat → GoMap Nat → GoMap Nat
  | [], _, hdr => hdr
  | f :: rest, i, hdr =>
    if (parseTag (f.tag.Get "csv")).1 = "" ∨ (parseTag (f.tag.Get "csv")).1 = "-" then
      buildHeaderLoop rest (i + 1) hdr
    else buildHeaderLoop rest (i + 1) (hdr.set (parseTag (f.tag.Get "csv")).1 i)

/-- The method `Encoder.buildHeader`. -/
def Encoder.buildHeader (enc : Encoder) (t : List Field) : Encoder :=
  { enc with hdr := buildHeaderLoop t 0 [] }

/-- The panic of a `reflect.Value` accessor called on a value of another kind. -/
def wrongKind : Err := Err.panicked "reflect: call of Value accessor on a value of another kind"

/-- The rendering of an integer in the base of the field's `base` tag (10 without one). -/
def formatWithBase (tag : StructTag) (fmt : Int → Option String) : Except Err String :=
  match tag.Lookup "base" with
  | some baseStr =>
    match strconv.ParseInt baseStr 10 32 with
    | (_, some _) => Except.error Err.ErrInvalidIntBase
    | (b, none) =>
      match fmt b with
      | none => Except.error (Err.panicked "strconv: illegal AppendInt/FormatInt base")
      | some s => Except.ok s
  | none =>
    match fmt 10 with
    | none => Except.error (Err.panicked "strconv: illegal AppendInt/FormatInt base")
    | some s => Except.ok s

/-- The `switch kind` of `Encode`: the built-in rendering of a value of the kind. -/
def encodeKind (lib : Lib) (tag : StructTag) (kind : Ty) (v : Value) : Except Err String :=
  match kind, v with
  | Ty.string, Value.str s => Except.ok s
  | Ty.string, _ => Except.error wrongKind
  | Ty.bool, Value.bool b => Except.ok (strconv.FormatBool b)
  | Ty.bool, _ => Except.error wrongKind
  | Ty.int, Value.int n | Ty.int8, Value.int n | Ty.int16, Value.int n | Ty.int32, Value.int n
  | Ty.int64, Value.int n => formatWithBase tag (strconv.FormatInt n)
  | Ty.int, _ | Ty.int8, _ | Ty.int16, _ | Ty.int32, _ | Ty.int64, _ => Except.error wrongKind
  | Ty.uint, Value.uint n | Ty.uint8, Value.uint n | Ty.uint16, Value.uint n
  | Ty.uint32, Value.uint n | Ty.uint64, Value.uint n =>
    formatWithBase tag (strconv.FormatUint n)
  | Ty.uint, _ | Ty.uint8, _ | Ty.uint16, _ | Ty.uint32, _ | Ty.uint64, _ =>
    Except.error wrongKind
  | Ty.float32, Value.float x | Ty.float64, Value.float x =>
    if tag.Get "format" = "" then
      let precisionStr := if tag.Get "precision" = "" then "-1" else tag.Get "precision"
      match strconv.ParseInt precisionStr 10 32 with
      | (_, some _) => Except.error Err.ErrInvalidFloatPrecision
      | (precision, none) => Except.ok (lib.FormatFloat x precision)
    else Except.ok (lib.Sprintf (tag.Get "format") x)
  | Ty.float32, _ | Ty.float64, _ => Except.error wrongKind
  | Ty.time, Value.time t =>
    Except.ok (lib.timeFormat t (if tag.Get "format" = "" then RFC3339 else tag.Get "format"))
  | Ty.time, _ => Except.error wrongKind
  | Ty.struct, _ => Except.error Err.ErrInvalidDestType
  | _, _ => Except.error Err.ErrInvalidDestType

/-- The part of the loop body of `Encode` that computes the string for `line[index]`: the
nil value for a nil pointer, else the hooks, else the built-in rendering of the value (the
pointed-to value for a pointer field). -/
def encodeValue (lib : Lib) (nilVal : String) (f : Field) (v : Value) : Except Err String :=
  if (match f.ty with | Ty.ptr _ => true | _ => false) = true ∧ v = Value.nil then
    Except.ok nilVal
  else
    match f.addrMarshaller with
    | some m => Except.ok (m v)
    | none =>
      match f.valueMarshaller with
      | some m => Except.ok (m v)
      | none =>
        match f.ty, v with
        | Ty.ptr elem, Value.ptr x => encodeKind lib f.tag elem x
        | Ty.ptr _, _ => Except.error wrongKind
        | t, x => encodeKind lib f.tag t x

/-- One pass of the loop body of `Encode` for the field `f` holding `v`: the row under
construction after it and the error `Encode` returns at this field, if any. -/
def encodeField (lib : Lib) (hdr : GoMap Nat) (nilVal : String) (allowMissingColumns : Bool)
    (f : Field) (v : Value) (line : List String) : List String × Option Err :=
  if (parseTag (f.tag.Get "csv")).1 = "" ∨ (parseTag (f.tag.Get "csv")).1 = "-" then (line, none)
  else
    match hdr.get? (parseTag (f.tag.Get "csv")).1 with
    | none => if allowMissingColumns then (line, none) else (line, some Err.ErrMissingColumn)
    | some index =>
      match encodeValue lib nilVal f v with
      | Except.error e => (line, some e)
      | Except.ok s =>
        if index < line.length then (line.set index s, none)
        else (line, some (Err.panicked "index out of range"))

/-- The field loop of `Encode`: the row as the loop leaves it and the error returned. -/
def encodeFields (lib : Lib) (hdr : GoMap Nat) (nilVal : String) (allowMissingColumns : Bool) :
    Record → List String → List String × Option Err
  | [], line => (line, none)
  | (f, v) :: rest, line =>
    match encodeField lib hdr nilVal allowMissingColumns f v line with
    | (line1, some e) => (line1, some e)
    | (line1, none) => encodeFields lib hdr nilVal allowMissingColumns rest line1

/-- The loop of `encodeMap`: `line[i] = m[k]` for every header entry, the empty string for
a name that is not a key of `m`. -/
def encodeMapLoop (m : GoMap String) : GoMap Nat → List String → List String × Option Err
  | [], line => (line, none)
  | (k, i) :: rest, line =>
    if i < line.length then encodeMapLoop m rest (line.set i ((m.get? k).getD ""))
    else (line, some (Err.panicked "index out of range"))

/-- The method `encodeMap`. -/
def Encoder.encodeMap (enc : Encoder) (m : GoMap String) : Encoder × Option Err :=
  if enc.hdr.length = 0 then (enc, some Err.ErrMissingHeader)
  else
    match encodeMapLoop m enc.hdr (List.replicate enc.hdr.length "") with
    | (_, some e) => (enc, some e)
    | (line, none) =>
      let res := enc.w.Write line
      ({ enc with w := res.1 }, res.2)

/-- The method `Encoder.Encode`: the encoder after the call (its sink and its header) and
the error returned. -/
def Encoder.Encode (lib : Lib) (enc : Encoder) (v : Target) : Encoder × Option Err :=
  match v.MarshalCSV with
  | some m =>
    match m v.shape with
    | (_, some e) => (enc, some e)
    | (line, none) =>
      let res := enc.w.Write line
      ({ enc with w := res.1 }, res.2)
  | none =>
    match v.shape with
    | Shape.map m => enc.encodeMap m
    | Shape.mapPtr m => enc.encodeMap m
    | Shape.nilMap => enc.encodeMap []
    | Shape.nilMapPtr => enc.encodeMap []
    | Shape.nilIface =>
      (enc, some (Err.panicked "invalid memory address or nil pointer dereference"))
    | Shape.nonPointer => (enc, some Err.ErrInvalidType)
    | Shape.otherPtr => (enc, some (Err.panicked "reflect: NumField of non-struct type"))
    | Shape.structPtr rec =>
      let enc1 := if enc.hdr.length = 0 then enc.buildHeader (rec.map Prod.fst) else enc
      match encodeFields lib enc1.hdr enc1.nilVal enc1.allowMissingColumns rec
          (List.replicate enc1.hdr.length "") with
      | (_, some e) => (enc1, some e)
      | (line, none) =>
        let res := enc1.w.Write line
        ({ enc1 with w := res.1 }, res.2)

/-- A library for records without float or time fields: its functions accept nothing. -/
def noFloatLib : Lib :=
  { ParseFloat := fun _ _ => Except.error Err.numSyn
    FormatFloat := fun _ _ => ""
    Sprintf := fun _ _ => ""
    timeParse := fun _ _ => Except.error (Err.other "time")
    timeFormat := fun _ _ => "" }

/-- The struct `simpleTest` of the tests, holding the given values. -/
def simpleTest (s : String) (n : Int) : Record :=
  [({ name := "StringVal", ty := Ty.string, tag := [("csv", "str")] }, Value.str s),
   ({ name := "IntVal", ty := Ty.int, tag := [("csv", "n")] }, Value.int n)]

/-- The struct `simpleTestPointer` of the tests, holding the given values. -/
def simpleTestPointer (s : Value) (n : Int) : Record :=
  [({ name := "StringVal", ty := Ty.ptr Ty.string, tag := [("csv", "str,omitempty")] }, s),
   ({ name := "IntVal", ty := Ty.int, tag := [("csv", "n")] }, Value.int n)]

/-- The struct `simpleTestNoTag` of the tests, holding the given values. -/
def simpleTestNoTag (s : String) (n n2 n3 : Int) : Record :=
  [({ name := "StringVal", ty := Ty.string, tag := [("csv", "str")] }, Value.str s),
   ({ name := "IntVal", ty := Ty.int, tag := [("csv", "n")] }, Value.int n),
   ({ name := "IntVal2", ty := Ty.int, tag := [("csv", "-")] }, Value.int n2),
   ({ name := "IntVal3", ty := Ty.int, tag := [] }, Value.int n3)]

/-- The struct `intTest` of the tests, holding the given values. -/
def intTest (a b : Int) (c d : Nat) : Record :=
  [({ name := "A", ty := Ty.int, tag := [("csv", "a")] }, Value.int a),
   ({ name := "B", ty := Ty.int, tag := [("csv", "b"), ("base", "16")] }, Value.int b),
   ({ name := "C", ty := Ty.uint, tag := [("csv", "c")] }, Value.uint c),
   ({ name := "D", ty := Ty.uint, tag := [("csv", "d"), ("base", "8")] }, Value.uint d)]

/-- A pointer to a struct without whole-record hooks. -/
def structPtr (rec : Record) : Target := { shape := Shape.structPtr rec }

/-- The field values of the struct a target points to. -/
def Target.values (v : Target) : List Value :=
  match v.shape with
  | Shape.structPtr rec => rec.map Prod.snd
  | _ => []


/-! ## Vocabulary of the statements -/

/-- The column name of a field: the first segment of its `csv` tag, as `Decode` and
`Encode` compute it. -/
def Field.column (f : Field) : String := (parseTag (f.tag.Get "csv")).1

/-- The options of a field: the segments of its `csv` tag after the column name. -/
def Field.options (f : Field) : List String := (parseTag (f.tag.Get "csv")).2

/-- A struct whose first field has no tag and whose second is tagged `csv:"str"`. -/
def excludedFirst (n : Int) (s : String) : Record :=
  [({ name := "Skipped", ty := Ty.int, tag := [] }, Value.int n),
   ({ name := "StringVal", ty := Ty.string, tag := [("csv", "str")] }, Value.str s)]

/-- The struct `simpleTestPointer` with the option `omitempty` removed from the tag of its
`*string` field. -/
def plainPointer (s : Value) (n : Int) : Record :=
  [({ name := "StringVal", ty := Ty.ptr Ty.string, tag := [("csv", "str")] }, s),
   ({ name := "IntVal", ty := Ty.int, tag := [("csv", "n")] }, Value.int n)]

/-- A struct with an `int` field tagged `csv:"a"` and a `string` field tagged `csv:"b"`. -/
def intThenString (a : Int) (b : String) : Record :=
  [({ name := "A", ty := Ty.int, tag := [("csv", "a")] }, Value.int a),
   ({ name := "B", ty := Ty.string, tag := [("csv", "b")] }, Value.str b)]

/-- A writer that has been handed nothing and accepts every row. -/
def emptyWriter : Writer := { rows := [], replies := [] }

/-- The value of a character as a digit of positional notation: `0`..`9` stand for 0..9,
the letters `a`..`z` and `A`..`Z` for 10..35. -/
def digitValue (c : Char) : Option Nat :=
  if 48 ≤ c.toNat ∧ c.toNat ≤ 57 then some (c.toNat - 48)
  else if 97 ≤ c.toNat ∧ c.toNat ≤ 122 then some (c.toNat - 97 + 10)
  else if 65 ≤ c.toNat ∧ c.toNat ≤ 90 then some (c.toNat - 65 + 10)
  else none

/-- The numeral `cs` denotes the natural number `n` in base `b`: it is not empty, each of
its characters is a digit below `b`, and `n` is the value of these digits, the most
significant first. -/
def natDenotes (b : Nat) (cs : List Char) (n : Nat) : Prop :=
  cs ≠ [] ∧ ∃ ds : List Nat, cs.map digitValue = ds.map some ∧ (∀ d ∈ ds, d < b) ∧
    Nat.ofDigits b ds.reverse = n

/-- The string `s` denotes the integer `z` in base `b`: an optional sign `+` or `-`
followed by a numeral of base `b`. -/
def intDenotes (b : Nat) (s : String) (z : Int) : Prop :=
  match s.data with
  | '-' :: cs => ∃ n, natDenotes b cs n ∧ z = -(n : Int)
  | '+' :: cs => ∃ n, natDenotes b cs n ∧ z = (n : Int)
  | cs => ∃ n, natDenotes b cs n ∧ z = (n : Int)

/-- The width in bits of a signed integer kind, as `Decode` passes it to `decodeInt` (the
native `int` has the width `IntSize`). -/
def Ty.intBits : Ty → Option Nat
  | Ty.int => some strconv.IntSize
  | Ty.int8 => some 8
  | Ty.int16 => some 16
  | Ty.int32 => some 32
  | Ty.int64 => some 64
  | _ => none

/-- The width in bits of an unsigned integer kind. -/
def Ty.uintBits : Ty → Option Nat
  | Ty.uint => some strconv.IntSize
  | Ty.uint8 => some 8
  | Ty.uint16 => some 16
  | Ty.uint32 => some 32
  | Ty.uint64 => some 64
  | _ => none

/-- A field without per-value hooks: none of the four type assertions succeeds. -/
def Field.plain (f : Field) : Prop :=
  f.valueUnmarshaler = none ∧ f.addrUnmarshaler = none ∧ f.addrMarshaller = none ∧
    f.valueMarshaller = none

/-- The index that `WithHeader` builds from a list of names, written out: name `h[k]` at
position `i + k`. -/
def indexFrom : List String → Nat → GoMap Nat
  | [], _ => []
  | name :: rest, i => (name, i) :: indexFrom rest (i + 1)

/-- The entry that the fields of a record give to the column `name`, starting from `acc`:
each field of that column that is not excluded and can be rendered replaces the entry, in
declaration order, so the last one stays. -/
def columnEntryFrom (lib : Lib) (nilVal : String) (name : String) : Record → String → String
  | [], acc => acc
  | (f, v) :: rest, acc =>
    if f.column = name ∧ f.column ≠ "" ∧ f.column ≠ "-" then
      columnEntryFrom lib nilVal name rest
        (match encodeValue lib nilVal f v with
          | Except.ok s => s
          | Except.error _ => acc)
    else columnEntryFrom lib nilVal name rest acc

/-- The entry of the column `name` in the row of a record: the rendering of the last
declared field of that column, the empty string when no field is of that column. -/
def columnEntry (lib : Lib) (nilVal : String) (rec : Record) (name : String) : String :=
  columnEntryFrom lib nilVal name rec ""

/-- A struct with two `string` fields that are both tagged `csv:"a"`. -/
def sameColumn (x y : String) : Record :=
  [({ name := "A", ty := Ty.string, tag := [("csv", "a")] }, Value.str x),
   ({ name := "B", ty := Ty.string, tag := [("csv", "a")] }, Value.str y)]

/-- The base of a field is usable in both directions: the `base` tag, if any, parses, and
the base lies in `2..36`. -/
def validBase (tag : StructTag) : Prop :=
  (base tag).2 = none ∧ 2 ≤ (base tag).1 ∧ (base tag).1 ≤ 36

/-- The value `x` is a value of the supported scalar kind `t` that the conversions can
carry: a string, a boolean, an integer within the width of its kind under a usable base,
or a float or time value whose rendering the library parses back to it. -/
def scalarValue (lib : Lib) (tag : StructTag) (t : Ty) (x : Value) : Prop :=
  match x with
  | Value.str _ => t = Ty.string
  | Value.bool _ => t = Ty.bool
  | Value.int n =>
    ∃ bits, t.intBits = some bits ∧ validBase tag ∧ -(2 ^ (bits - 1) : Int) ≤ n ∧
      n < 2 ^ (bits - 1)
  | Value.uint n => ∃ bits, t.uintBits = some bits ∧ validBase tag ∧ n < 2 ^ bits
  | Value.float _ =>
    (t = Ty.float32 ∨ t = Ty.float64) ∧
      ∃ s, encodeKind lib tag t x = Except.ok s ∧ decodeKind lib tag t s = Except.ok x
  | Value.time _ =>
    t = Ty.time ∧
      ∃ s, encodeKind lib tag t x = Except.ok s ∧ decodeKind lib tag t s = Except.ok x
  | _ => False

/-- The field `f` holding `v` can make the round trip under the nil value `nilVal`: it has
no per-value hooks; a pointer field is nil and tagged `omitempty`, or points to a scalar
value; a field tagged `omitempty` whose rendering is the nil value holds the zero value of
its type (for a pointer field: it does not point to a value rendered as the nil value). -/
def Field.roundTrips (lib : Lib) (nilVal : String) (f : Field) (v : Value) : Prop :=
  f.plain ∧
    match f.ty, v with
    | Ty.ptr _, Value.nil => omitEmpty f.options = true
    | Ty.ptr elem, Value.ptr x =>
      scalarValue lib f.tag elem x ∧
        ¬ (omitEmpty f.options = true ∧ encodeKind lib f.tag elem x = Except.ok nilVal)
    | Ty.ptr _, _ => False
    | t, x =>
      scalarValue lib f.tag t x ∧
        (omitEmpty f.options = true → encodeKind lib f.tag t x = Except.ok nilVal → x = t.zero)

/-- The zero-valued record of the same struct type. -/
def Record.zeroed (rec : Record) : Record := rec.map (fun fv => (fv.1, fv.1.ty.zero))

/-- The record that a round trip gives back: each field that is not excluded holds its
original value, each excluded field the zero value it started from. -/
def Record.carried (rec : Record) : List Value :=
  rec.map (fun fv => if fv.1.column ≠ "" ∧ fv.1.column ≠ "-" then fv.2 else fv.1.ty.zero)

/-- The position of the last occurrence of `name` in the list `h`, counting from `i`. -/
def lastPos : List String → Nat → String → Option Nat
  | [], _, _ => none
  | a :: rest, i, name =>
    match lastPos rest (i + 1) name with
    | some k => some k
    | none => if a = name then some i else none

/-- The names of a map, in insertion order. -/
def GoMap.keys {α : Type} (m : GoMap α) : List String := m.map Prod.fst

/-- The kind that the hooks and the conversion of `Decode` work on: the element type of a
pointer field, the type of any other field. -/
def Field.kind (f : Field) : Ty :=
  match f.ty with
  | Ty.ptr elem => elem
  | t => t

/-- The value that the hooks and the conversion of `Decode` write into: a fresh zero value
for a pointer field, the field's own value for any other field. -/
def Field.slot (f : Field) (v : Value) : Value :=
  match f.ty with
  | Ty.ptr elem => elem.zero
  | _ => v

/-- The value of the field once `x` has been written into its slot: a pointer to `x` for
a pointer field, `x` itself for any other field. -/
def Field.wrap (f : Field) (x : Value) : Value :=
  match f.ty with
  | Ty.ptr _ => Value.ptr x
  | _ => x

/-- The encoder as `Encode` uses it on a struct: with the header it derives from the
struct when it has none. -/
def Encoder.ready (enc : Encoder) (rec : Record) : Encoder :=
  if enc.hdr.length = 0 then enc.buildHeader (rec.map Prod.fst) else enc

/-- The method `MarshalCSVValue` of the type `valueMarshaller` of the tests, on the value
or on a pointer to it. -/
def marshalPrefixed : Value → String
  | Value.str s => "prefix: " ++ s
  | Value.ptr (Value.str s) => "prefix: " ++ s
  | _ => "prefix: "

/-- The method `UnmarshalCSVValue` of the type `valueMarshaller` of the tests. -/
def unmarshalPrefixed : UnmarshalHook := fun _ val => (Value.str ("prefix " ++ val), none)

/-- The struct `valueMarshalerTest` of the tests: its field `Test` is of the string type
`valueMarshaller`, whose methods have pointer receivers. -/
def valueMarshalerTest (s : String) (t : Value) : Record :=
  [({ name := "StringVal", ty := Ty.string, tag := [("csv", "str")] }, Value.str s),
   ({ name := "Test", ty := Ty.string, tag := [("csv", "prefixed")],
      addrUnmarshaler := some unmarshalPrefixed, addrMarshaller := some marshalPrefixed }, t)]

/-- The struct `valueMarshalerPointerTest` of the tests: its field `Test` is a pointer to
a `valueMarshaller`. -/
def valueMarshalerPointerTest (s : String) (t : Value) : Record :=
  [({ name := "StringVal", ty := Ty.string, tag := [("csv", "str")] }, Value.str s),
   ({ name := "Test", ty := Ty.ptr Ty.string, tag := [("csv", "prefixed")],
      addrUnmarshaler := some unmarshalPrefixed, valueMarshaller := some marshalPrefixed }, t)]

/-- The struct `intTestBadBase` of the tests. -/
def intTestBadBase (a : Int) : Record :=
  [({ name := "A", ty := Ty.int, tag := [("csv", "a"), ("base", "z")] }, Value.int a)]


/-- The struct `floatTestBadPrecision` of the tests, holding the given value. -/
def floatTestBadPrecision (a : GoFloat) : Record :=
  [({ name := "A", ty := Ty.float64, tag := [("csv", "c"), ("precision", "Z")] },
    Value.float a)]

/-- A struct with a `float64` field tagged `csv:"c" precision:""`. -/
def floatEmptyPrecision (a : GoFloat) : Record :=
  [({ name := "A", ty := Ty.float64, tag := [("csv", "c"), ("precision", "")] },
    Value.float a)]

/-- A library whose formatting functions answer with a description of the call they
received, and whose parsing functions accept nothing. -/
def callLib : Lib :=
  { ParseFloat := fun _ _ => Except.error Err.numSyn
    FormatFloat := fun x prec =>
      "FormatFloat(#" ++ (strconv.FormatUint x.bits 10).getD "" ++ ",f," ++
        (strconv.FormatInt prec 10).getD "" ++ ",64)"
    Sprintf := fun format x =>
      "Sprintf(" ++ format ++ ",#" ++ (strconv.FormatUint x.bits 10).getD "" ++ ")"
    timeParse := fun _ _ => Except.error (Err.other "time")
    timeFormat := fun t layout =>
      "Format(#" ++ (strconv.FormatUint t.instant 10).getD "" ++ "," ++ layout ++ ")" }

/-- The kinds that the `switch kind` of `Encode` and `Decode` converts: string, bool, the
signed and unsigned integers, the floats and `time.Time`. -/
def Ty.builtin : Ty → Bool
  | Ty.string | Ty.bool => true
  | Ty.int | Ty.int8 | Ty.int16 | Ty.int32 | Ty.int64 => true
  | Ty.uint | Ty.uint8 | Ty.uint16 | Ty.uint32 | Ty.uint64 => true
  | Ty.float32 | Ty.float64 | Ty.time => true
  | Ty.struct | Ty.slice | Ty.iface | Ty.ptr _ => false

/-- The struct `invalidSliceTest` of the tests; the slice it holds is not looked at. -/
def invalidSliceTest : Record :=
  [({ name := "A", ty := Ty.slice, tag := [("csv", "a")] }, Value.other)]

/-- The struct `boolTest` of the tests, holding the given values. -/
def boolTest (t f : Bool) : Record :=
  [({ name := "True", ty := Ty.bool, tag := [("csv", "t")] }, Value.bool t),
   ({ name := "False", ty := Ty.bool, tag := [("csv", "f")] }, Value.bool f)]

/-- A method `UnmarshalCSVValue` that stores the string it is given and then returns an
error. -/
def storeThenFail : UnmarshalHook := fun _ val => (Value.str val, some (Err.other "rejected"))

/-- A struct with one field, a pointer to a string type whose `UnmarshalCSVValue` (pointer
receiver) is `storeThenFail`, tagged `csv:"a"`. -/
def failingHookPointer (t : Value) : Record :=
  [({ name := "Test", ty := Ty.ptr Ty.string, tag := [("csv", "a")],
      addrUnmarshaler := some storeThenFail }, t)]

/-! ## Fixed-point rendering of floats -/

namespace strconv

/-- The decimal digits of `n`, the most significant first (`0` for zero); the fuel bounds
the number of digits. -/
def decimalDigitsAux : Nat → Nat → List Char
  | 0, _ => []
  | fuel + 1, n =>
    if n < 10 then [digitChar n] else decimalDigitsAux fuel (n / 10) ++ [digitChar (n % 10)]

/-- The decimal digits of `n`, the most significant first. -/
def decimalDigits (n : Nat) : List Char := decimalDigitsAux (n + 1) n

/-- The last `k` decimal digits of `n`, the most significant first, with leading zeros. -/
def fractionDigits : Nat → Nat → List Char
  | 0, _ => []
  | k + 1, n => fractionDigits k (n / 10) ++ [digitChar (n % 10)]

/-- The quotient `num / den` rounded to the nearest integer, a tie to the even one. -/
def roundHalfEven (num den : Nat) : Nat :=
  if 2 * (num % den) > den ∨ (2 * (num % den) = den ∧ (num / den) % 2 = 1) then num / den + 1
  else num / den

/-- Go's `strconv.FormatFloat(x, 'f', prec, 64)` for a precision `prec ≥ 0`, after the
documentation of `strconv` and `ftoa.go`: `NaN`, `+Inf` and `-Inf` for the special values;
otherwise the sign, then the exact decimal expansion of the value `mant * 2^(exp - 1075)`
rounded to `prec` digits after the decimal point (to nearest, a tie to even), written as
the digits of the integer part and, when `prec > 0`, a point and exactly `prec` digits. -/
def FormatFloatFixed (x : GoFloat) (prec : Nat) : String :=
  let neg := (x.bits / 2 ^ 63) % 2 = 1
  let exp := (x.bits / 2 ^ 52) % 2 ^ 11
  let frac := x.bits % 2 ^ 52
  if exp = 2047 then
    if frac ≠ 0 then "NaN" else if neg then "-Inf" else "+Inf"
  else
    let mant := if exp = 0 then frac else frac + 2 ^ 52
    let exp1 := if exp = 0 then 1 else exp
    let scaled :=
      if exp1 ≥ 1075 then mant * 2 ^ (exp1 - 1075) * 10 ^ prec
      else roundHalfEven (mant * 10 ^ prec) (2 ^ (1075 - exp1))
    String.mk ((if neg then ['-'] else []) ++ decimalDigits (scaled / 10 ^ prec) ++
      (if prec = 0 then [] else '.' :: fractionDigits prec (scaled % 10 ^ prec)))

end strconv

/-- The library `lib` with its `FormatFloat` replaced, for every precision `prec ≥ 0`, by
the fixed-point formatter `strconv.FormatFloatFixed`; a negative precision (the shortest
representation that parses back) is left to `lib`. -/
def withFixedFormat (lib : Lib) : Lib :=
  { lib with
    FormatFloat := fun x prec =>
      if 0 ≤ prec then strconv.FormatFloatFixed x prec.toNat else lib.FormatFloat x prec }

/-- The field `C` of the struct `floatTest` of the tests, holding the given value. -/
def floatTestC (c : GoFloat) : Record :=
  [({ name := "C", ty := Ty.float64, tag := [("csv", "c"), ("precision", "5")] },
    Value.float c)]

/-- The float is neither a NaN nor an infinity: its exponent bits are not all ones. -/
def GoFloat.finite (x : GoFloat) : Prop := (x.bits / 2 ^ 52) % 2 ^ 11 ≠ 2047

/-- The `float64` nearest to the decimal `1234567890.1234567` (`0x41D26580B487E6B7`), the
value of the field `C` in `TestEncoder_Float`. -/
def float1234567890 : GoFloat := { bits := 4742964961033578167 }

/-- The `float64` value `+Inf` (`0x7FF0000000000000`). -/
def floatInf : GoFloat := { bits := 9218868437227405312 }

/-- The struct `floatTest` of the tests, holding the given values. -/
def floatTest (a b c : GoFloat) : Record :=
  [({ name := "A", ty := Ty.float64, tag := [("csv", "a")] }, Value.float a),
   ({ name := "B", ty := Ty.float64, tag := [("csv", "b"), ("format", "%9.2f")] },
    Value.float b),
   ({ name := "C", ty := Ty.float64, tag := [("csv", "c"), ("precision", "5")] },
    Value.float c)]
/-! ## Structural lemmas on the field loops -/

theorem decodeFields_append (lib : Lib) (hdr : GoMap Nat) (nv : String) (al : Bool)
    (line : List String) (pre post : Record) :
    decodeFields lib hdr nv al line (pre ++ post) =
      match decodeFields lib hdr nv al line pre with
      | (pre1, some e) => (pre1 ++ post, some e)
      | (pre1, none) =>
        ((pre1 ++ (decodeFields lib hdr nv al line post).1),
          (decodeFields lib hdr nv al line post).2) := by
  induction pre with
  | nil => simp [decodeFields]
  | cons fv rest ih =>
    obtain ⟨f, v⟩ := fv
    simp only [List.cons_append, decodeFields]
    rcases hstep : decodeField lib hdr nv al line f v with ⟨v1, _ | e⟩
    · simp only [List.append_eq]
      rw [ih]
      rcases hrest : decodeFields lib hdr nv al line rest with ⟨rest1, _ | e1⟩ <;> simp
    · simp

theorem decodeFields_length (lib : Lib) (hdr : GoMap Nat) (nv : String) (al : Bool)
    (line : List String) (rec : Record) :
    (decodeFields lib hdr nv al line rec).1.length = rec.length := by
  induction rec with
  | nil => simp [decodeFields]
  | cons fv rest ih =>
    obtain ⟨f, v⟩ := fv
    simp only [decodeFields]
    rcases hstep : decodeField lib hdr nv al line f v with ⟨v1, _ | e⟩
    · rcases hrest : decodeFields lib hdr nv al line rest with ⟨rest1, e1⟩
      rw [hrest] at ih
      simpa using ih
    · simp

/-- A field whose loop pass changes nothing is transparent to the loop: the record after
`Decode` is the one obtained without the field, with the field put back unchanged, and the
error is the same. -/
theorem decodeFields_skip (lib : Lib) (hdr : GoMap Nat) (nv : String) (al : Bool)
    (line : List String) (pre post : Record) (f : Field) (v : Value)
    (hskip : decodeField lib hdr nv al line f v = (v, none)) :
    decodeFields lib hdr nv al line (pre ++ (f, v) :: post) =
      (((decodeFields lib hdr nv al line (pre ++ post)).1.take pre.length) ++
          (f, v) :: ((decodeFields lib hdr nv al line (pre ++ post)).1.drop pre.length),
        (decodeFields lib hdr nv al line (pre ++ post)).2) := by
  have hlen := decodeFields_length lib hdr nv al line pre
  rw [decodeFields_append, decodeFields_append]
  rcases hpre : decodeFields lib hdr nv al line pre with ⟨pre1, _ | e⟩
  · rw [hpre] at hlen
    simp only [decodeFields, hskip] at *
    simp [← hlen]
  · rw [hpre] at hlen
    simp only at *
    simp [← hlen]

theorem encodeFields_append (lib : Lib) (hdr : GoMap Nat) (nv : String) (al : Bool)
    (pre post : Record) (line : List String) :
    encodeFields lib hdr nv al (pre ++ post) line =
      match encodeFields lib hdr nv al pre line with
      | (line1, some e) => (line1, some e)
      | (line1, none) => encodeFields lib hdr nv al post line1 := by
  induction pre generalizing line with
  | nil => simp [encodeFields]
  | cons fv rest ih =>
    obtain ⟨f, v⟩ := fv
    simp only [List.cons_append, encodeFields]
    rcases hstep : encodeField lib hdr nv al f v line with ⟨line1, _ | e⟩
    · simp only [List.append_eq, ih]
    · simp


/-- When the field loop of `Decode` ends without error, every field holds what its own
loop pass computed, and no pass raised an error. -/
theorem decodeFields_ok (lib : Lib) (hdr : GoMap Nat) (nv : String) (al : Bool)
    (line : List String) (rec : Record)
    (h : (decodeFields lib hdr nv al line rec).2 = none) :
    (decodeFields lib hdr nv al line rec).1 =
        rec.map (fun fv => (fv.1, (decodeField lib hdr nv al line fv.1 fv.2).1)) ∧
      ∀ fv ∈ rec, (decodeField lib hdr nv al line fv.1 fv.2).2 = none := by
  induction rec with
  | nil => simp [decodeFields]
  | cons fv rest ih =>
    obtain ⟨f, v⟩ := fv
    simp only [decodeFields] at h ⊢
    rcases hstep : decodeField lib hdr nv al line f v with ⟨v1, _ | e⟩
    · rw [hstep] at h
      simp only at h ⊢
      obtain ⟨ih1, ih2⟩ := ih h
      refine ⟨by rw [ih1]; simp [hstep], ?_⟩
      intro fv hfv
      rcases List.mem_cons.mp hfv with rfl | hfv
      · simp [hstep]
      · exact ih2 fv hfv
    · rw [hstep] at h
      simp at h

/-! ## Lemmas on the strconv model -/

namespace strconv

theorem lower_ge (n : Nat) : n ≤ lower n := by
  unfold lower
  apply Nat.le_of_testBit
  intro i hi
  simp [hi]

theorem lower_small : ∀ n, n < 128 →
    ((97 ≤ lower n ∧ lower n ≤ 122) ↔ ((97 ≤ n ∧ n ≤ 122) ∨ (65 ≤ n ∧ n ≤ 90))) ∧
    (97 ≤ n ∧ n ≤ 122 → lower n = n) ∧ (65 ≤ n ∧ n ≤ 90 → lower n = n + 32) := by
  decide

theorem digitVal_eq_digitValue (c : Char) : digitVal c = digitValue c := by
  unfold digitVal digitValue
  by_cases h0 : 48 ≤ c.toNat ∧ c.toNat ≤ 57
  · simp [h0]
  · simp only [h0, if_false]
    by_cases hs : c.toNat < 128
    · obtain ⟨h1, h2, h3⟩ := lower_small c.toNat hs
      by_cases ha : 97 ≤ c.toNat ∧ c.toNat ≤ 122
      · have hl := h2 ha
        simp [hl, ha]
      · by_cases hA : 65 ≤ c.toNat ∧ c.toNat ≤ 90
        · have hl := h3 hA
          have : 97 ≤ lower c.toNat ∧ lower c.toNat ≤ 122 := h1.mpr (Or.inr hA)
          simp only [this, ha, hA, if_true, if_false, and_self]
          rw [hl]
          congr 1
        · have : ¬ (97 ≤ lower c.toNat ∧ lower c.toNat ≤ 122) := by
            intro h
            rcases h1.mp h with h | h
            · exact ha h
            · exact hA h
          simp [this, ha, hA]
    · have hge := lower_ge c.toNat
      have h1 : ¬ (97 ≤ lower c.toNat ∧ lower c.toNat ≤ 122) := by omega
      have h2 : ¬ (97 ≤ c.toNat ∧ c.toNat ≤ 122) := by omega
      have h3 : ¬ (65 ≤ c.toNat ∧ c.toNat ≤ 90) := by omega
      simp [h1, h2, h3]

theorem digitChar_spec : ∀ d, d < 36 →
    digitVal (digitChar d) = some d ∧ digitChar d ≠ '_' ∧ digitChar d ≠ '-' ∧
      digitChar d ≠ '+' := by
  decide

theorem parseUintLoop_sound (b cutoff maxVal : Nat) (hb : 2 ≤ b) (hb36 : b ≤ 36)
    (hcut : cutoff = maxUint64 / b + 1) :
    ∀ (cs : List Char) (n : Nat) (us : Bool) (m : Nat) (us1 : Bool),
      parseUintLoop b false cutoff maxVal cs n us = ((m, us1), none) →
      ∃ ds : List Nat, cs.map digitVal = ds.map some ∧ (∀ d ∈ ds, d < b) ∧
        m = ds.foldl (fun a d => a * b + d) n ∧ us1 = us ∧ (cs ≠ [] → m ≤ maxVal) := by
  intro cs
  induction cs with
  | nil =>
    intro n us m us1 h
    simp only [parseUintLoop, Prod.mk.injEq, and_true] at h
    exact ⟨[], by simp, by simp, by simp [h.1], h.2.symm, by simp⟩
  | cons c cs ih =>
    intro n us m us1 h
    unfold parseUintLoop at h
    simp only [Bool.false_eq_true, and_false, if_false] at h
    rcases hd : digitVal c with _ | d
    · simp [hd] at h
    · simp only [hd] at h
      by_cases h1 : d ≥ b
      · simp [h1] at h
      · simp only [h1, if_false] at h
        by_cases h2 : n ≥ cutoff
        · simp [h2] at h
        · simp only [h2, if_false] at h
          have hnb : n * b ≤ maxUint64 := by
            have : n ≤ maxUint64 / b := by omega
            calc n * b ≤ maxUint64 / b * b := Nat.mul_le_mul_right b this
              _ ≤ maxUint64 := Nat.div_mul_le_self maxUint64 b
          have hmu : maxUint64 = 18446744073709551615 := by norm_num [maxUint64]
          have hn0 : (n * b) % 2 ^ 64 = n * b := by
            apply Nat.mod_eq_of_lt
            rw [hmu] at hnb
            norm_num
            omega
          rw [hn0] at h
          split at h
          · simp at h
          · rename_i h3
            have hsum : (n * b + d) % 2 ^ 64 = n * b + d := by
              apply Nat.mod_eq_of_lt
              by_contra hge
              apply h3
              left
              rw [hmu] at hnb
              norm_num at hge ⊢
              omega
            rw [hsum] at h h3
            obtain ⟨ds, hds1, hds2, hds3, hds4, hds5⟩ := ih (n * b + d) us m us1 h
            refine ⟨d :: ds, ?_, ?_, ?_, hds4, ?_⟩
            · simp [hd, hds1]
            · intro x hx
              rcases List.mem_cons.mp hx with rfl | hx
              · omega
              · exact hds2 x hx
            · simpa using hds3
            · intro _
              by_cases hcs : cs = []
              · subst hcs
                simp only [parseUintLoop, Prod.mk.injEq, and_true] at h
                omega
              · exact hds5 hcs

theorem foldl_eq_ofDigits (b : Nat) (ds : List Nat) :
    ds.foldl (fun a d => a * b + d) 0 = Nat.ofDigits b ds.reverse := by
  rw [Nat.ofDigits_eq_foldr, List.foldr_reverse]
  congr 1
  funext a d
  simp [Nat.mul_comm, Nat.add_comm]

theorem parseUintLoop_append (b : Nat) (base0 : Bool) (cutoff maxVal : Nat) :
    ∀ (xs ys : List Char) (n : Nat) (us : Bool),
      parseUintLoop b base0 cutoff maxVal (xs ++ ys) n us =
        match parseUintLoop b base0 cutoff maxVal xs n us with
        | ((m, us1), none) => parseUintLoop b base0 cutoff maxVal ys m us1
        | (r, some e) => (r, some e) := by
  intro xs
  induction xs with
  | nil => intro ys n us; simp [parseUintLoop]
  | cons c cs ih =>
    intro ys n us
    simp only [List.cons_append, parseUintLoop]
    split
    · exact ih ys n true
    · split
      · rfl
      · split
        · rfl
        · split
          · rfl
          · split
            · rfl
            · exact ih ys _ us

theorem parseUintLoop_digit (b cutoff maxVal : Nat) (hb : 2 ≤ b) (hb36 : b ≤ 36)
    (hcut : cutoff = maxUint64 / b + 1) (hmax : maxVal ≤ maxUint64) (n d : Nat) (us : Bool)
    (hd : d < b) (hv : n * b + d ≤ maxVal) :
    parseUintLoop b false cutoff maxVal [digitChar d] n us = ((n * b + d, us), none) := by
  have hmu : maxUint64 = 18446744073709551615 := by norm_num [maxUint64]
  obtain ⟨hdv, _, _, _⟩ := digitChar_spec d (by omega)
  have hlt : n * b + d < 2 ^ 64 := by
    rw [hmu] at hmax
    norm_num
    omega
  have hlt0 : n * b < 2 ^ 64 := by omega
  have hncut : ¬ n ≥ cutoff := by
    rw [hcut]
    have : n ≤ maxUint64 / b := by
      rw [Nat.le_div_iff_mul_le (by omega)]
      omega
    omega
  unfold parseUintLoop
  simp only [Bool.false_eq_true, and_false, if_false, hdv]
  have hdb : ¬ d ≥ b := by omega
  simp only [hdb, hncut, if_false, Nat.mod_eq_of_lt hlt0, Nat.mod_eq_of_lt hlt]
  have : ¬ (n * b + d < n * b ∨ n * b + d > maxVal) := by omega
  simp [parseUintLoop, hv]

theorem parse_formatBitsLoop (b cutoff maxVal : Nat) (hb : 2 ≤ b) (hb36 : b ≤ 36)
    (hcut : cutoff = maxUint64 / b + 1) (hmax : maxVal ≤ maxUint64) :
    ∀ (fuel u : Nat) (acc : List Char), u < b ^ (fuel + 1) → u ≤ maxVal →
      ∃ cs : List Char, formatBitsLoop b fuel u acc = cs ++ acc ∧ cs ≠ [] ∧
        (∀ c ∈ cs, c ≠ '-' ∧ c ≠ '+') ∧
        ∀ us, parseUintLoop b false cutoff maxVal cs 0 us = ((u, us), none) := by
  have hsingle : ∀ (u : Nat) (acc : List Char), u < b → u ≤ maxVal →
      ∃ cs : List Char, digitChar u :: acc = cs ++ acc ∧ cs ≠ [] ∧
        (∀ c ∈ cs, c ≠ '-' ∧ c ≠ '+') ∧
        ∀ us, parseUintLoop b false cutoff maxVal cs 0 us = ((u, us), none) := by
    intro u acc hu hle
    refine ⟨[digitChar u], by simp, by simp, ?_, ?_⟩
    · intro c hc
      obtain ⟨_, _, h3, h4⟩ := digitChar_spec u (by omega)
      simp only [List.mem_singleton] at hc
      subst hc
      exact ⟨h3, h4⟩
    · intro us
      have := parseUintLoop_digit b cutoff maxVal hb hb36 hcut hmax 0 u us hu (by omega)
      simpa using this
  intro fuel
  induction fuel with
  | zero =>
    intro u acc hu hle
    simp only [zero_add, pow_one] at hu
    simpa [formatBitsLoop] using hsingle u acc hu hle
  | succ fuel ih =>
    intro u acc hu hle
    unfold formatBitsLoop
    by_cases hge : u ≥ b
    · simp only [hge, if_true]
      have hdiv : u / b < b ^ (fuel + 1) := by
        apply Nat.div_lt_of_lt_mul
        rw [pow_succ] at hu
        rw [Nat.mul_comm]
        exact hu
      have hdle : u / b ≤ maxVal := le_trans (Nat.div_le_self u b) hle
      obtain ⟨cs, h1, h2, h3, h4⟩ := ih (u / b) (digitChar (u % b) :: acc) hdiv hdle
      have hmod : u % b < b := Nat.mod_lt u (by omega)
      refine ⟨cs ++ [digitChar (u % b)], by simp [h1], by simp, ?_, ?_⟩
      · intro c hc
        rcases List.mem_append.mp hc with hc | hc
        · exact h3 c hc
        · obtain ⟨_, _, h5, h6⟩ := digitChar_spec (u % b) (by omega)
          simp only [List.mem_singleton] at hc
          subst hc
          exact ⟨h5, h6⟩
      · intro us
        rw [parseUintLoop_append, h4 us]
        simp only
        have hval : u / b * b + u % b = u := by
          rw [Nat.mul_comm]; exact Nat.div_add_mod u b
        have := parseUintLoop_digit b cutoff maxVal hb hb36 hcut hmax (u / b) (u % b) us hmod
          (by omega)
        rw [this, hval]
    · simp only [hge, if_false]
      exact hsingle u acc (by omega) hle

/-- The width that a `bitSize` argument stands for. -/
theorem maxVal_eq (bits : Nat) (h1 : 1 ≤ bits) (h2 : bits ≤ 64) :
    (2 ^ bits % 2 ^ 64 + (2 ^ 64 - 1)) % 2 ^ 64 = 2 ^ bits - 1 := by
  have hpos : 0 < 2 ^ bits := Nat.pow_pos (by norm_num)
  rcases Nat.lt_or_ge bits 64 with h | h
  · have hlt : 2 ^ bits < 2 ^ 64 := Nat.pow_lt_pow_right (by norm_num) h
    rw [Nat.mod_eq_of_lt hlt]
    have : 2 ^ bits + (2 ^ 64 - 1) = (2 ^ bits - 1) + 2 ^ 64 := by omega
    rw [this, Nat.add_mod_right, Nat.mod_eq_of_lt (by omega)]
  · have : bits = 64 := by omega
    subst this
    norm_num

theorem mk_ne_empty (cs : List Char) (h : cs ≠ []) : String.mk cs ≠ "" := by
  intro hc
  apply h
  have : (String.mk cs).data = ("" : String).data := by rw [hc]
  simpa using this

theorem pickBase_valid (cs : List Char) (base : Int) (hb : 2 ≤ base ∧ base ≤ 36) :
    pickBase cs base = some (base.toNat, cs) := by
  simp [pickBase, hb]

theorem ParseUint_formatBitsLoop (u : Nat) (base : Int) (bitSize : Nat)
    (hb : 2 ≤ base ∧ base ≤ 36) (hbs : bitSize ≤ 64)
    (hu : u < 2 ^ (if bitSize = 0 then 64 else bitSize)) :
    ParseUint (String.mk (formatBitsLoop base.toNat 64 u [])) base bitSize = (u, none) ∧
      formatBitsLoop base.toNat 64 u [] ≠ [] ∧
      ∀ c ∈ formatBitsLoop base.toNat 64 u [], c ≠ '-' ∧ c ≠ '+' := by
  have hb2 : 2 ≤ base.toNat := by omega
  have hb36 : base.toNat ≤ 36 := by omega
  have hbits1 : 1 ≤ (if bitSize = 0 then 64 else bitSize) := by split <;> omega
  have hbits2 : (if bitSize = 0 then 64 else bitSize) ≤ 64 := by split <;> omega
  have hmv := maxVal_eq _ hbits1 hbits2
  have hle64 : 2 ^ (if bitSize = 0 then 64 else bitSize) ≤ 2 ^ 64 :=
    Nat.pow_le_pow_right (by norm_num) hbits2
  have hmu : maxUint64 = 2 ^ 64 - 1 := rfl
  have hfuel : u < base.toNat ^ (64 + 1) := by
    have h1 : 2 ^ 64 ≤ base.toNat ^ 64 := Nat.pow_le_pow_left hb2 64
    have h2 : base.toNat ^ 64 ≤ base.toNat ^ (64 + 1) :=
      Nat.pow_le_pow_right (by omega) (by omega)
    omega
  obtain ⟨cs, h1, h2, h3, h4⟩ := parse_formatBitsLoop base.toNat (maxUint64 / base.toNat + 1)
    (2 ^ (if bitSize = 0 then 64 else bitSize) - 1) hb2 hb36 rfl (by omega) 64 u [] hfuel
    (by omega)
  rw [List.append_nil] at h1
  rw [h1]
  refine ⟨?_, h2, h3⟩
  have hb0 : ¬ base = 0 := by omega
  unfold ParseUint
  simp only [mk_ne_empty cs h2, if_false, pickBase_valid _ _ hb, IntSize, hmv]
  have hnb : ¬ bitSize > 64 := by omega
  simp only [hnb, if_false, hb0, decide_False, h4 false]
  simp

theorem ParseUint_sound (s : String) (base : Int) (bitSize n : Nat)
    (hb : 2 ≤ base ∧ base ≤ 36)
    (h : ParseUint s base bitSize = (n, none)) :
    natDenotes base.toNat s.data n ∧ n < 2 ^ (if bitSize = 0 then 64 else bitSize) := by
  have hb2 : 2 ≤ base.toNat := by omega
  have hb36 : base.toNat ≤ 36 := by omega
  have hb0 : ¬ base = 0 := by omega
  unfold ParseUint at h
  by_cases hs : s = ""
  · simp [hs] at h
  · simp only [hs, if_false, pickBase_valid _ _ hb] at h
    by_cases hbs : bitSize > 64
    · simp [hbs] at h
    · simp only [hbs, if_false, hb0, decide_False, IntSize] at h
      have hbits1 : 1 ≤ (if bitSize = 0 then 64 else bitSize) := by split <;> omega
      have hbits2 : (if bitSize = 0 then 64 else bitSize) ≤ 64 := by split <;> omega
      have hmv := maxVal_eq _ hbits1 hbits2
      rw [hmv] at h
      rcases hl : parseUintLoop base.toNat false (maxUint64 / base.toNat + 1)
          (2 ^ (if bitSize = 0 then 64 else bitSize) - 1) s.data 0 false with ⟨⟨m, us⟩, _ | e⟩
      · rw [hl] at h
        obtain ⟨ds, h1, h2, h3, h4, h5⟩ := parseUintLoop_sound base.toNat _ _ hb2 hb36 rfl
          s.data 0 false m us hl
        subst h4
        simp only [Bool.false_eq_true, false_and, if_false, Prod.mk.injEq, and_true] at h
        subst h
        have hne : s.data ≠ [] := by
          intro he
          apply hs
          cases s
          simp_all
        have hpos : 0 < 2 ^ (if bitSize = 0 then 64 else bitSize) := Nat.pow_pos (by norm_num)
        refine ⟨⟨hne, ds, ?_, h2, ?_⟩, ?_⟩
        · rw [← h1]
          apply List.map_congr_left
          intro c _
          exact (digitVal_eq_digitValue c).symm
        · rw [← foldl_eq_ofDigits, h3]
        · have := h5 hne
          omega
      · rw [hl] at h
        simp at h

theorem parseUintLoop_range (b : Nat) (base0 : Bool) (cutoff maxVal : Nat) :
    ∀ (cs : List Char) (n : Nat) (us : Bool) (m : Nat) (us1 : Bool),
      parseUintLoop b base0 cutoff maxVal cs n us = ((m, us1), some Err.numRange) →
      m = maxVal := by
  intro cs
  induction cs with
  | nil => intro n us m us1 h; simp [parseUintLoop] at h
  | cons c cs ih =>
    intro n us m us1 h
    unfold parseUintLoop at h
    split at h
    · exact ih _ _ _ _ h
    · split at h
      · simp at h
      · split at h
        · simp at h
        · split at h
          · simp only [Prod.mk.injEq, and_true] at h
            exact h.1.symm
          · dsimp only at h
            split at h
            · simp only [Prod.mk.injEq, and_true] at h
              exact h.1.symm
            · exact ih _ _ _ _ h

theorem ParseUint_range (s : String) (base : Int) (bitSize n : Nat) (hbs : bitSize ≤ 64)
    (h : ParseUint s base bitSize = (n, some Err.numRange)) :
    n = 2 ^ (if bitSize = 0 then 64 else bitSize) - 1 := by
  have hbits1 : 1 ≤ (if bitSize = 0 then 64 else bitSize) := by split <;> omega
  have hbits2 : (if bitSize = 0 then 64 else bitSize) ≤ 64 := by split <;> omega
  have hmv := maxVal_eq _ hbits1 hbits2
  unfold ParseUint at h
  split at h
  · simp at h
  · split at h
    · simp at h
    · have hnb : ¬ bitSize > 64 := by omega
      simp only [hnb, if_false, IntSize, hmv] at h
      split at h
      · rename_i n1 us1 e hl
        simp only [Prod.mk.injEq, Option.some.injEq] at h
        obtain ⟨h1, h2⟩ := h
        subst h1 h2
        exact parseUintLoop_range _ _ _ _ _ _ _ _ _ hl
      · split at h <;> simp at h

theorem two_pow_pred_le (bits : Nat) (h2 : bits ≤ 64) : 2 ^ (bits - 1) ≤ 2 ^ 63 :=
  Nat.pow_le_pow_right (by norm_num) (by omega)

theorem two_pow_pred_double (bits : Nat) (h1 : 1 ≤ bits) : 2 ^ bits = 2 * 2 ^ (bits - 1) := by
  obtain ⟨k, rfl⟩ : ∃ k, bits = k + 1 := ⟨bits - 1, by omega⟩
  simp [pow_succ, Nat.mul_comm]

/-- What `ParseInt` makes of the result of `ParseUint` on the digits after the sign. -/
theorem ParseInt_unfold (s : String) (base : Int) (bitSize : Nat) (c : Char) (cs : List Char)
    (hdata : s.data = c :: cs) :
    ParseInt s base bitSize =
      (let neg := decide (c = '-')
       let r := ParseUint (String.mk (if c = '+' ∨ c = '-' then cs else c :: cs)) base bitSize
       if r.2 ≠ none ∧ r.2 ≠ some Err.numRange then (0, r.2)
       else
         let cutoff := 2 ^ ((if bitSize = 0 then 64 else bitSize) - 1) % 2 ^ 64
         if neg = false ∧ r.1 ≥ cutoff then (wrapInt64 ((cutoff : Int) - 1), some Err.numRange)
         else if neg = true ∧ r.1 > cutoff then (wrapInt64 (-(cutoff : Int)), some Err.numRange)
         else (if neg then wrapInt64 (-(wrapInt64 r.1)) else wrapInt64 r.1, none)) := by
  have hs : s ≠ "" := by
    intro h
    rw [h] at hdata
    simp at hdata
  unfold ParseInt
  simp only [hs, if_false, hdata, List.head?_cons, Option.some.injEq, List.tail_cons, IntSize]

theorem data_nil (s : String) (h : s.data = []) : s = "" := by
  cases s
  simp_all

theorem wrapInt64_id (z : Int) (h1 : -(2 ^ 63 : Int) ≤ z) (h2 : z < 2 ^ 63) :
    wrapInt64 z = z := by
  unfold wrapInt64
  norm_num at h1 h2 ⊢
  omega

theorem wrapInt64_neg_nat (un : Nat) (h : un ≤ 2 ^ 63) :
    wrapInt64 (-(wrapInt64 (un : Int))) = -(un : Int) := by
  unfold wrapInt64
  norm_num at h ⊢
  omega

theorem intDenotes_neg (b : Nat) (s : String) (cs : List Char) (n : Nat)
    (hdata : s.data = '-' :: cs) (h : natDenotes b cs n) : intDenotes b s (-(n : Int)) := by
  unfold intDenotes
  rw [hdata]
  exact ⟨n, h, rfl⟩

theorem intDenotes_pos (b : Nat) (s : String) (cs : List Char) (n : Nat)
    (hdata : s.data = '+' :: cs) (h : natDenotes b cs n) : intDenotes b s (n : Int) := by
  unfold intDenotes
  rw [hdata]
  exact ⟨n, h, rfl⟩

theorem intDenotes_plain (b : Nat) (s : String) (c : Char) (cs : List Char) (n : Nat)
    (hdata : s.data = c :: cs) (h1 : c ≠ '-') (h2 : c ≠ '+')
    (h : natDenotes b (c :: cs) n) : intDenotes b s (n : Int) := by
  unfold intDenotes
  rw [hdata]
  split
  · rename_i heq
    simp only [List.cons.injEq] at heq
    exact absurd heq.1 h1
  · rename_i heq
    simp only [List.cons.injEq] at heq
    exact absurd heq.1 h2
  · exact ⟨n, h, rfl⟩

theorem ParseInt_sound (s : String) (base : Int) (bitSize : Nat) (z : Int)
    (hb : 2 ≤ base ∧ base ≤ 36) (hbs : bitSize ≤ 64) (hbs1 : bitSize ≠ 1)
    (h : ParseInt s base bitSize = (z, none)) :
    intDenotes base.toNat s z ∧
      -(2 ^ ((if bitSize = 0 then 64 else bitSize) - 1) : Int) ≤ z ∧
      z < 2 ^ ((if bitSize = 0 then 64 else bitSize) - 1) := by
  rcases hdata : s.data with _ | ⟨c, cs⟩
  · have := data_nil s hdata
    subst this
    simp [ParseInt] at h
  · rw [ParseInt_unfold s base bitSize c cs hdata] at h
    have hbits1 : 2 ≤ (if bitSize = 0 then 64 else bitSize) := by split <;> omega
    have hbits2 : (if bitSize = 0 then 64 else bitSize) ≤ 64 := by split <;> omega
    generalize hbits : (if bitSize = 0 then 64 else bitSize) = bits at *
    have hB63 := two_pow_pred_le bits hbits2
    have hBd := two_pow_pred_double bits (by omega)
    have hB2 : 2 ≤ 2 ^ (bits - 1) := by
      calc 2 = 2 ^ 1 := by norm_num
        _ ≤ 2 ^ (bits - 1) := Nat.pow_le_pow_right (by norm_num) (by omega)
    have hBz : (2 ^ (bits - 1) : Int) = ((2 ^ (bits - 1) : Nat) : Int) := by push_cast; rfl
    rw [hBz]
    generalize hBdef : 2 ^ (bits - 1) = B at *
    have hcut : B % 2 ^ 64 = B := Nat.mod_eq_of_lt (by norm_num at hB63 ⊢; omega)
    simp only [hcut] at h
    rcases hr : ParseUint (String.mk (if c = '+' ∨ c = '-' then cs else c :: cs)) base bitSize
      with ⟨un, _ | e⟩
    · rw [hr] at h
      simp only [ne_eq, not_true_eq_false, false_and, if_false] at h
      have hsound := ParseUint_sound _ base bitSize un hb hr
      rw [hbits] at hsound
      obtain ⟨hden, hlt⟩ := hsound
      simp only at hden
      by_cases hneg : c = '-'
      · subst hneg
        simp only [decide_True, Bool.true_eq_false, false_and, if_false, true_and,
          or_true, if_true] at h hden
        split at h
        · simp at h
        · rename_i hle
          simp only [Prod.mk.injEq, and_true] at h
          rw [wrapInt64_neg_nat un (by norm_num at hB63 ⊢; omega)] at h
          subst h
          refine ⟨intDenotes_neg _ s cs un hdata hden, ?_, ?_⟩ <;> omega
      · simp only [hneg, decide_False, true_and, Bool.false_eq_true, false_and, if_false,
          or_false] at h hden
        split at h
        · simp at h
        · rename_i hle
          simp only [Prod.mk.injEq, and_true] at h
          rw [wrapInt64_id (un : Int) (by norm_num; omega) (by norm_num at hB63 ⊢; omega)] at h
          subst h
          by_cases hpos : c = '+'
          · subst hpos
            simp only [if_true] at hden
            refine ⟨intDenotes_pos _ s cs un hdata hden, ?_, ?_⟩ <;> omega
          · simp only [hpos, if_false] at hden
            refine ⟨intDenotes_plain _ s c cs un hdata hneg hpos hden, ?_, ?_⟩ <;> omega
    · rw [hr] at h
      by_cases he : e = Err.numRange
      · subst he
        have hv := ParseUint_range _ base bitSize un hbs hr
        rw [hbits] at hv
        simp only [ne_eq, not_true_eq_false, and_false, if_false] at h
        by_cases hneg : c = '-'
        · simp only [hneg, decide_True, Bool.true_eq_false, false_and, if_false, true_and] at h
          split at h
          · simp at h
          · omega
        · simp only [hneg, decide_False, true_and] at h
          split at h
          · simp at h
          · omega
      · simp [he] at h

theorem ParseUint_FormatUint (u : Nat) (base : Int) (bitSize : Nat)
    (hb : 2 ≤ base ∧ base ≤ 36) (hbs : bitSize ≤ 64)
    (hu : u < 2 ^ (if bitSize = 0 then 64 else bitSize)) :
    ∃ s, FormatUint u base = some s ∧ ParseUint s base bitSize = (u, none) := by
  have hnb : ¬ (base < 2 ∨ base > 36) := by omega
  refine ⟨String.mk (formatBitsLoop base.toNat 64 u []), ?_, ?_⟩
  · simp [FormatUint, formatBits, hnb]
  · exact (ParseUint_formatBitsLoop u base bitSize hb hbs hu).1

theorem ParseInt_FormatInt (x : Int) (base : Int) (bitSize : Nat)
    (hb : 2 ≤ base ∧ base ≤ 36) (hbs : bitSize ≤ 64)
    (hlo : -(2 ^ ((if bitSize = 0 then 64 else bitSize) - 1) : Int) ≤ x)
    (hhi : x < 2 ^ ((if bitSize = 0 then 64 else bitSize) - 1)) :
    ∃ s, FormatInt x base = some s ∧ ParseInt s base bitSize = (x, none) := by
  have hnb : ¬ (base < 2 ∨ base > 36) := by omega
  have hbits1 : 1 ≤ (if bitSize = 0 then 64 else bitSize) := by split <;> omega
  have hbits2 : (if bitSize = 0 then 64 else bitSize) ≤ 64 := by split <;> omega
  have hB63 := two_pow_pred_le _ hbits2
  have hBd := two_pow_pred_double _ hbits1
  have hBz : (2 ^ ((if bitSize = 0 then 64 else bitSize) - 1) : Int) =
      ((2 ^ ((if bitSize = 0 then 64 else bitSize) - 1) : Nat) : Int) := by push_cast; rfl
  rw [hBz] at hlo hhi
  obtain ⟨a, ha⟩ : ∃ a : Nat, a = x.natAbs := ⟨_, rfl⟩
  have hu : a < 2 ^ (if bitSize = 0 then 64 else bitSize) := by omega
  obtain ⟨hparse, hne, hsign⟩ := ParseUint_formatBitsLoop a base bitSize hb hbs hu
  have hcut : 2 ^ ((if bitSize = 0 then 64 else bitSize) - 1) % 2 ^ 64 =
      2 ^ ((if bitSize = 0 then 64 else bitSize) - 1) :=
    Nat.mod_eq_of_lt (by norm_num at hB63 ⊢; omega)
  have h63 : (2 : Nat) ^ 63 = 9223372036854775808 := by norm_num
  rw [h63] at hB63
  by_cases hneg : x < 0
  · have habs : (18446744073709551616 - (x % 18446744073709551616).toNat) %
        18446744073709551616 = a := by
      omega
    refine ⟨String.mk ('-' :: formatBitsLoop base.toNat 64 a []), ?_, ?_⟩
    · simp [FormatInt, formatBits, hnb, hneg, habs]
    · rw [ParseInt_unfold _ base bitSize '-' _ rfl]
      simp only [decide_True, or_true, if_true, hparse, ne_eq, not_true_eq_false, false_and,
        if_false, Bool.true_eq_false, true_and, hcut]
      have hle : ¬ a > 2 ^ ((if bitSize = 0 then 64 else bitSize) - 1) := by omega
      simp only [hle, if_false]
      rw [wrapInt64_neg_nat a (by rw [h63]; omega)]
      congr 1
      omega
  · have habs : (x % 18446744073709551616).toNat = a := by
      omega
    rcases hds : formatBitsLoop base.toNat 64 a [] with _ | ⟨c, cs⟩
    · exact absurd hds hne
    · have hc := hsign c (by rw [hds]; simp)
      refine ⟨String.mk (c :: cs), ?_, ?_⟩
      · simp [FormatInt, formatBits, hnb, hneg, habs, hds]
      · rw [ParseInt_unfold _ base bitSize c cs rfl]
        rw [hds] at hparse
        simp only [hc.1, hc.2, decide_False, or_self, if_false, hparse, ne_eq,
          not_true_eq_false, false_and, Bool.false_eq_true, true_and, hcut]
        have hlt : ¬ a ≥ 2 ^ ((if bitSize = 0 then 64 else bitSize) - 1) := by omega
        simp only [hlt, if_false]
        have h63z : (2 : Int) ^ 63 = 9223372036854775808 := by norm_num
        rw [wrapInt64_id _ (by rw [h63z]; omega) (by rw [h63z]; omega)]
        congr 1
        omega

end strconv


namespace strconv

theorem ParseUint_base_valid (s : String) (base : Int) (bitSize n : Nat)
    (h : ParseUint s base bitSize = (n, none)) : base = 0 ∨ (2 ≤ base ∧ base ≤ 36) := by
  by_contra hb
  have h1 : ¬ (2 ≤ base ∧ base ≤ 36) := fun hc => hb (Or.inr hc)
  have h0 : ¬ base = 0 := fun hc => hb (Or.inl hc)
  unfold ParseUint at h
  split at h
  · simp at h
  · simp [pickBase, h1, h0] at h

theorem ParseUint_invalid_base (s : String) (base : Int) (bitSize : Nat)
    (hb : ¬ (base = 0 ∨ (2 ≤ base ∧ base ≤ 36))) :
    (ParseUint s base bitSize).2 = some Err.numSyn ∨
      (ParseUint s base bitSize).2 = some Err.numBase := by
  have h1 : ¬ (2 ≤ base ∧ base ≤ 36) := fun hc => hb (Or.inr hc)
  have h0 : ¬ base = 0 := fun hc => hb (Or.inl hc)
  unfold ParseUint
  split
  · left; rfl
  · right; simp [pickBase, h1, h0]

theorem ParseInt_base_valid (s : String) (base : Int) (bitSize : Nat) (z : Int)
    (h : ParseInt s base bitSize = (z, none)) : base = 0 ∨ (2 ≤ base ∧ base ≤ 36) := by
  by_contra hb
  rcases hdata : s.data with _ | ⟨c, cs⟩
  · have := data_nil s hdata
    subst this
    simp [ParseInt] at h
  · rw [ParseInt_unfold s base bitSize c cs hdata] at h
    rcases ParseUint_invalid_base (String.mk (if c = '+' ∨ c = '-' then cs else c :: cs)) base
      bitSize hb with he | he
    · simp [he] at h
    · simp [he] at h

end strconv
/-! ## Lemmas on the header index -/

theorem GoMap.set_append_new {α : Type} (m : GoMap α) (k : String) (v : α)
    (h : ∀ kv ∈ m, kv.1 ≠ k) : GoMap.set m k v = m ++ [(k, v)] := by
  induction m with
  | nil => rfl
  | cons kv rest ih =>
    obtain ⟨k1, v1⟩ := kv
    have hk : k1 ≠ k := h (k1, v1) (by simp)
    simp only [GoMap.set, hk, if_false, List.cons_append]
    rw [ih (fun kv hkv => h kv (List.mem_cons_of_mem _ hkv))]

theorem headerLoop_nodup (h : List String) (hn : h.Nodup) :
    ∀ (i : Nat) (m : GoMap Nat), (∀ kv ∈ m, kv.1 ∉ h) →
      headerLoop h i m = m ++ indexFrom h i := by
  induction h with
  | nil => intro i m _; simp [headerLoop, indexFrom]
  | cons name rest ih =>
    intro i m hm
    have hn1 : name ∉ rest := (List.nodup_cons.mp hn).1
    have hn2 : rest.Nodup := (List.nodup_cons.mp hn).2
    simp only [headerLoop, indexFrom]
    rw [GoMap.set_append_new m name i (fun kv hkv hc => hm kv hkv (by simp [hc]))]
    rw [ih hn2 (i + 1) (m ++ [(name, i)])]
    · simp
    · intro kv hkv
      rcases List.mem_append.mp hkv with hkv | hkv
      · exact fun hc => hm kv hkv (List.mem_cons_of_mem _ hc)
      · simp only [List.mem_singleton] at hkv
        subst hkv
        exact hn1

theorem indexFrom_length (h : List String) (i : Nat) : (indexFrom h i).length = h.length := by
  induction h generalizing i with
  | nil => rfl
  | cons name rest ih => simp [indexFrom, ih]

theorem indexFrom_get_none (h : List String) (i : Nat) (c : String) (hc : c ∉ h) :
    GoMap.get? (indexFrom h i) c = none := by
  induction h generalizing i with
  | nil => rfl
  | cons name rest ih =>
    have h1 : name ≠ c := fun he => hc (by simp [he])
    have h2 : c ∉ rest := fun he => hc (List.mem_cons_of_mem _ he)
    simp [indexFrom, GoMap.get?, h1, ih (i + 1) h2]

theorem indexFrom_get_some (h : List String) (i : Nat) (c : String) (hc : c ∈ h) :
    ∃ k, GoMap.get? (indexFrom h i) c = some (i + k) ∧ h[k]? = some c := by
  induction h generalizing i with
  | nil => simp at hc
  | cons name rest ih =>
    by_cases h1 : name = c
    · exact ⟨0, by simp [indexFrom, GoMap.get?, h1], by simp [h1]⟩
    · have h2 : c ∈ rest := by
        rcases List.mem_cons.mp hc with he | he
        · exact absurd he.symm h1
        · exact he
      obtain ⟨k, hk1, hk2⟩ := ih (i + 1) h2
      refine ⟨k + 1, ?_, by simpa using hk2⟩
      simp only [indexFrom, GoMap.get?, h1, if_false, hk1]
      congr 1
      omega

/-- The header of a duplicate-free list of names: as many entries as names, each name at
its position in the list, and nothing else. -/
theorem header_nodup (h : List String) (hn : h.Nodup) :
    (headerLoop h 0 []).length = h.length ∧
      (∀ c, c ∉ h → GoMap.get? (headerLoop h 0 []) c = none) ∧
      (∀ c, c ∈ h → ∃ k, GoMap.get? (headerLoop h 0 []) c = some k ∧ h[k]? = some c) := by
  rw [headerLoop_nodup h hn 0 [] (by simp)]
  simp only [List.nil_append]
  refine ⟨indexFrom_length h 0, fun c hc => indexFrom_get_none h 0 c hc, fun c hc => ?_⟩
  obtain ⟨k, hk1, hk2⟩ := indexFrom_get_some h 0 c hc
  exact ⟨k, by simpa using hk1, hk2⟩

/-! ## Decode and Encode on a struct pointer -/

theorem Decode_structPtr (lib : Lib) (dec : Decoder) (hdr : GoMap Nat) (line : List String)
    (r1 : Reader) (rec : Record) (hh : dec.hdr = some hdr)
    (hr : dec.r.Read = (Except.ok line, r1)) :
    dec.Decode lib (structPtr rec) =
      ({ dec with r := r1 },
        structPtr (decodeFields lib hdr dec.nilVal dec.allowMissingColumns line rec).1,
        (decodeFields lib hdr dec.nilVal dec.allowMissingColumns line rec).2) := by
  simp [Decoder.Decode, hh, hr, structPtr]

theorem values_structPtr (rec : Record) : (structPtr rec).values = rec.map Prod.snd := by
  simp [structPtr, Target.values]

theorem Encode_structPtr (lib : Lib) (enc : Encoder) (rec : Record) (hne : enc.hdr ≠ []) :
    enc.Encode lib (structPtr rec) =
      match encodeFields lib enc.hdr enc.nilVal enc.allowMissingColumns rec
          (List.replicate enc.hdr.length "") with
      | (_, some e) => (enc, some e)
      | (line, none) => ({ enc with w := (enc.w.Write line).1 }, (enc.w.Write line).2) := by
  have hlen : enc.hdr.length ≠ 0 := by
    intro h
    exact hne (List.length_eq_zero.mp h)
  simp [Encoder.Encode, structPtr, hlen]

/-! ## Claims on the dispatch of `Decode` -/

/-- C3: on a decoder whose header is still the nil map, `Decode` returns
`ErrMissingHeader` for every target and every row source; it reads no row and leaves the
target as it was. The header is the nil map after `NewDecoder`, and it stays so under
`WithNilValue`, `WithAllowMissingColumns` and a `ReadHeader` that fails: only `WithHeader`
and a `ReadHeader` that succeeds establish a header. -/
theorem Decode_missing_header (lib : Lib) (dec : Decoder) (v : Target) (h : dec.hdr = none) :
    dec.Decode lib v = (dec, v, some Err.ErrMissingHeader) ∧
    (∀ r, (NewDecoder r).hdr = none) ∧
    (∀ s, (dec.WithNilValue s).hdr = none) ∧
    dec.WithAllowMissingColumns.hdr = none ∧
    (dec.ReadHeader.2 ≠ none → dec.ReadHeader.1.hdr = none) := by
  refine ⟨by simp [Decoder.Decode, h], fun _ => rfl, fun _ => h, h, ?_⟩
  intro hfail
  unfold Decoder.ReadHeader at hfail ⊢
  rcases hr : dec.r.Read with ⟨_ | _, r1⟩
  · simp [h]
  · rw [hr] at hfail
    simp at hfail

theorem Decode_missing_header_witness :
    (NewDecoder [Except.ok ["this is a string", "12345"]]).hdr = none ∧
    Decoder.Decode noFloatLib (NewDecoder [Except.ok ["this is a string", "12345"]])
        (structPtr (simpleTest "" 0)) =
      (NewDecoder [Except.ok ["this is a string", "12345"]], structPtr (simpleTest "" 0),
        some Err.ErrMissingHeader) :=
  ⟨rfl, (Decode_missing_header _ _ _ rfl).1⟩

/-- C4 (as stated, refuted): a struct passed by value to a decoder without a header gets
`ErrMissingHeader`, not `ErrInvalidType`. And with a header and a row, the target `nil`
(an interface holding nothing, which is no pointer) does not get `ErrInvalidType` either:
`reflect.TypeOf(nil)` is nil and the call of `Kind` on it panics. -/
theorem Decode_nonPointer_without_header :
    (Decoder.Decode noFloatLib (NewDecoder [Except.ok ["string", "1234"]])
        { shape := Shape.nonPointer }).2.2 = some Err.ErrMissingHeader ∧
    (Decoder.Decode noFloatLib
        ((NewDecoder [Except.ok ["string", "1234"]]).WithHeader ["str", "n"])
        { shape := Shape.nilIface }).2.2 =
      some (Err.panicked "invalid memory address or nil pointer dereference") := by
  decide

/-- C4 (amended): once a header is established and the row source has delivered a row,
`Decode` returns `ErrInvalidType` for every target that holds a value (is not nil), is not
a pointer, and is neither a string map nor a whole-record `Unmarshaler`/`MapUnmarshaler`;
the target is left as it was. -/
theorem Decode_nonPointer (lib : Lib) (dec : Decoder) (v : Target) (hdr : GoMap Nat)
    (line : List String) (r1 : Reader) (hh : dec.hdr = some hdr)
    (hr : dec.r.Read = (Except.ok line, r1)) (hs : v.shape = Shape.nonPointer)
    (hu : v.UnmarshalCSV = none) (hm : v.UnmarshalCSVMap = none) :
    dec.Decode lib v = ({ dec with r := r1 }, v, some Err.ErrInvalidType) := by
  simp [Decoder.Decode, hh, hr, hs, hu, hm]

theorem Decode_nonPointer_witness :
    (Decoder.Decode noFloatLib
        ((NewDecoder [Except.ok ["string", "1234"]]).WithHeader ["str", "n"])
        { shape := Shape.nonPointer }).2.2 = some Err.ErrInvalidType := by
  have h := Decode_nonPointer noFloatLib
    ((NewDecoder [Except.ok ["string", "1234"]]).WithHeader ["str", "n"])
    { shape := Shape.nonPointer } _ ["string", "1234"] [] rfl rfl rfl rfl rfl
  rw [h]

/-! ## Claims on skipped fields -/

theorem decodeField_omitempty (lib : Lib) (hdr : GoMap Nat) (nv : String) (al : Bool)
    (line : List String) (f : Field) (v : Value) (index : Nat)
    (hcol : hdr.get? f.column = some index) (hcell : line.get? index = some nv)
    (hopt : omitEmpty f.options = true) :
    decodeField lib hdr nv al line f v = (v, none) := by
  unfold Field.column at hcol
  unfold Field.options at hopt
  unfold decodeField
  by_cases hx : (parseTag (f.tag.Get "csv")).1 = "" ∨ (parseTag (f.tag.Get "csv")).1 = "-"
  · simp [hx]
  · rw [List.get?_eq_getElem?] at hcell
    simp [hx, hcol, hcell, hopt]

theorem decodeField_missing (lib : Lib) (hdr : GoMap Nat) (nv : String) (al : Bool)
    (line : List String) (f : Field) (v : Value)
    (hx : f.column ≠ "" ∧ f.column ≠ "-") (hcol : hdr.get? f.column = none) :
    decodeField lib hdr nv al line f v =
      (v, if al = true then none else some Err.ErrMissingColumn) := by
  unfold Field.column at hcol hx
  unfold decodeField
  have hx1 : ¬ ((parseTag (f.tag.Get "csv")).1 = "" ∨ (parseTag (f.tag.Get "csv")).1 = "-") := by
    tauto
  cases al <;> simp [hx1, hcol]

theorem encodeField_missing (lib : Lib) (hdr : GoMap Nat) (nv : String) (al : Bool)
    (line : List String) (f : Field) (v : Value)
    (hx : f.column ≠ "" ∧ f.column ≠ "-") (hcol : hdr.get? f.column = none) :
    encodeField lib hdr nv al f v line =
      (line, if al = true then none else some Err.ErrMissingColumn) := by
  unfold Field.column at hcol hx
  unfold encodeField
  have hx1 : ¬ ((parseTag (f.tag.Get "csv")).1 = "" ∨ (parseTag (f.tag.Get "csv")).1 = "-") := by
    tauto
  cases al <;> simp [hx1, hcol]

/-- The values of a record after a transparent field was put back. -/
theorem values_insert (R : Record) (n : Nat) (f : Field) (v : Value) :
    (R.take n ++ (f, v) :: R.drop n).map Prod.snd =
      (R.map Prod.snd).take n ++ v :: (R.map Prod.snd).drop n := by
  simp [List.map_take, List.map_drop]

/-- C6: for a field tagged `omitempty` whose column is in the header, when the row value
at that column equals the configured nil value, the loop pass of `Decode` for the field
changes nothing and raises no error; the record after `Decode` is the one obtained without
the field, with the field put back holding its prior value, and the error returned is the
same (so decoding goes on with the next field). -/
theorem Decode_omitempty_nil_value (lib : Lib) (dec : Decoder) (hdr : GoMap Nat)
    (line : List String) (r1 : Reader) (pre post : Record) (f : Field) (v : Value)
    (index : Nat) (hh : dec.hdr = some hdr) (hr : dec.r.Read = (Except.ok line, r1))
    (hcol : hdr.get? f.column = some index) (hcell : line.get? index = some dec.nilVal)
    (hopt : omitEmpty f.options = true) :
    decodeField lib hdr dec.nilVal dec.allowMissingColumns line f v = (v, none) ∧
    (dec.Decode lib (structPtr (pre ++ (f, v) :: post))).2.1.values =
      (dec.Decode lib (structPtr (pre ++ post))).2.1.values.take pre.length ++
        v :: (dec.Decode lib (structPtr (pre ++ post))).2.1.values.drop pre.length ∧
    (dec.Decode lib (structPtr (pre ++ (f, v) :: post))).2.2 =
      (dec.Decode lib (structPtr (pre ++ post))).2.2 := by
  have hstep := decodeField_omitempty lib hdr dec.nilVal dec.allowMissingColumns line f v
    index hcol hcell hopt
  refine ⟨hstep, ?_, ?_⟩
  · rw [Decode_structPtr lib dec hdr line r1 _ hh hr, Decode_structPtr lib dec hdr line r1 _ hh hr]
    simp only [values_structPtr]
    rw [decodeFields_skip lib hdr dec.nilVal dec.allowMissingColumns line pre post f v hstep]
    exact values_insert _ _ _ _
  · rw [Decode_structPtr lib dec hdr line r1 _ hh hr, Decode_structPtr lib dec hdr line r1 _ hh hr]
    simp only
    rw [decodeFields_skip lib hdr dec.nilVal dec.allowMissingColumns line pre post f v hstep]

theorem Decode_omitempty_nil_value_witness :
    (Decoder.Decode noFloatLib
        (((NewDecoder [Except.ok [" --", "1234"]]).WithHeader ["str", "n"]).WithNilValue " --")
        (structPtr (simpleTestPointer Value.nil 0))).2.2 =
      (Decoder.Decode noFloatLib
        (((NewDecoder [Except.ok [" --", "1234"]]).WithHeader ["str", "n"]).WithNilValue " --")
        (structPtr [({ name := "IntVal", ty := Ty.int, tag := [("csv", "n")] },
          Value.int 0)])).2.2 :=
  (Decode_omitempty_nil_value noFloatLib
    (((NewDecoder [Except.ok [" --", "1234"]]).WithHeader ["str", "n"]).WithNilValue " --")
    [("str", 0), ("n", 1)] [" --", "1234"] [] []
    [({ name := "IntVal", ty := Ty.int, tag := [("csv", "n")] }, Value.int 0)]
    { name := "StringVal", ty := Ty.ptr Ty.string, tag := [("csv", "str,omitempty")] }
    Value.nil 0 rfl rfl (by decide) (by decide) (by decide)).2.2

/-- C7 (as stated, refuted): a `*string` field tagged `csv:"str"` without `omitempty`,
holding nil, is allocated when the row value is the default nil value `""`: with header
`[str,n]` and row `["", "1234"]` it ends up pointing to an empty string. -/
theorem Decode_pointer_allocated_on_nil_value :
    (Decoder.Decode noFloatLib ((NewDecoder [Except.ok ["", "1234"]]).WithHeader ["str", "n"])
        (structPtr (plainPointer Value.nil 0))).2.1.values =
      [Value.ptr (Value.str ""), Value.int 1234] ∧
    (Decoder.Decode noFloatLib ((NewDecoder [Except.ok ["", "1234"]]).WithHeader ["str", "n"])
        (structPtr (plainPointer Value.nil 0))).2.2 = none := by
  decide

theorem decodeValue_pointer (lib : Lib) (f : Field) (elem : Ty) (v : Value) (cell : String)
    (hty : f.ty = Ty.ptr elem) : ∃ x, (decodeValue lib f v cell).1 = Value.ptr x := by
  unfold decodeValue
  rw [hty]
  simp only
  split
  · split
    · exact ⟨_, rfl⟩
    · exact ⟨_, rfl⟩
  · split
    · exact ⟨_, rfl⟩
    · split
      · exact ⟨_, rfl⟩
      · exact ⟨_, rfl⟩

/-- C7 (amended): for a pointer-typed field tagged `omitempty` whose column is in the
header, when the row value equals the configured nil value, `Decode` allocates nothing: the
field holds after the call exactly what it held before (nil stays nil). On every cell that
the nil-value rule does not skip, the loop pass replaces the pointer by a fresh
allocation. -/
theorem Decode_pointer_omitempty_not_allocated (lib : Lib) (dec : Decoder) (hdr : GoMap Nat)
    (line : List String) (r1 : Reader) (pre post : Record) (f : Field) (elem : Ty) (v : Value)
    (index : Nat) (hty : f.ty = Ty.ptr elem) (hh : dec.hdr = some hdr)
    (hr : dec.r.Read = (Except.ok line, r1))
    (hcol : hdr.get? f.column = some index) (hcell : line.get? index = some dec.nilVal)
    (hopt : omitEmpty f.options = true) :
    (dec.Decode lib (structPtr (pre ++ (f, v) :: post))).2.1.values.get? pre.length = some v ∧
    ∀ (other : List String) (cell : String), f.column ≠ "" ∧ f.column ≠ "-" →
      other.get? index = some cell → cell ≠ dec.nilVal →
      ∃ x, (decodeField lib hdr dec.nilVal dec.allowMissingColumns other f v).1 =
        Value.ptr x := by
  have hstep := decodeField_omitempty lib hdr dec.nilVal dec.allowMissingColumns line f v
    index hcol hcell hopt
  constructor
  · rw [Decode_structPtr lib dec hdr line r1 _ hh hr]
    simp only [values_structPtr]
    rw [decodeFields_skip lib hdr dec.nilVal dec.allowMissingColumns line pre post f v hstep]
    have hlen := decodeFields_length lib hdr dec.nilVal dec.allowMissingColumns line
      (pre ++ post)
    have hle : pre.length ≤
        (decodeFields lib hdr dec.nilVal dec.allowMissingColumns line (pre ++ post)).1.length := by
      rw [hlen]; simp
    rw [values_insert]
    rw [List.get?_eq_getElem?, List.getElem?_append_right (by simp [hle])]
    simp [hle]
  · intro other cell hx hc hne
    unfold Field.column at hx hcol
    unfold decodeField
    have hx1 : ¬ ((parseTag (f.tag.Get "csv")).1 = "" ∨
        (parseTag (f.tag.Get "csv")).1 = "-") := by tauto
    have hne1 : ¬ (cell = dec.nilVal ∧ omitEmpty (parseTag (f.tag.Get "csv")).2 = true) :=
      fun hcn => hne hcn.1
    simp only [hx1, if_false, hcol, hc, hne1]
    exact decodeValue_pointer lib f elem v cell hty

theorem Decode_pointer_omitempty_not_allocated_witness :
    (Decoder.Decode noFloatLib ((NewDecoder [Except.ok ["", "1234"]]).WithHeader ["str", "n"])
        (structPtr (simpleTestPointer Value.nil 0))).2.1.values.get? 0 = some Value.nil :=
  (Decode_pointer_omitempty_not_allocated noFloatLib
    ((NewDecoder [Except.ok ["", "1234"]]).WithHeader ["str", "n"])
    [("str", 0), ("n", 1)] ["", "1234"] [] []
    [({ name := "IntVal", ty := Ty.int, tag := [("csv", "n")] }, Value.int 0)]
    { name := "StringVal", ty := Ty.ptr Ty.string, tag := [("csv", "str,omitempty")] }
    Ty.string Value.nil 0 rfl rfl rfl (by decide) (by decide) (by decide)).1

/-- C10 (code at the failing input): for a struct whose first field is untagged and whose
second is tagged `csv:"str"`, the header derived by `Encode` is `str ↦ 1` (the index of the
field in the struct, not position 0), the row has one entry, and the write of `line[1]`
panics; no row reaches the sink. -/
theorem Encode_derived_header_gap :
    (Encoder.Encode noFloatLib (NewEncoder emptyWriter)
        (structPtr (excludedFirst 7 "x"))).1.hdr = [("str", 1)] ∧
    (Encoder.Encode noFloatLib (NewEncoder emptyWriter)
        (structPtr (excludedFirst 7 "x"))).2 = some (Err.panicked "index out of range") ∧
    (Encoder.Encode noFloatLib (NewEncoder emptyWriter)
        (structPtr (excludedFirst 7 "x"))).1.w.rows = [] := by
  decide

/-! ## Claims on the missing-column policy -/

theorem encodeFields_skip (lib : Lib) (hdr : GoMap Nat) (nv : String) (al : Bool)
    (pre post : Record) (f : Field) (v : Value) (line0 : List String)
    (hskip : ∀ line, encodeField lib hdr nv al f v line = (line, none)) :
    encodeFields lib hdr nv al (pre ++ (f, v) :: post) line0 =
      encodeFields lib hdr nv al (pre ++ post) line0 := by
  rw [encodeFields_append, encodeFields_append]
  rcases hpre : encodeFields lib hdr nv al pre line0 with ⟨line1, _ | e⟩
  · simp only [encodeFields, hskip]
  · simp

/-- C5 (as stated, refuted): with header `[a]` and row `["x"]`, the struct
`{A int csv:"a"; B string csv:"b"}` has the tagged field `B` whose column is absent from
the header, and `WithAllowMissingColumns` was not called; `Decode` returns the syntax
error of `strconv.ParseInt` raised at field `A`, not `ErrMissingColumn`. -/
theorem Decode_missing_column_after_failure :
    (Decoder.Decode noFloatLib ((NewDecoder [Except.ok ["x"]]).WithHeader ["a"])
        (structPtr (intThenString 0 ""))).2.2 = some Err.numSyn := by
  decide

/-- C5 (amended): let `f` be a tagged, non-excluded field whose column is absent from the
header. Decode without `WithAllowMissingColumns`: once a row is read and the fields declared
before `f` are processed without error, `Decode` returns `ErrMissingColumn` at `f` (the
fields before it as processed, `f` and the later ones untouched). Decode after
`WithAllowMissingColumns`, whatever happens at the other fields: the field keeps its prior
value, raises no error, and record and error are those of decoding without it, the field
put back. Encode, against a non-empty header: `ErrMissingColumn` with no row handed to the
sink once the fields before `f` are rendered, or, after `WithAllowMissingColumns`, exactly
the outcome of encoding the record without `f`. Each of the four statements stands under
its own conditions only. -/
theorem missing_column_policy (lib : Lib) (dec : Decoder) (enc : Encoder) (pre post : Record)
    (f : Field) (v : Value) (hx : f.column ≠ "" ∧ f.column ≠ "-") :
    (∀ (hdr : GoMap Nat) (line : List String) (r1 : Reader),
      dec.hdr = some hdr → dec.r.Read = (Except.ok line, r1) → hdr.get? f.column = none →
      dec.allowMissingColumns = false →
      (decodeFields lib hdr dec.nilVal dec.allowMissingColumns line pre).2 = none →
      (dec.Decode lib (structPtr (pre ++ (f, v) :: post))).2.2 = some Err.ErrMissingColumn ∧
        (dec.Decode lib (structPtr (pre ++ (f, v) :: post))).2.1.values =
          (dec.Decode lib (structPtr pre)).2.1.values ++ v :: post.map Prod.snd) ∧
    (∀ (hdr : GoMap Nat) (line : List String) (r1 : Reader),
      dec.hdr = some hdr → dec.r.Read = (Except.ok line, r1) → hdr.get? f.column = none →
      dec.allowMissingColumns = true →
      decodeField lib hdr dec.nilVal dec.allowMissingColumns line f v = (v, none) ∧
        (dec.Decode lib (structPtr (pre ++ (f, v) :: post))).2.1.values.get? pre.length =
          some v ∧
        (dec.Decode lib (structPtr (pre ++ (f, v) :: post))).2.1.values =
          (dec.Decode lib (structPtr (pre ++ post))).2.1.values.take pre.length ++
            v :: (dec.Decode lib (structPtr (pre ++ post))).2.1.values.drop pre.length ∧
        (dec.Decode lib (structPtr (pre ++ (f, v) :: post))).2.2 =
          (dec.Decode lib (structPtr (pre ++ post))).2.2) ∧
    (dec.WithAllowMissingColumns.allowMissingColumns = true ∧
      dec.WithAllowMissingColumns.hdr = dec.hdr ∧ dec.WithAllowMissingColumns.r = dec.r ∧
      enc.WithAllowMissingColumns.allowMissingColumns = true ∧
      enc.WithAllowMissingColumns.hdr = enc.hdr ∧ enc.WithAllowMissingColumns.w = enc.w ∧
      (NewDecoder dec.r).allowMissingColumns = false ∧
      (NewEncoder enc.w).allowMissingColumns = false) ∧
    (enc.hdr ≠ [] → enc.hdr.get? f.column = none → enc.allowMissingColumns = false →
      (encodeFields lib enc.hdr enc.nilVal enc.allowMissingColumns pre
        (List.replicate enc.hdr.length "")).2 = none →
      enc.Encode lib (structPtr (pre ++ (f, v) :: post)) = (enc, some Err.ErrMissingColumn)) ∧
    (enc.hdr ≠ [] → enc.hdr.get? f.column = none → enc.allowMissingColumns = true →
      enc.Encode lib (structPtr (pre ++ (f, v) :: post)) =
        enc.Encode lib (structPtr (pre ++ post))) := by
  refine ⟨?_, ?_, ⟨rfl, rfl, rfl, rfl, rfl, rfl, rfl, rfl⟩, ?_, ?_⟩
  · intro hdr line r1 hh hr hcol hal hpre
    have hstep := decodeField_missing lib hdr dec.nilVal dec.allowMissingColumns line f v hx hcol
    rw [hal] at hstep
    simp only [Bool.false_eq_true, if_false] at hstep
    rw [hal] at hpre
    constructor
    · rw [Decode_structPtr lib dec hdr line r1 _ hh hr, hal]
      simp only
      rw [decodeFields_append]
      rcases hp : decodeFields lib hdr dec.nilVal false line pre with ⟨pre1, _ | e⟩
      · simp [decodeFields, hstep]
      · rw [hp] at hpre; simp at hpre
    · rw [Decode_structPtr lib dec hdr line r1 _ hh hr,
        Decode_structPtr lib dec hdr line r1 _ hh hr, hal]
      simp only [values_structPtr]
      rw [decodeFields_append]
      rcases hp : decodeFields lib hdr dec.nilVal false line pre with ⟨pre1, _ | e⟩
      · simp [decodeFields, hstep]
      · rw [hp] at hpre; simp at hpre
  · intro hdr line r1 hh hr hcol hal
    have hstep := decodeField_missing lib hdr dec.nilVal dec.allowMissingColumns line f v hx hcol
    rw [hal] at hstep
    simp only [if_true] at hstep
    have hvals : (dec.Decode lib (structPtr (pre ++ (f, v) :: post))).2.1.values =
        (dec.Decode lib (structPtr (pre ++ post))).2.1.values.take pre.length ++
          v :: (dec.Decode lib (structPtr (pre ++ post))).2.1.values.drop pre.length := by
      rw [Decode_structPtr lib dec hdr line r1 _ hh hr,
        Decode_structPtr lib dec hdr line r1 _ hh hr, hal]
      simp only [values_structPtr]
      rw [decodeFields_skip lib hdr dec.nilVal true line pre post f v hstep]
      exact values_insert _ _ _ _
    have hlen : pre.length ≤
        (dec.Decode lib (structPtr (pre ++ post))).2.1.values.length := by
      rw [Decode_structPtr lib dec hdr line r1 _ hh hr]
      simp only [values_structPtr, List.length_map, decodeFields_length, List.length_append]
      omega
    refine ⟨by rw [hal]; exact hstep, ?_, hvals, ?_⟩
    · rw [hvals, List.get?_eq_getElem?, List.getElem?_append_right (by simp)]
      simp [Nat.min_eq_left hlen]
    · rw [Decode_structPtr lib dec hdr line r1 _ hh hr,
        Decode_structPtr lib dec hdr line r1 _ hh hr, hal]
      simp only
      rw [decodeFields_skip lib hdr dec.nilVal true line pre post f v hstep]
  · intro hne hcolE halE hpreE
    rw [Encode_structPtr lib enc _ hne, halE, encodeFields_append]
    rw [halE] at hpreE
    rcases hp : encodeFields lib enc.hdr enc.nilVal false pre
        (List.replicate enc.hdr.length "") with ⟨line1, _ | e⟩
    · have hs := encodeField_missing lib enc.hdr enc.nilVal false line1 f v hx hcolE
      simp only [Bool.false_eq_true, if_false] at hs
      simp [encodeFields, hs]
    · rw [hp] at hpreE; simp at hpreE
  · intro hne hcolE halE
    rw [Encode_structPtr lib enc _ hne, Encode_structPtr lib enc _ hne]
    have hs : ∀ l, encodeField lib enc.hdr enc.nilVal enc.allowMissingColumns f v l =
        (l, none) := by
      intro l
      have := encodeField_missing lib enc.hdr enc.nilVal enc.allowMissingColumns l f v hx hcolE
      rw [halE] at this
      rw [halE]
      simpa using this
    rw [encodeFields_skip lib _ _ _ pre post f v _ hs]

theorem missing_column_policy_witness :
    (Decoder.Decode noFloatLib ((NewDecoder [Except.ok ["1234"]]).WithHeader ["n"])
        (structPtr ([({ name := "IntVal", ty := Ty.int, tag := [("csv", "n")] },
            Value.int 0)] ++
          ({ name := "StringVal", ty := Ty.string, tag := [("csv", "str")] },
            Value.str "") :: []))).2.2 = some Err.ErrMissingColumn :=
  ((missing_column_policy noFloatLib ((NewDecoder [Except.ok ["1234"]]).WithHeader ["n"])
    ((NewEncoder emptyWriter).WithHeader ["n"])
    [({ name := "IntVal", ty := Ty.int, tag := [("csv", "n")] }, Value.int 0)] []
    { name := "StringVal", ty := Ty.string, tag := [("csv", "str")] } (Value.str "")
    (by decide)).1 [("n", 0)] ["1234"] [] rfl rfl (by decide) rfl (by decide)).1

/-! ## Claims on integer conversion -/

theorem setInt_id (bits : Nat) (x : Int) (h1 : 1 ≤ bits)
    (hlo : -(2 ^ (bits - 1) : Int) ≤ x) (hhi : x < 2 ^ (bits - 1)) :
    setInt bits x = Value.int x := by
  have hd : (2 ^ bits : Int) = 2 * 2 ^ (bits - 1) := by
    obtain ⟨k, rfl⟩ : ∃ k, bits = k + 1 := ⟨bits - 1, by omega⟩
    simp [pow_succ, mul_comm]
  unfold setInt
  rw [hd, Int.emod_eq_of_lt (by omega) (by omega)]
  simp

theorem setUint_id (bits : Nat) (x : Nat) (h : x < 2 ^ bits) : setUint bits x = Value.uint x := by
  unfold setUint
  rw [Nat.mod_eq_of_lt h]

theorem formatWithBase_eq (tag : StructTag) (b : Int) (fmt : Int → Option String)
    (hbase : base tag = (b, none)) :
    formatWithBase tag fmt =
      match fmt b with
      | none => Except.error (Err.panicked "strconv: illegal AppendInt/FormatInt base")
      | some s => Except.ok s := by
  unfold base at hbase
  unfold formatWithBase
  rcases hl : tag.Lookup "base" with _ | baseStr
  · simp only [hl, Prod.mk.injEq, and_true] at hbase
    subst hbase
    rfl
  · simp only [hl] at hbase
    rcases hp : strconv.ParseInt baseStr 10 32 with ⟨b1, _ | e⟩
    · simp only [hp, Prod.mk.injEq, and_true] at hbase
      subst hbase
      simp only [hp]
    · simp [hp] at hbase

theorem intBits_cases (kind : Ty) (bits : Nat) (hk : kind.intBits = some bits) :
    (kind = Ty.int ∧ bits = 64) ∨ (kind = Ty.int8 ∧ bits = 8) ∨ (kind = Ty.int16 ∧ bits = 16) ∨
      (kind = Ty.int32 ∧ bits = 32) ∨ (kind = Ty.int64 ∧ bits = 64) := by
  cases kind <;> simp [Ty.intBits, strconv.IntSize] at hk <;> simp [hk]

theorem uintBits_cases (kind : Ty) (bits : Nat) (hk : kind.uintBits = some bits) :
    (kind = Ty.uint ∧ bits = 64) ∨ (kind = Ty.uint8 ∧ bits = 8) ∨
      (kind = Ty.uint16 ∧ bits = 16) ∨ (kind = Ty.uint32 ∧ bits = 32) ∨
      (kind = Ty.uint64 ∧ bits = 64) := by
  cases kind <;> simp [Ty.uintBits, strconv.IntSize] at hk <;> simp [hk]

/-- Rendering a signed integer in a valid base and converting the string back gives the
integer again. -/
theorem int_kind_roundtrip (lib : Lib) (tag : StructTag) (b : Int) (kind : Ty) (bits : Nat)
    (x : Int) (hbase : base tag = (b, none)) (hb : 2 ≤ b ∧ b ≤ 36)
    (hk : kind.intBits = some bits)
    (hlo : -(2 ^ (bits - 1) : Int) ≤ x) (hhi : x < 2 ^ (bits - 1)) :
    ∃ s, encodeKind lib tag kind (Value.int x) = Except.ok s ∧
      decodeKind lib tag kind s = Except.ok (Value.int x) := by
  have hfmt := formatWithBase_eq tag b (strconv.FormatInt x) hbase
  rcases intBits_cases kind bits hk with ⟨rfl, rfl⟩ | ⟨rfl, rfl⟩ | ⟨rfl, rfl⟩ | ⟨rfl, rfl⟩ |
    ⟨rfl, rfl⟩
  · obtain ⟨s, hs1, hs2⟩ := strconv.ParseInt_FormatInt x b 0 hb (by omega) (by simpa using hlo)
      (by simpa using hhi)
    refine ⟨s, by simp [encodeKind, hfmt, hs1], ?_⟩
    simp [decodeKind, decodeInt, hbase, hs2, strconv.IntSize, setInt_id 64 x (by omega) hlo hhi]
  · obtain ⟨s, hs1, hs2⟩ := strconv.ParseInt_FormatInt x b 8 hb (by omega) (by simpa using hlo)
      (by simpa using hhi)
    refine ⟨s, by simp [encodeKind, hfmt, hs1], ?_⟩
    simp [decodeKind, decodeInt, hbase, hs2, setInt_id 8 x (by omega) hlo hhi]
  · obtain ⟨s, hs1, hs2⟩ := strconv.ParseInt_FormatInt x b 16 hb (by omega) (by simpa using hlo)
      (by simpa using hhi)
    refine ⟨s, by simp [encodeKind, hfmt, hs1], ?_⟩
    simp [decodeKind, decodeInt, hbase, hs2, setInt_id 16 x (by omega) hlo hhi]
  · obtain ⟨s, hs1, hs2⟩ := strconv.ParseInt_FormatInt x b 32 hb (by omega) (by simpa using hlo)
      (by simpa using hhi)
    refine ⟨s, by simp [encodeKind, hfmt, hs1], ?_⟩
    simp [decodeKind, decodeInt, hbase, hs2, setInt_id 32 x (by omega) hlo hhi]
  · obtain ⟨s, hs1, hs2⟩ := strconv.ParseInt_FormatInt x b 64 hb (by omega) (by simpa using hlo)
      (by simpa using hhi)
    refine ⟨s, by simp [encodeKind, hfmt, hs1], ?_⟩
    simp [decodeKind, decodeInt, hbase, hs2, setInt_id 64 x (by omega) hlo hhi]

/-- Rendering an unsigned integer in a valid base and converting the string back gives
the integer again. -/
theorem uint_kind_roundtrip (lib : Lib) (tag : StructTag) (b : Int) (kind : Ty) (bits : Nat)
    (x : Nat) (hbase : base tag = (b, none)) (hb : 2 ≤ b ∧ b ≤ 36)
    (hk : kind.uintBits = some bits) (hx : x < 2 ^ bits) :
    ∃ s, encodeKind lib tag kind (Value.uint x) = Except.ok s ∧
      decodeKind lib tag kind s = Except.ok (Value.uint x) := by
  have hfmt := formatWithBase_eq tag b (strconv.FormatUint x) hbase
  rcases uintBits_cases kind bits hk with ⟨rfl, rfl⟩ | ⟨rfl, rfl⟩ | ⟨rfl, rfl⟩ | ⟨rfl, rfl⟩ |
    ⟨rfl, rfl⟩
  · obtain ⟨s, hs1, hs2⟩ := strconv.ParseUint_FormatUint x b 0 hb (by omega) (by simpa using hx)
    refine ⟨s, by simp [encodeKind, hfmt, hs1], ?_⟩
    simp [decodeKind, decodeUint, hbase, hs2, strconv.IntSize, setUint_id 64 x hx]
  · obtain ⟨s, hs1, hs2⟩ := strconv.ParseUint_FormatUint x b 8 hb (by omega) (by simpa using hx)
    refine ⟨s, by simp [encodeKind, hfmt, hs1], ?_⟩
    simp [decodeKind, decodeUint, hbase, hs2, setUint_id 8 x hx]
  · obtain ⟨s, hs1, hs2⟩ := strconv.ParseUint_FormatUint x b 16 hb (by omega) (by simpa using hx)
    refine ⟨s, by simp [encodeKind, hfmt, hs1], ?_⟩
    simp [decodeKind, decodeUint, hbase, hs2, setUint_id 16 x hx]
  · obtain ⟨s, hs1, hs2⟩ := strconv.ParseUint_FormatUint x b 32 hb (by omega) (by simpa using hx)
    refine ⟨s, by simp [encodeKind, hfmt, hs1], ?_⟩
    simp [decodeKind, decodeUint, hbase, hs2, setUint_id 32 x hx]
  · obtain ⟨s, hs1, hs2⟩ := strconv.ParseUint_FormatUint x b 64 hb (by omega) (by simpa using hx)
    refine ⟨s, by simp [encodeKind, hfmt, hs1], ?_⟩
    simp [decodeKind, decodeUint, hbase, hs2, setUint_id 64 x hx]

theorem base_of_16 (tag : StructTag) (ht : tag.Lookup "base" = some "16") :
    base tag = (16, none) := by
  unfold base
  rw [ht]
  have : strconv.ParseInt "16" 10 32 = (16, none) := by decide
  simp [this]

theorem encodeValue_plain (lib : Lib) (nv : String) (f : Field) (v : Value) (hp : f.plain)
    (hnp : ∀ elem, f.ty ≠ Ty.ptr elem) :
    encodeValue lib nv f v = encodeKind lib f.tag f.ty v := by
  obtain ⟨h1, h2, h3, h4⟩ := hp
  unfold encodeValue
  rw [h3, h4]
  cases hty : f.ty <;> simp_all

theorem decodeValue_plain (lib : Lib) (f : Field) (v : Value) (cell : String) (hp : f.plain)
    (hnp : ∀ elem, f.ty ≠ Ty.ptr elem) :
    decodeValue lib f v cell =
      match decodeKind lib f.tag f.ty cell with
      | Except.error e => (v, some e)
      | Except.ok x => (x, none) := by
  obtain ⟨h1, h2, h3, h4⟩ := hp
  unfold decodeValue
  rw [h1, h2]
  cases hty : f.ty <;> simp_all

theorem intBits_not_ptr (t : Ty) (bits : Nat) (h : t.intBits = some bits) :
    ∀ elem, t ≠ Ty.ptr elem := by
  intro elem he
  subst he
  simp [Ty.intBits] at h

theorem uintBits_not_ptr (t : Ty) (bits : Nat) (h : t.uintBits = some bits) :
    ∀ elem, t ≠ Ty.ptr elem := by
  intro elem he
  subst he
  simp [Ty.uintBits] at h

/-- The conversions of a signed integer field tagged `base:"16"` undo each other: the
string rendered for a representable `x` is converted back to `x`, whatever the field held
before. -/
theorem base16_value_roundtrip (lib : Lib) (nilVal : String) (f : Field) (bits : Nat)
    (x : Int) (v0 : Value) (hk : f.ty.intBits = some bits) (hp : f.plain)
    (ht : f.tag.Lookup "base" = some "16")
    (hlo : -(2 ^ (bits - 1) : Int) ≤ x) (hhi : x < 2 ^ (bits - 1)) :
    ∃ s, encodeValue lib nilVal f (Value.int x) = Except.ok s ∧
      decodeValue lib f v0 s = (Value.int x, none) := by
  obtain ⟨s, hs1, hs2⟩ := int_kind_roundtrip lib f.tag 16 f.ty bits x (base_of_16 f.tag ht)
    (by omega) hk hlo hhi
  have hnp := intBits_not_ptr f.ty bits hk
  refine ⟨s, ?_, ?_⟩
  · rw [encodeValue_plain lib nilVal f _ hp hnp, hs1]
  · rw [decodeValue_plain lib f v0 s hp hnp, hs2]

theorem decodeInt_sound (bits : Nat) (tag : StructTag) (bitSize : Nat) (cell : String)
    (x : Value) (hbits : bits = if bitSize = 0 then 64 else bitSize) (hbs : bitSize ≤ 64)
    (hbs1 : bitSize ≠ 1) (hb0 : (base tag).1 ≠ 0)
    (h : decodeInt bits tag bitSize cell = Except.ok x) :
    ∃ z : Int, x = Value.int z ∧ intDenotes (base tag).1.toNat cell z := by
  unfold decodeInt at h
  rcases hbase : base tag with ⟨b, _ | e⟩
  · rw [hbase] at h hb0
    simp only at h hb0 ⊢
    rcases hparse : strconv.ParseInt cell b bitSize with ⟨z, _ | e⟩
    · rw [hparse] at h
      simp only [Except.ok.injEq] at h
      have hv : 2 ≤ b ∧ b ≤ 36 := by
        rcases strconv.ParseInt_base_valid cell b bitSize z hparse with h0 | hv
        · exact absurd h0 hb0
        · exact hv
      obtain ⟨hden, hlo, hhi⟩ := strconv.ParseInt_sound cell b bitSize z hv hbs hbs1 hparse
      rw [← hbits] at hlo hhi
      have hbits1 : 1 ≤ bits := by rw [hbits]; split <;> omega
      rw [setInt_id bits z hbits1 hlo hhi] at h
      exact ⟨z, h.symm, hden⟩
    · rw [hparse] at h
      simp at h
  · rw [hbase] at h
    simp at h

theorem decodeUint_sound (bits : Nat) (tag : StructTag) (bitSize : Nat) (cell : String)
    (x : Value) (hbits : bits = if bitSize = 0 then 64 else bitSize)
    (hb0 : (base tag).1 ≠ 0)
    (h : decodeUint bits tag bitSize cell = Except.ok x) :
    ∃ n : Nat, x = Value.uint n ∧ natDenotes (base tag).1.toNat cell.data n := by
  unfold decodeUint at h
  rcases hbase : base tag with ⟨b, _ | e⟩
  · rw [hbase] at h hb0
    simp only at h hb0 ⊢
    rcases hparse : strconv.ParseUint cell b bitSize with ⟨n, _ | e⟩
    · rw [hparse] at h
      simp only [Except.ok.injEq] at h
      have hv : 2 ≤ b ∧ b ≤ 36 := by
        rcases strconv.ParseUint_base_valid cell b bitSize n hparse with h0 | hv
        · exact absurd h0 hb0
        · exact hv
      obtain ⟨hden, hlt⟩ := strconv.ParseUint_sound cell b bitSize n hv hparse
      rw [← hbits] at hlt
      rw [setUint_id bits n hlt] at h
      exact ⟨n, h.symm, hden⟩
    · rw [hparse] at h
      simp at h
  · rw [hbase] at h
    simp at h

theorem decodeKind_int_sound (lib : Lib) (tag : StructTag) (kind : Ty) (bits : Nat)
    (cell : String) (x : Value) (hk : kind.intBits = some bits) (hb0 : (base tag).1 ≠ 0)
    (h : decodeKind lib tag kind cell = Except.ok x) :
    ∃ z : Int, x = Value.int z ∧ intDenotes (base tag).1.toNat cell z := by
  rcases intBits_cases kind bits hk with ⟨rfl, rfl⟩ | ⟨rfl, rfl⟩ | ⟨rfl, rfl⟩ | ⟨rfl, rfl⟩ |
    ⟨rfl, rfl⟩ <;> simp only [decodeKind, strconv.IntSize] at h
  · exact decodeInt_sound 64 tag 0 cell x rfl (by omega) (by omega) hb0 h
  · exact decodeInt_sound 8 tag 8 cell x rfl (by omega) (by omega) hb0 h
  · exact decodeInt_sound 16 tag 16 cell x rfl (by omega) (by omega) hb0 h
  · exact decodeInt_sound 32 tag 32 cell x rfl (by omega) (by omega) hb0 h
  · exact decodeInt_sound 64 tag 64 cell x rfl (by omega) (by omega) hb0 h

theorem decodeKind_uint_sound (lib : Lib) (tag : StructTag) (kind : Ty) (bits : Nat)
    (cell : String) (x : Value) (hk : kind.uintBits = some bits) (hb0 : (base tag).1 ≠ 0)
    (h : decodeKind lib tag kind cell = Except.ok x) :
    ∃ n : Nat, x = Value.uint n ∧ natDenotes (base tag).1.toNat cell.data n := by
  rcases uintBits_cases kind bits hk with ⟨rfl, rfl⟩ | ⟨rfl, rfl⟩ | ⟨rfl, rfl⟩ | ⟨rfl, rfl⟩ |
    ⟨rfl, rfl⟩ <;> simp only [decodeKind, strconv.IntSize] at h
  · exact decodeUint_sound 64 tag 0 cell x rfl hb0 h
  · exact decodeUint_sound 8 tag 8 cell x rfl hb0 h
  · exact decodeUint_sound 16 tag 16 cell x rfl hb0 h
  · exact decodeUint_sound 32 tag 32 cell x rfl hb0 h
  · exact decodeUint_sound 64 tag 64 cell x rfl hb0 h

/-- The loop pass of a field that is reached and not skipped is the conversion of its
cell. -/
theorem decodeField_reached (lib : Lib) (hdr : GoMap Nat) (nv : String) (al : Bool)
    (line : List String) (f : Field) (v : Value) (index : Nat) (cell : String)
    (hx : f.column ≠ "" ∧ f.column ≠ "-") (hcol : hdr.get? f.column = some index)
    (hcell : line.get? index = some cell)
    (hskip : ¬ (cell = nv ∧ omitEmpty f.options = true)) :
    decodeField lib hdr nv al line f v = decodeValue lib f v cell := by
  unfold Field.column at hcol hx
  unfold Field.options at hskip
  unfold decodeField
  have hx1 : ¬ ((parseTag (f.tag.Get "csv")).1 = "" ∨ (parseTag (f.tag.Get "csv")).1 = "-") := by
    tauto
  simp only [hx1, if_false, hcol, hcell, hskip]

/-- After a `Decode` that returned no error, the field at position `pre.length` holds what
its loop pass computed, and that pass raised no error. -/
theorem Decode_ok_field (lib : Lib) (dec : Decoder) (hdr : GoMap Nat) (line : List String)
    (r1 : Reader) (pre post : Record) (f : Field) (v : Value)
    (hh : dec.hdr = some hdr) (hr : dec.r.Read = (Except.ok line, r1))
    (hok : (dec.Decode lib (structPtr (pre ++ (f, v) :: post))).2.2 = none) :
    (dec.Decode lib (structPtr (pre ++ (f, v) :: post))).2.1.values.get? pre.length =
        some (decodeField lib hdr dec.nilVal dec.allowMissingColumns line f v).1 ∧
      (decodeField lib hdr dec.nilVal dec.allowMissingColumns line f v).2 = none := by
  rw [Decode_structPtr lib dec hdr line r1 _ hh hr] at hok ⊢
  simp only at hok
  obtain ⟨h1, h2⟩ := decodeFields_ok lib hdr dec.nilVal dec.allowMissingColumns line _ hok
  refine ⟨?_, h2 (f, v) (by simp)⟩
  simp only [values_structPtr]
  rw [h1, List.map_map, List.map_append, List.map_cons, List.get?_eq_getElem?,
    List.getElem?_append_right (by simp)]
  simp

/-- C8: let `f` be a signed or unsigned integer field without hooks whose column is in the
header, whose cell is not skipped by the nil-value rule, and whose numeric base
`b = (base f.tag).1` (the `base` tag, 10 when absent) is a base of positional notation
(not the `0` that stands for Go's detection of the base). When `Decode` returns no error,
the field holds the integer that the row string denotes in base `b`: an optional sign
followed by digits below `b` for a signed field, digits below `b` for an unsigned one. With
header `[a,b,c,d]` and row `["-15","-f","255","377"]` the struct `intTest` ends up as
`A=-15, B=-15, C=255, D=255`. -/
theorem Decode_integer_value (lib : Lib) (dec : Decoder) (hdr : GoMap Nat)
    (line : List String) (r1 : Reader) (pre post : Record) (f : Field) (v : Value)
    (index : Nat) (cell : String)
    (hh : dec.hdr = some hdr) (hr : dec.r.Read = (Except.ok line, r1)) (hp : f.plain)
    (hx : f.column ≠ "" ∧ f.column ≠ "-") (hcol : hdr.get? f.column = some index)
    (hcell : line.get? index = some cell)
    (hskip : ¬ (cell = dec.nilVal ∧ omitEmpty f.options = true))
    (hb0 : (base f.tag).1 ≠ 0)
    (hok : (dec.Decode lib (structPtr (pre ++ (f, v) :: post))).2.2 = none) :
    (∀ bits, f.ty.intBits = some bits → ∃ z : Int,
      (dec.Decode lib (structPtr (pre ++ (f, v) :: post))).2.1.values.get? pre.length =
        some (Value.int z) ∧ intDenotes (base f.tag).1.toNat cell z) ∧
    (∀ bits, f.ty.uintBits = some bits → ∃ n : Nat,
      (dec.Decode lib (structPtr (pre ++ (f, v) :: post))).2.1.values.get? pre.length =
        some (Value.uint n) ∧ natDenotes (base f.tag).1.toNat cell.data n) ∧
    (Decoder.Decode noFloatLib
      ((NewDecoder [Except.ok ["-15", "-f", "255", "377"]]).WithHeader ["a", "b", "c", "d"])
      (structPtr (intTest 0 0 0 0))).2.1.values =
        [Value.int (-15), Value.int (-15), Value.uint 255, Value.uint 255] := by
  obtain ⟨hval, herr⟩ := Decode_ok_field lib dec hdr line r1 pre post f v hh hr hok
  rw [decodeField_reached lib hdr dec.nilVal dec.allowMissingColumns line f v index cell hx hcol
    hcell hskip] at hval herr
  refine ⟨?_, ?_, by decide⟩
  · intro bits hk
    rw [decodeValue_plain lib f v cell hp (intBits_not_ptr f.ty bits hk)] at hval herr
    rcases hdk : decodeKind lib f.tag f.ty cell with e | x
    · rw [hdk] at herr
      simp at herr
    · rw [hdk] at hval
      obtain ⟨z, hz, hden⟩ := decodeKind_int_sound lib f.tag f.ty bits cell x hk hb0 hdk
      subst hz
      exact ⟨z, hval, hden⟩
  · intro bits hk
    rw [decodeValue_plain lib f v cell hp (uintBits_not_ptr f.ty bits hk)] at hval herr
    rcases hdk : decodeKind lib f.tag f.ty cell with e | x
    · rw [hdk] at herr
      simp at herr
    · rw [hdk] at hval
      obtain ⟨n, hn, hden⟩ := decodeKind_uint_sound lib f.tag f.ty bits cell x hk hb0 hdk
      subst hn
      exact ⟨n, hval, hden⟩

theorem Decode_integer_value_witness :
    ∃ z : Int,
      (Decoder.Decode noFloatLib ((NewDecoder [Except.ok ["-f"]]).WithHeader ["b"])
        (structPtr [({ name := "B", ty := Ty.int, tag := [("csv", "b"), ("base", "16")] },
          Value.int 0)])).2.1.values.get? 0 = some (Value.int z) ∧
      intDenotes 16 "-f" z :=
  (Decode_integer_value noFloatLib ((NewDecoder [Except.ok ["-f"]]).WithHeader ["b"])
    [("b", 0)] ["-f"] [] [] []
    { name := "B", ty := Ty.int, tag := [("csv", "b"), ("base", "16")] } (Value.int 0) 0 "-f"
    rfl rfl ⟨rfl, rfl, rfl, rfl⟩ (by decide) (by decide) (by decide) (by decide) (by decide)
    (by decide)).1 64 rfl

/-! ## Claims on the row written by `Encode` -/

theorem zipWith_snd (h : List String) (line : List String) (hl : line.length = h.length) :
    List.zipWith (fun _ acc => acc) h line = line := by
  induction h generalizing line with
  | nil =>
    cases line with
    | nil => rfl
    | cons _ _ => simp at hl
  | cons a rest ih =>
    cases line with
    | nil => simp at hl
    | cons b tl =>
      simp only [List.length_cons, Nat.add_right_cancel_iff] at hl
      simp [ih tl hl]

theorem encodeField_excluded (lib : Lib) (hdr : GoMap Nat) (nv : String) (al : Bool)
    (f : Field) (v : Value) (line : List String)
    (hx : ¬ (f.column ≠ "" ∧ f.column ≠ "-")) :
    encodeField lib hdr nv al f v line = (line, none) := by
  unfold Field.column at hx
  unfold encodeField
  have hx1 : (parseTag (f.tag.Get "csv")).1 = "" ∨ (parseTag (f.tag.Get "csv")).1 = "-" := by
    tauto
  simp [hx1]

theorem encodeField_put (lib : Lib) (hdr : GoMap Nat) (nv : String) (al : Bool)
    (f : Field) (v : Value) (line : List String) (k : Nat) (s : String)
    (hx : f.column ≠ "" ∧ f.column ≠ "-") (hcol : hdr.get? f.column = some k)
    (hk : k < line.length) (hs : encodeValue lib nv f v = Except.ok s) :
    encodeField lib hdr nv al f v line = (line.set k s, none) := by
  unfold Field.column at hx hcol
  unfold encodeField
  have hx1 : ¬ ((parseTag (f.tag.Get "csv")).1 = "" ∨ (parseTag (f.tag.Get "csv")).1 = "-") := by
    tauto
  simp [hx1, hcol, hs, hk]

/-- The row that the field loop of `Encode` builds under a duplicate-free header that
holds the column of every field that is not excluded, all of them renderable. -/
theorem encodeFields_entries (lib : Lib) (h : List String) (hn : h.Nodup) (nv : String)
    (al : Bool) :
    ∀ (rec : Record) (line : List String), line.length = h.length →
      (∀ fv ∈ rec, fv.1.column ≠ "" ∧ fv.1.column ≠ "-" →
        fv.1.column ∈ h ∧ ∃ s, encodeValue lib nv fv.1 fv.2 = Except.ok s) →
      encodeFields lib (headerLoop h 0 []) nv al rec line =
        (List.zipWith (fun name acc => columnEntryFrom lib nv name rec acc) h line, none) := by
  intro rec
  induction rec with
  | nil =>
    intro line hl _
    simp only [encodeFields, columnEntryFrom]
    rw [zipWith_snd h line hl]
  | cons fv rest ih =>
    obtain ⟨f, v⟩ := fv
    intro line hl hall
    have hrest : ∀ fv ∈ rest, fv.1.column ≠ "" ∧ fv.1.column ≠ "-" →
        fv.1.column ∈ h ∧ ∃ s, encodeValue lib nv fv.1 fv.2 = Except.ok s :=
      fun fv hfv => hall fv (List.mem_cons_of_mem _ hfv)
    by_cases hx : f.column ≠ "" ∧ f.column ≠ "-"
    · obtain ⟨hmem, s, hs⟩ := hall (f, v) (by simp) hx
      obtain ⟨_, _, hget⟩ := header_nodup h hn
      obtain ⟨k, hk1, hk2⟩ := hget f.column hmem
      have hklt : k < h.length := by
        rcases List.getElem?_eq_some_iff.mp hk2 with ⟨hlt, _⟩
        exact hlt
      have hkeq : h[k] = f.column := by
        rcases List.getElem?_eq_some_iff.mp hk2 with ⟨_, he⟩
        exact he
      simp only [encodeFields]
      rw [encodeField_put lib _ nv al f v line k s hx hk1 (by omega) hs]
      simp only
      rw [ih (line.set k s) (by simp [hl]) hrest]
      congr 1
      apply List.ext_getElem
      · simp
      · intro p hp1 hp2
        simp only [List.length_zipWith, List.length_set] at hp1 hp2
        simp only [List.getElem_zipWith, columnEntryFrom, hs]
        by_cases hpk : k = p
        · subst hpk
          simp [hkeq, hx.1, hx.2]
        · have hne : ¬ f.column = h[p] := by
            intro hc
            apply hpk
            rw [← hkeq] at hc
            exact (hn.getElem_inj_iff).mp hc
          simp [hne, List.getElem_set_ne hpk]
    · simp only [encodeFields]
      rw [encodeField_excluded lib _ nv al f v line hx]
      simp only
      rw [ih line hl hrest]
      have hfun : (fun name acc => columnEntryFrom lib nv name ((f, v) :: rest) acc) =
          (fun name acc => columnEntryFrom lib nv name rest acc) := by
        funext name acc
        have hc : ¬ (f.column = name ∧ f.column ≠ "" ∧ f.column ≠ "-") := fun hc => hx hc.2
        simp only [columnEntryFrom, hc, if_false]
      rw [hfun]

theorem zipWith_replicate (h : List String) (g : String → String → String) :
    List.zipWith g h (List.replicate h.length "") = h.map (fun name => g name "") := by
  induction h with
  | nil => rfl
  | cons a rest ih => simp [List.replicate_succ, ih]

theorem columnEntryFrom_unnamed (lib : Lib) (nv : String) (name : String) (rec : Record)
    (acc : String) (h : ∀ fv ∈ rec, fv.1.column ≠ name) :
    columnEntryFrom lib nv name rec acc = acc := by
  induction rec generalizing acc with
  | nil => rfl
  | cons fv rest ih =>
    obtain ⟨f, v⟩ := fv
    have hf : ¬ (f.column = name ∧ f.column ≠ "" ∧ f.column ≠ "-") :=
      fun hc => h (f, v) (by simp) hc.1
    simp only [columnEntryFrom, hf, if_false]
    exact ih acc (fun fv hfv => h fv (List.mem_cons_of_mem _ hfv))

theorem columnEntryFrom_append (lib : Lib) (nv : String) (name : String) (pre post : Record)
    (acc : String) :
    columnEntryFrom lib nv name (pre ++ post) acc =
      columnEntryFrom lib nv name post (columnEntryFrom lib nv name pre acc) := by
  induction pre generalizing acc with
  | nil => rfl
  | cons fv rest ih =>
    obtain ⟨f, v⟩ := fv
    simp only [List.cons_append, columnEntryFrom]
    split <;> exact ih _

/-- The entry of a column is the rendering of the last declared field of that column. -/
theorem columnEntry_last (lib : Lib) (nv : String) (pre post : Record) (f : Field) (v : Value)
    (s : String) (hx : f.column ≠ "" ∧ f.column ≠ "-")
    (hpost : ∀ fv ∈ post, fv.1.column ≠ f.column)
    (hs : encodeValue lib nv f v = Except.ok s) :
    columnEntry lib nv (pre ++ (f, v) :: post) f.column = s := by
  unfold columnEntry
  rw [columnEntryFrom_append]
  simp only [columnEntryFrom, hx, hs, ne_eq, not_false_eq_true, and_self, if_true]
  exact columnEntryFrom_unnamed lib nv f.column post s hpost

/-- The outcome of `Encode` under an explicit duplicate-free, non-empty header that holds
the column of every field that is not excluded, all of them renderable: one `Write` of the
row of column entries. -/
theorem Encode_header_row (lib : Lib) (enc : Encoder) (h : List String) (rec : Record)
    (hn : h.Nodup) (hne : h ≠ [])
    (hall : ∀ fv ∈ rec, fv.1.column ≠ "" ∧ fv.1.column ≠ "-" →
      fv.1.column ∈ h ∧ ∃ s, encodeValue lib enc.nilVal fv.1 fv.2 = Except.ok s) :
    (enc.WithHeader h).Encode lib (structPtr rec) =
      ({ enc.WithHeader h with w := (enc.w.Write (h.map (columnEntry lib enc.nilVal rec))).1 },
        (enc.w.Write (h.map (columnEntry lib enc.nilVal rec))).2) := by
  obtain ⟨hlen, _, _⟩ := header_nodup h hn
  have hhdr : (enc.WithHeader h).hdr ≠ [] := by
    intro hc
    have : (enc.WithHeader h).hdr.length = h.length := hlen
    rw [hc] at this
    exact hne (List.length_eq_zero.mp this.symm)
  have hloop := encodeFields_entries lib h hn enc.nilVal enc.allowMissingColumns rec
    (List.replicate h.length "") (by simp) hall
  rw [zipWith_replicate] at hloop
  rw [Encode_structPtr lib _ _ hhdr]
  have h1 : (enc.WithHeader h).hdr = headerLoop h 0 [] := rfl
  have h2 : (enc.WithHeader h).nilVal = enc.nilVal := rfl
  have h3 : (enc.WithHeader h).allowMissingColumns = enc.allowMissingColumns := rfl
  have h4 : (enc.WithHeader h).w = enc.w := rfl
  rw [h1, h2, h3, h4, hlen, hloop]
  rfl

theorem Write_rows (w : Writer) (line : List String) : (w.Write line).1.rows = w.rows ++ [line] := by
  simp only [Writer.Write]
  split <;> rfl

/-- C9 (as stated, refuted): the header `[a]` is explicit, duplicate-free, non-empty and
holds the column of both tagged fields of `{A string csv:"a"; B string csv:"a"}`; `Encode`
writes the row `["y"]`, the rendering of `B`: the entry at the position of the column of
`A` is not the rendering `"x"` of `A`. -/
theorem Encode_shared_column :
    (Encoder.Encode noFloatLib ((NewEncoder emptyWriter).WithHeader ["a"])
        (structPtr (sameColumn "x" "y"))).1.w.rows = [["y"]] ∧
    (Encoder.Encode noFloatLib ((NewEncoder emptyWriter).WithHeader ["a"])
        (structPtr (sameColumn "x" "y"))).2 = none := by
  decide

/-- C9 (amended): for every struct record and every explicit, duplicate-free, non-empty
header given to `Encoder.WithHeader` that holds the column of each field that is not
excluded, all of these fields being renderable, `Encode` hands exactly one row to the sink
and returns what the sink returns; the row has the width of the header; its entry at the
position of a column is the rendering of the last declared field of that column, and the
empty string at a position named by no field; so the columns come out in header order
(header `[n,str]` gives `"12345","this is a string"`). -/
theorem Encode_with_header (lib : Lib) (enc : Encoder) (h : List String) (rec : Record)
    (hn : h.Nodup) (hne : h ≠ [])
    (hall : ∀ fv ∈ rec, fv.1.column ≠ "" ∧ fv.1.column ≠ "-" →
      fv.1.column ∈ h ∧ ∃ s, encodeValue lib enc.nilVal fv.1 fv.2 = Except.ok s) :
    ((enc.WithHeader h).Encode lib (structPtr rec)).1.w.rows =
        enc.w.rows ++ [h.map (columnEntry lib enc.nilVal rec)] ∧
    ((enc.WithHeader h).Encode lib (structPtr rec)).2 =
        (enc.w.Write (h.map (columnEntry lib enc.nilVal rec))).2 ∧
    (h.map (columnEntry lib enc.nilVal rec)).length = h.length ∧
    (∀ name, (∀ fv ∈ rec, fv.1.column ≠ name) → columnEntry lib enc.nilVal rec name = "") ∧
    (∀ pre post f v s, rec = pre ++ (f, v) :: post → (f.column ≠ "" ∧ f.column ≠ "-") →
      (∀ fv ∈ post, fv.1.column ≠ f.column) → encodeValue lib enc.nilVal f v = Except.ok s →
      columnEntry lib enc.nilVal rec f.column = s) ∧
    (Encoder.Encode noFloatLib ((NewEncoder emptyWriter).WithHeader ["n", "str"])
      (structPtr (simpleTest "this is a string" 12345))).1.w.rows =
        [["12345", "this is a string"]] := by
  have henc := Encode_header_row lib enc h rec hn hne hall
  refine ⟨?_, ?_, by simp, ?_, ?_, by decide⟩
  · rw [henc]
    exact Write_rows _ _
  · rw [henc]
  · intro name hname
    exact columnEntryFrom_unnamed lib enc.nilVal name rec "" hname
  · intro pre post f v s hrec hx hpost hs
    subst hrec
    exact columnEntry_last lib enc.nilVal pre post f v s hx hpost hs

theorem Encode_with_header_witness :
    (Encoder.Encode noFloatLib ((NewEncoder emptyWriter).WithHeader ["n", "str"])
        (structPtr (simpleTest "this is a string" 12345))).1.w.rows =
      emptyWriter.rows ++
        [["n", "str"].map (columnEntry noFloatLib "" (simpleTest "this is a string" 12345))] :=
  (Encode_with_header noFloatLib (NewEncoder emptyWriter) ["n", "str"]
    (simpleTest "this is a string" 12345) (by decide) (by decide)
    (by
      intro fv hfv _
      simp only [simpleTest, List.mem_cons, List.mem_singleton, List.not_mem_nil,
        or_false] at hfv
      rcases hfv with rfl | rfl
      · exact ⟨by decide, "this is a string", rfl⟩
      · exact ⟨by decide, "12345", rfl⟩)).1

/-! ## The round trip -/

theorem scalar_roundtrip (lib : Lib) (tag : StructTag) (t : Ty) (x : Value)
    (h : scalarValue lib tag t x) :
    ∃ s, encodeKind lib tag t x = Except.ok s ∧ decodeKind lib tag t s = Except.ok x := by
  cases x with
  | str s =>
    simp only [scalarValue] at h
    subst h
    exact ⟨s, rfl, rfl⟩
  | bool b =>
    simp only [scalarValue] at h
    subst h
    cases b
    · have hp : strconv.ParseBool "false" = Except.ok false := rfl
      exact ⟨"false", rfl, by simp [decodeKind, hp]⟩
    · have hp : strconv.ParseBool "true" = Except.ok true := rfl
      exact ⟨"true", rfl, by simp [decodeKind, hp]⟩
  | int n =>
    simp only [scalarValue] at h
    obtain ⟨bits, hk, ⟨hb1, hb2, hb3⟩, hlo, hhi⟩ := h
    have hbase : base tag = ((base tag).1, none) := by rw [← hb1]
    exact int_kind_roundtrip lib tag (base tag).1 t bits n hbase ⟨hb2, hb3⟩ hk hlo hhi
  | uint n =>
    simp only [scalarValue] at h
    obtain ⟨bits, hk, ⟨hb1, hb2, hb3⟩, hx⟩ := h
    have hbase : base tag = ((base tag).1, none) := by rw [← hb1]
    exact uint_kind_roundtrip lib tag (base tag).1 t bits n hbase ⟨hb2, hb3⟩ hk hx
  | float f =>
    simp only [scalarValue] at h
    exact h.2
  | time tm =>
    simp only [scalarValue] at h
    exact h.2
  | nil => simp [scalarValue] at h
  | ptr v => simp [scalarValue] at h
  | other => simp [scalarValue] at h

theorem scalarValue_not_ptr (lib : Lib) (tag : StructTag) (t : Ty) (x : Value)
    (h : scalarValue lib tag t x) : ∀ e, t ≠ Ty.ptr e := by
  intro e he
  subst he
  cases x <;> simp [scalarValue, Ty.intBits, Ty.uintBits] at h

/-- What `Encode` renders for a field that can make the round trip, `Decode` converts back
to the value of the field, or skips when the field holds its zero value. -/
theorem field_roundtrip (lib : Lib) (nv : String) (f : Field) (v : Value)
    (h : f.roundTrips lib nv v) :
    ∃ s, encodeValue lib nv f v = Except.ok s ∧
      (s = nv ∧ omitEmpty f.options = true → v = f.ty.zero) ∧
      (¬ (s = nv ∧ omitEmpty f.options = true) →
        decodeValue lib f f.ty.zero s = (v, none)) := by
  obtain ⟨hp, hm⟩ := h
  obtain ⟨h1, h2, h3, h4⟩ := hp
  by_cases hptr : ∃ elem, f.ty = Ty.ptr elem
  · obtain ⟨elem, hty⟩ := hptr
    rw [hty] at hm
    cases v with
    | nil =>
      simp only at hm
      refine ⟨nv, by simp [encodeValue, hty], fun _ => by simp [hty, Ty.zero], ?_⟩
      intro hc
      exact absurd ⟨rfl, hm⟩ hc
    | ptr x =>
      simp only at hm
      obtain ⟨hsc, hnot⟩ := hm
      obtain ⟨s, hs1, hs2⟩ := scalar_roundtrip lib f.tag elem x hsc
      refine ⟨s, by simp [encodeValue, hty, h3, h4, hs1], ?_, ?_⟩
      · intro hc
        exfalso
        apply hnot
        exact ⟨hc.2, by rw [hs1, hc.1]⟩
      · intro _
        simp [decodeValue, hty, h1, h2, hs2]
    | str _ => simp at hm
    | bool _ => simp at hm
    | int _ => simp at hm
    | uint _ => simp at hm
    | float _ => simp at hm
    | time _ => simp at hm
    | other => simp at hm
  · have hnp : ∀ elem, f.ty ≠ Ty.ptr elem := fun elem he => hptr ⟨elem, he⟩
    have hm1 : scalarValue lib f.tag f.ty v ∧
        (omitEmpty f.options = true → encodeKind lib f.tag f.ty v = Except.ok nv →
          v = f.ty.zero) := by
      cases hty : f.ty <;> first
        | exact absurd hty (hnp _)
        | (rw [hty] at hm; exact hm)
    obtain ⟨hsc, hzero⟩ := hm1
    obtain ⟨s, hs1, hs2⟩ := scalar_roundtrip lib f.tag f.ty v hsc
    refine ⟨s, by rw [encodeValue_plain lib nv f v ⟨h1, h2, h3, h4⟩ hnp, hs1], ?_, ?_⟩
    · intro hc
      exact hzero hc.2 (by rw [hs1, hc.1])
    · intro _
      rw [decodeValue_plain lib f _ s ⟨h1, h2, h3, h4⟩ hnp, hs2]

theorem decodeField_excluded (lib : Lib) (hdr : GoMap Nat) (nv : String) (al : Bool)
    (line : List String) (f : Field) (v : Value)
    (hx : ¬ (f.column ≠ "" ∧ f.column ≠ "-")) :
    decodeField lib hdr nv al line f v = (v, none) := by
  unfold Field.column at hx
  unfold decodeField
  have hx1 : (parseTag (f.tag.Get "csv")).1 = "" ∨ (parseTag (f.tag.Get "csv")).1 = "-" := by
    tauto
  simp [hx1]

/-- Decoding the row of column entries of a record into the zero-valued record gives each
field that is not excluded its original value. -/
theorem decodeFields_row (lib : Lib) (h : List String) (hn : h.Nodup) (nv : String) (al : Bool)
    (rec : Record)
    (hcols : ∀ fv ∈ rec, fv.1.column ≠ "" ∧ fv.1.column ≠ "-" → fv.1.column ∈ h)
    (hdist : rec.Pairwise (fun a b => (a.1.column ≠ "" ∧ a.1.column ≠ "-") →
      (b.1.column ≠ "" ∧ b.1.column ≠ "-") → a.1.column ≠ b.1.column))
    (hrt : ∀ fv ∈ rec, fv.1.column ≠ "" ∧ fv.1.column ≠ "-" → fv.1.roundTrips lib nv fv.2) :
    ∀ (post pre : Record), rec = pre ++ post →
      decodeFields lib (headerLoop h 0 []) nv al (h.map (columnEntry lib nv rec))
          (Record.zeroed post) =
        (post.map (fun fv => (fv.1, if fv.1.column ≠ "" ∧ fv.1.column ≠ "-" then fv.2
          else fv.1.ty.zero)), none) := by
  intro post
  induction post with
  | nil => intro pre _; simp [Record.zeroed, decodeFields]
  | cons fv post ih =>
    obtain ⟨f, v⟩ := fv
    intro pre hrec
    have hih := ih (pre ++ [(f, v)]) (by simp [hrec])
    have hmem : (f, v) ∈ rec := by rw [hrec]; simp
    simp only [Record.zeroed, List.map_cons, decodeFields]
    have hstep : decodeField lib (headerLoop h 0 []) nv al (h.map (columnEntry lib nv rec)) f
        f.ty.zero = (if f.column ≠ "" ∧ f.column ≠ "-" then v else f.ty.zero, none) := by
      by_cases hx : f.column ≠ "" ∧ f.column ≠ "-"
      · simp only [hx, ne_eq, not_false_eq_true, and_self, if_true]
        obtain ⟨s, hs, hzero, hconv⟩ := field_roundtrip lib nv f v (hrt (f, v) hmem hx)
        obtain ⟨_, _, hget⟩ := header_nodup h hn
        obtain ⟨k, hk1, hk2⟩ := hget f.column (hcols (f, v) hmem hx)
        have hpost : ∀ fv ∈ post, fv.1.column ≠ f.column := by
          intro fv hfv
          have hpw : List.Pairwise (fun a b => (a.1.column ≠ "" ∧ a.1.column ≠ "-") →
              (b.1.column ≠ "" ∧ b.1.column ≠ "-") → a.1.column ≠ b.1.column)
              ((f, v) :: post) := by
            rw [hrec] at hdist
            exact (List.pairwise_append.mp hdist).2.1
          have hr := (List.pairwise_cons.mp hpw).1 fv hfv
          by_cases hfx : fv.1.column ≠ "" ∧ fv.1.column ≠ "-"
          · exact fun hc => hr hx hfx hc.symm
          · intro hc
            rw [hc] at hfx
            exact hfx hx
        have hentry : columnEntry lib nv rec f.column = s := by
          rw [hrec]
          exact columnEntry_last lib nv pre post f v s hx hpost hs
        have hcell : (h.map (columnEntry lib nv rec)).get? k = some s := by
          rw [List.get?_eq_getElem?, List.getElem?_map, hk2]
          simp [hentry]
        by_cases hskip : s = nv ∧ omitEmpty f.options = true
        · have hcell1 : (h.map (columnEntry lib nv rec)).get? k = some nv := by
            rw [hcell, hskip.1]
          rw [decodeField_omitempty lib _ nv al _ f f.ty.zero k hk1 hcell1 hskip.2]
          rw [hzero hskip]
        · rw [decodeField_reached lib _ nv al _ f f.ty.zero k s hx hk1 hcell hskip]
          exact hconv hskip
      · simp only [hx, if_false]
        exact decodeField_excluded lib _ nv al _ f f.ty.zero hx
    rw [hstep]
    simp only
    have hz : List.map (fun fv => (fv.1, fv.1.ty.zero)) post = Record.zeroed post := rfl
    rw [hz, hih]

/-- C1 (as stated, refuted): the struct `simpleTestPointer` of the tests, with its
`*string` field tagged `csv:"str,omitempty"` pointing to the empty string, is encoded to
the row `["", "5"]`; decoding that row with the same header and the same (default) nil
value into the zero-valued struct leaves the field nil. -/
theorem roundtrip_loses_empty_string :
    (Encoder.Encode noFloatLib ((NewEncoder emptyWriter).WithHeader ["str", "n"])
        (structPtr (simpleTestPointer (Value.ptr (Value.str "")) 5))).1.w.rows = [["", "5"]] ∧
    (Decoder.Decode noFloatLib ((NewDecoder [Except.ok ["", "5"]]).WithHeader ["str", "n"])
        (structPtr (simpleTestPointer Value.nil 0))).2.1.values = [Value.nil, Value.int 5] ∧
    (Decoder.Decode noFloatLib ((NewDecoder [Except.ok ["", "5"]]).WithHeader ["str", "n"])
        (structPtr (simpleTestPointer Value.nil 0))).2.2 = none := by
  decide

/-- C1 (amended): let the Encoder and the Decoder be given the same duplicate-free,
non-empty header and the same nil value, and let the record be such that the columns of its
tagged fields are in the header and pairwise distinct, and every tagged field can make the
round trip (`Field.roundTrips`: no per-value hook; a string, a boolean, an integer within
its width under a base in 2..36, a float or time value that the library parses back from
its rendering, or a pointer that is nil and tagged `omitempty` or points to such a value;
and no field tagged `omitempty` is rendered as the nil value unless it holds its zero
value). Then `Encode` hands one row to the sink, and decoding that row into the zero-valued
record of the same type returns no error and gives every tagged field its original
value. -/
theorem roundtrip (lib : Lib) (enc : Encoder) (dec : Decoder) (h : List String) (rec : Record)
    (r1 : Reader) (hn : h.Nodup) (hne : h ≠ [])
    (hcols : ∀ fv ∈ rec, fv.1.column ≠ "" ∧ fv.1.column ≠ "-" → fv.1.column ∈ h)
    (hdist : rec.Pairwise (fun a b => (a.1.column ≠ "" ∧ a.1.column ≠ "-") →
      (b.1.column ≠ "" ∧ b.1.column ≠ "-") → a.1.column ≠ b.1.column))
    (hrt : ∀ fv ∈ rec, fv.1.column ≠ "" ∧ fv.1.column ≠ "-" →
      fv.1.roundTrips lib enc.nilVal fv.2)
    (hnil : dec.nilVal = enc.nilVal)
    (hread : dec.r.Read = (Except.ok (h.map (columnEntry lib enc.nilVal rec)), r1)) :
    ((enc.WithHeader h).Encode lib (structPtr rec)).1.w.rows =
        enc.w.rows ++ [h.map (columnEntry lib enc.nilVal rec)] ∧
    ((dec.WithHeader h).Decode lib (structPtr rec.zeroed)).2.2 = none ∧
    ((dec.WithHeader h).Decode lib (structPtr rec.zeroed)).2.1.values = rec.carried := by
  have hall : ∀ fv ∈ rec, fv.1.column ≠ "" ∧ fv.1.column ≠ "-" →
      fv.1.column ∈ h ∧ ∃ s, encodeValue lib enc.nilVal fv.1 fv.2 = Except.ok s := by
    intro fv hfv hx
    obtain ⟨s, hs, _, _⟩ := field_roundtrip lib enc.nilVal fv.1 fv.2 (hrt fv hfv hx)
    exact ⟨hcols fv hfv hx, s, hs⟩
  have hdec := decodeFields_row lib h hn enc.nilVal dec.allowMissingColumns rec hcols hdist hrt
    rec [] rfl
  have hD := Decode_structPtr lib (dec.WithHeader h) (headerLoop h 0 [])
    (h.map (columnEntry lib enc.nilVal rec)) r1 rec.zeroed rfl hread
  have h2 : (dec.WithHeader h).nilVal = enc.nilVal := hnil
  have h3 : (dec.WithHeader h).allowMissingColumns = dec.allowMissingColumns := rfl
  rw [h2, h3, hdec] at hD
  refine ⟨?_, ?_, ?_⟩
  · rw [Encode_header_row lib enc h rec hn hne hall]
    exact Write_rows _ _
  · rw [hD]
  · rw [hD]
    simp [values_structPtr, Record.carried]

theorem roundtrip_witness :
    (Decoder.Decode noFloatLib
        ((NewDecoder [Except.ok (["n", "str"].map
          (columnEntry noFloatLib "" (simpleTest "this is a string" 12345)))]).WithHeader
            ["n", "str"])
        (structPtr (simpleTest "this is a string" 12345).zeroed)).2.1.values =
      (simpleTest "this is a string" 12345).carried :=
  (roundtrip noFloatLib (NewEncoder emptyWriter)
    (NewDecoder [Except.ok (["n", "str"].map
      (columnEntry noFloatLib "" (simpleTest "this is a string" 12345)))])
    ["n", "str"] (simpleTest "this is a string" 12345) [] (by decide) (by decide)
    (by
      intro fv hfv _
      simp only [simpleTest, List.mem_cons, List.mem_singleton, List.not_mem_nil,
        or_false] at hfv
      rcases hfv with rfl | rfl <;> decide)
    (by
      simp only [simpleTest, List.pairwise_cons, List.mem_singleton, List.not_mem_nil,
        forall_eq, List.Pairwise.nil, and_true, false_implies, implies_true]
      intro _ _
      decide)
    (by
      intro fv hfv _
      simp only [simpleTest, List.mem_cons, List.mem_singleton, List.not_mem_nil,
        or_false] at hfv
      rcases hfv with rfl | rfl
      · exact ⟨⟨rfl, rfl, rfl, rfl⟩, rfl, fun hc => absurd hc (by decide)⟩
      · exact ⟨⟨rfl, rfl, rfl, rfl⟩, ⟨64, rfl, ⟨rfl, by decide, by decide⟩, by norm_num,
          by norm_num⟩, fun hc => absurd hc (by decide)⟩)
    rfl rfl).2.2

/-! ## Shared lemmas on the value of a field after `Decode` -/

/-- The value a field holds after `Decode` is what its loop pass computed, once the row was
read and the fields before it were decoded without error, whether the pass itself or a
later one fails or not. -/
theorem Decode_field_value (lib : Lib) (dec : Decoder) (hdr : GoMap Nat) (row : List String)
    (r1 : Reader) (pre post : Record) (f : Field) (v : Value)
    (hh : dec.hdr = some hdr) (hr : dec.r.Read = (Except.ok row, r1))
    (hpre : (decodeFields lib hdr dec.nilVal dec.allowMissingColumns row pre).2 = none) :
    (dec.Decode lib (structPtr (pre ++ (f, v) :: post))).2.1.values.get? pre.length =
      some (decodeField lib hdr dec.nilVal dec.allowMissingColumns row f v).1 := by
  have hlen := decodeFields_length lib hdr dec.nilVal dec.allowMissingColumns row pre
  rw [Decode_structPtr lib dec hdr row r1 _ hh hr]
  simp only [values_structPtr]
  rw [decodeFields_append]
  rcases hq : decodeFields lib hdr dec.nilVal dec.allowMissingColumns row pre
    with ⟨pre1, _ | e1⟩
  · rw [hq] at hlen
    simp only at hlen
    rcases hstep : decodeField lib hdr dec.nilVal dec.allowMissingColumns row f v
      with ⟨v1, _ | e⟩
    · rcases hrest : decodeFields lib hdr dec.nilVal dec.allowMissingColumns row post
        with ⟨post1, oe⟩
      simp only [decodeFields, hstep, hrest, List.map_append, List.map_cons,
        List.get?_eq_getElem?]
      rw [List.getElem?_append_right (by simp [hlen])]
      simp [hlen]
    · simp only [decodeFields, hstep, List.map_append, List.map_cons, List.get?_eq_getElem?]
      rw [List.getElem?_append_right (by simp [hlen])]
      simp [hlen]
  · rw [hq] at hpre; simp at hpre

/-! ## Claims on the header index -/

theorem GoMap.get?_set {α : Type} (m : GoMap α) (k : String) (v : α) (name : String) :
    GoMap.get? (GoMap.set m k v) name = if k = name then some v else GoMap.get? m name := by
  induction m with
  | nil => simp [GoMap.set, GoMap.get?]
  | cons kv rest ih =>
    obtain ⟨k1, v1⟩ := kv
    by_cases h1 : k1 = k
    · subst h1
      by_cases h2 : k1 = name
      · simp [GoMap.set, GoMap.get?, h2]
      · simp [GoMap.set, GoMap.get?, h2]
    · by_cases h2 : k1 = name
      · subst h2
        have h3 : ¬ k = k1 := fun hc => h1 hc.symm
        simp [GoMap.set, GoMap.get?, h1, h3]
      · simp [GoMap.set, GoMap.get?, h1, h2, ih]

theorem GoMap.keys_set {α : Type} (m : GoMap α) (k : String) (v : α) :
    (GoMap.set m k v).keys = if k ∈ m.keys then m.keys else m.keys ++ [k] := by
  induction m with
  | nil => simp [GoMap.set, GoMap.keys]
  | cons kv rest ih =>
    obtain ⟨k1, v1⟩ := kv
    by_cases h1 : k1 = k
    · subst h1
      simp [GoMap.set, GoMap.keys]
    · have h2 : ¬ k = k1 := fun hc => h1 hc.symm
      simp only [GoMap.keys] at ih
      by_cases h3 : k ∈ List.map Prod.fst rest
      · simp [GoMap.set, GoMap.keys, h1, h2, ih, h3]
      · simp [GoMap.set, GoMap.keys, h1, h2, ih, h3]

theorem GoMap.keys_set_nodup {α : Type} (m : GoMap α) (k : String) (v : α)
    (h : m.keys.Nodup) : (GoMap.set m k v).keys.Nodup := by
  rw [GoMap.keys_set]
  split
  · exact h
  · rename_i hk
    rw [List.nodup_append]
    refine ⟨h, by simp, ?_⟩
    intro a ha hb
    simp only [List.mem_singleton] at hb
    subst hb
    exact hk ha

theorem headerLoop_keys_nodup (h : List String) :
    ∀ (i : Nat) (m : GoMap Nat), m.keys.Nodup → (headerLoop h i m).keys.Nodup := by
  induction h with
  | nil => intro i m hm; exact hm
  | cons name rest ih =>
    intro i m hm
    exact ih (i + 1) _ (GoMap.keys_set_nodup m name i hm)

theorem headerLoop_get (h : List String) :
    ∀ (i : Nat) (m : GoMap Nat) (name : String),
      GoMap.get? (headerLoop h i m) name =
        match lastPos h i name with
        | some k => some k
        | none => GoMap.get? m name := by
  induction h with
  | nil => intro i m name; simp [headerLoop, lastPos]
  | cons a rest ih =>
    intro i m name
    simp only [headerLoop, lastPos]
    rw [ih (i + 1) (GoMap.set m a i) name, GoMap.get?_set]
    rcases lastPos rest (i + 1) name with _ | k
    · by_cases ha : a = name <;> simp [ha]
    · simp

theorem lastPos_none (l : List String) :
    ∀ (i0 : Nat) (name : String), lastPos l i0 name = none →
      ∀ j : Nat, l[j]? ≠ some name := by
  induction l with
  | nil => intro i0 name _ j; simp
  | cons b tl ihl =>
    intro i0 name hn j
    simp only [lastPos] at hn
    rcases hl2 : lastPos tl (i0 + 1) name with _ | k2
    · rw [hl2] at hn
      by_cases hb : b = name
      · simp [hb] at hn
      · cases j with
        | zero => simpa using hb
        | succ j3 => simpa using ihl (i0 + 1) name hl2 j3
    · rw [hl2] at hn
      simp at hn

theorem lastPos_spec (h : List String) :
    ∀ (i : Nat) (name : String) (k : Nat), lastPos h i name = some k →
      ∃ j, k = i + j ∧ h[j]? = some name ∧ ∀ j1, j < j1 → h[j1]? ≠ some name := by
  induction h with
  | nil => intro i name k hk; simp [lastPos] at hk
  | cons a rest ih =>
    intro i name k hk
    simp only [lastPos] at hk
    rcases hl : lastPos rest (i + 1) name with _ | k1
    · rw [hl] at hk
      by_cases ha : a = name
      · simp only [ha, if_true, Option.some.injEq] at hk
        refine ⟨0, by omega, by simp [ha], ?_⟩
        intro j1 hj1 hc
        obtain ⟨j2, rfl⟩ : ∃ j2, j1 = j2 + 1 := ⟨j1 - 1, by omega⟩
        simp only [List.getElem?_cons_succ] at hc
        exact lastPos_none rest (i + 1) name hl j2 hc
      · simp [ha] at hk
    · rw [hl] at hk
      simp only [Option.some.injEq] at hk
      subst hk
      obtain ⟨j, hj1, hj2, hj3⟩ := ih (i + 1) name k1 hl
      refine ⟨j + 1, by omega, by simpa using hj2, ?_⟩
      intro j1 hj1lt
      obtain ⟨j2, rfl⟩ : ∃ j2, j1 = j2 + 1 := ⟨j1 - 1, by omega⟩
      simpa using hj3 j2 (by omega)

theorem indexFrom_keys (h : List String) (i : Nat) : (indexFrom h i).map Prod.fst = h := by
  induction h generalizing i with
  | nil => rfl
  | cons a rest ih => simp [indexFrom, ih]

theorem indexFrom_positions (h : List String) (i : Nat) :
    (indexFrom h i).map Prod.snd = List.range' i h.length := by
  induction h generalizing i with
  | nil => rfl
  | cons a rest ih => simp [indexFrom, ih, List.range'_succ]

/-- C11 (as stated, refuted): for the list `[a, a]` the index that `WithHeader`
establishes is `a ↦ 1`: it has one name, and its only position is 1, not 0. -/
theorem WithHeader_duplicate_names :
    ((NewDecoder []).WithHeader ["a", "a"]).hdr = some [("a", 1)] ∧
    ((NewEncoder emptyWriter).WithHeader ["a", "a"]).hdr = [("a", 1)] := by
  decide

theorem GoMap.get?_not_key {α : Type} (m : GoMap α) (k : String) (h : k ∉ m.keys) :
    GoMap.get? m k = none := by
  induction m with
  | nil => rfl
  | cons kv rest ih =>
    obtain ⟨k1, v1⟩ := kv
    simp only [GoMap.keys, List.map_cons, List.mem_cons, not_or] at h
    have h1 : ¬ k1 = k := fun hc => h.1 hc.symm
    simp only [GoMap.get?, h1, if_false]
    exact ih h.2

theorem lastPos_mem (h : List String) (i : Nat) (name : String) (hm : name ∈ h) :
    ∃ k, lastPos h i name = some k := by
  rcases hl : lastPos h i name with _ | k
  · obtain ⟨j, hj⟩ := List.getElem?_of_mem hm
    exact absurd hj (lastPos_none h i name hl j)
  · exact ⟨k, rfl⟩

theorem GoMap.get?_key {α : Type} (m : GoMap α) (k : String) (h : k ∈ m.keys) :
    ∃ v, GoMap.get? m k = some v := by
  induction m with
  | nil => simp [GoMap.keys] at h
  | cons kv rest ih =>
    obtain ⟨k1, v1⟩ := kv
    by_cases h1 : k1 = k
    · exact ⟨v1, by simp [GoMap.get?, h1]⟩
    · simp only [GoMap.keys, List.map_cons, List.mem_cons] at h
      rcases h with h | h
      · exact absurd h.symm h1
      · obtain ⟨v, hv⟩ := ih h
        exact ⟨v, by simp [GoMap.get?, h1, hv]⟩

/-- C11 (amended): for every list of names `h`, `Decoder.WithHeader` and
`Encoder.WithHeader` establish the same index, whatever index was there before (the index
is replaced as a whole); its names are unique and are exactly the names that occur in `h`,
and the position of a name is `k` exactly when `k` is the position of the last occurrence
of the name in `h`. When `h` is duplicate-free, the names of the index are those of `h`, in
order, and its positions are exactly `0..n-1`, `n` being the number of names. -/
theorem WithHeader_index (dec : Decoder) (enc : Encoder) (h : List String) :
    (dec.WithHeader h).hdr = some (enc.WithHeader h).hdr ∧
    (∀ dec1 : Decoder, (dec1.WithHeader h).hdr = (dec.WithHeader h).hdr) ∧
    (∀ enc1 : Encoder, (enc1.WithHeader h).hdr = (enc.WithHeader h).hdr) ∧
    (enc.WithHeader h).hdr.keys.Nodup ∧
    (∀ name, name ∈ (enc.WithHeader h).hdr.keys ↔ name ∈ h) ∧
    (∀ name, name ∈ h → ∃ k, GoMap.get? (enc.WithHeader h).hdr name = some k) ∧
    (∀ name k, GoMap.get? (enc.WithHeader h).hdr name = some k ↔
      (h[k]? = some name ∧ ∀ j, k < j → h[j]? ≠ some name)) ∧
    (h.Nodup → (enc.WithHeader h).hdr.keys = h ∧
      (enc.WithHeader h).hdr.map Prod.snd = List.range (enc.WithHeader h).hdr.length) := by
  have hget : ∀ name, GoMap.get? (enc.WithHeader h).hdr name = lastPos h 0 name := by
    intro name
    have hg := headerLoop_get h 0 [] name
    have hE : (enc.WithHeader h).hdr = headerLoop h 0 [] := rfl
    rw [hE, hg]
    rcases lastPos h 0 name with _ | k <;> rfl
  have hlast : ∀ name k, GoMap.get? (enc.WithHeader h).hdr name = some k →
      h[k]? = some name ∧ ∀ j, k < j → h[j]? ≠ some name := by
    intro name k hk
    rw [hget name] at hk
    obtain ⟨j, hj1, hj2, hj3⟩ := lastPos_spec h 0 name k hk
    have : k = j := by omega
    subst this
    exact ⟨hj2, hj3⟩
  have hmem : ∀ name, name ∈ h → ∃ k, GoMap.get? (enc.WithHeader h).hdr name = some k := by
    intro name hm
    rw [hget name]
    exact lastPos_mem h 0 name hm
  refine ⟨rfl, fun _ => rfl, fun _ => rfl, ?_, ?_, hmem, ?_, ?_⟩
  · exact headerLoop_keys_nodup h 0 [] (by simp [GoMap.keys])
  · intro name
    constructor
    · intro hk
      obtain ⟨k, hk1⟩ := GoMap.get?_key _ name hk
      exact List.getElem?_mem (hlast name k hk1).1
    · intro hm
      by_contra hnk
      obtain ⟨k, hk1⟩ := hmem name hm
      rw [GoMap.get?_not_key _ name hnk] at hk1
      simp at hk1
  · intro name k
    constructor
    · exact hlast name k
    · rintro ⟨hk1, hk2⟩
      obtain ⟨k1, hk3⟩ := hmem name (List.getElem?_mem hk1)
      obtain ⟨h1, h2⟩ := hlast name k1 hk3
      have hkk : k1 = k := by
        rcases Nat.lt_trichotomy k1 k with hlt | heq | hgt
        · exact absurd hk1 (h2 k hlt)
        · exact heq
        · exact absurd h1 (hk2 k1 hgt)
      rw [hk3, hkk]
  · intro hn
    have hidx : (enc.WithHeader h).hdr = indexFrom h 0 := by
      have := headerLoop_nodup h hn 0 [] (by simp)
      simpa using this
    rw [hidx]
    refine ⟨indexFrom_keys h 0, ?_⟩
    rw [indexFrom_positions, indexFrom_length, List.range_eq_range']

theorem WithHeader_index_witness :
    ((NewEncoder emptyWriter).WithHeader ["str", "n"]).hdr.keys = ["str", "n"] ∧
    ((NewEncoder emptyWriter).WithHeader ["str", "n"]).hdr.map Prod.snd =
      List.range ((NewEncoder emptyWriter).WithHeader ["str", "n"]).hdr.length :=
  (WithHeader_index (NewDecoder []) (NewEncoder emptyWriter) ["str", "n"]).2.2.2.2.2.2.2
    (by decide)

/-- Filling a slice from an index whose positions are distinct and in range puts every
name at its position and leaves the other positions as they were. -/
theorem headerFill_spec :
    ∀ (m : GoMap Nat) (out : List String), (∀ kv ∈ m, kv.2 < out.length) →
      (m.map Prod.snd).Nodup →
      ∃ out1, headerFill m out = some out1 ∧ out1.length = out.length ∧
        (∀ kv ∈ m, out1[kv.2]? = some kv.1) ∧
        (∀ p : Nat, p ∉ m.map Prod.snd → out1[p]? = out[p]?) := by
  intro m
  induction m with
  | nil => intro out _ _; exact ⟨out, rfl, rfl, by simp, fun _ _ => rfl⟩
  | cons kv rest ih =>
    obtain ⟨k, i⟩ := kv
    intro out hlt hnd
    have hi : i < out.length := hlt (k, i) (by simp)
    simp only [List.map_cons, List.nodup_cons] at hnd
    obtain ⟨out1, h1, h2, h3, h4⟩ := ih (out.set i k)
      (fun kv hkv => by simpa using hlt kv (List.mem_cons_of_mem _ hkv)) hnd.2
    refine ⟨out1, by simp [headerFill, hi, h1], by simpa using h2, ?_, ?_⟩
    · intro kv hkv
      rcases List.mem_cons.mp hkv with rfl | hkv
      · rw [h4 i hnd.1]
        simp [hi]
      · exact h3 kv hkv
    · intro p hp
      simp only [List.map_cons, List.mem_cons, not_or] at hp
      rw [h4 p hp.2]
      simp [List.getElem?_set, Ne.symm hp.1]

theorem mem_indexFrom (h : List String) (i p : Nat) (k : String) (hk : h[p]? = some k) :
    (k, i + p) ∈ indexFrom h i := by
  induction h generalizing i p with
  | nil => simp at hk
  | cons a rest ih =>
    cases p with
    | zero =>
      simp only [List.getElem?_cons_zero, Option.some.injEq] at hk
      simp [indexFrom, hk]
    | succ p1 =>
      simp only [List.getElem?_cons_succ] at hk
      have := ih (i + 1) p1 hk
      simp only [indexFrom, List.mem_cons]
      right
      have he : i + (p1 + 1) = i + 1 + p1 := by omega
      rw [he]
      exact this

/-- Whatever the order in which the entries of the index of a duplicate-free list of names
are visited, the loop of `Header` rebuilds the list. -/
theorem headerFill_perm (h : List String) (hn : h.Nodup) (m : GoMap Nat)
    (hp : m.Perm (headerLoop h 0 [])) :
    headerFill m (List.replicate m.length "") = some h := by
  have hidx : headerLoop h 0 [] = indexFrom h 0 := by
    have := headerLoop_nodup h hn 0 [] (by simp)
    simpa using this
  rw [hidx] at hp
  have hlen : m.length = h.length := by rw [hp.length_eq, indexFrom_length]
  have hpos : (m.map Prod.snd).Perm (List.range' 0 h.length) := by
    rw [← indexFrom_positions]
    exact hp.map _
  have hnd : (m.map Prod.snd).Nodup := hpos.nodup_iff.mpr (List.nodup_range' 0 h.length)
  have hlt : ∀ kv ∈ m, kv.2 < (List.replicate m.length "").length := by
    intro kv hkv
    have hmem : kv.2 ∈ m.map Prod.snd := List.mem_map_of_mem _ hkv
    have := (hpos.mem_iff).mp hmem
    simp only [List.mem_range'_1, zero_add] at this
    simp only [List.length_replicate]
    omega
  obtain ⟨out1, h1, h2, h3, _⟩ := headerFill_spec m (List.replicate m.length "") hlt hnd
  rw [h1]
  congr 1
  apply List.ext_getElem?
  intro p
  by_cases hpl : p < h.length
  · have hk : h[p]? = some h[p] := List.getElem?_eq_getElem hpl
    have hmem : (h[p], p) ∈ m := by
      have := mem_indexFrom h 0 p h[p] hk
      rw [zero_add] at this
      exact (hp.mem_iff).mpr this
    rw [h3 _ hmem, hk]
  · have h5 : out1.length ≤ p := by
      rw [h2, List.length_replicate]
      omega
    rw [List.getElem?_eq_none h5, List.getElem?_eq_none (by omega)]

/-- C12: for every duplicate-free list of names `h`, `Header()` called after
`WithHeader(h)`, or after a `ReadHeader` that has read the row `h`, returns exactly `h`;
and it does so whatever the order in which the entries of the index are visited (the
iteration order of a Go map is unspecified). -/
theorem Header_inverse (dec dec2 : Decoder) (h : List String) (r1 : Reader) (hn : h.Nodup)
    (hr : dec2.r.Read = (Except.ok h, r1)) :
    (dec.WithHeader h).Header = Except.ok h ∧
    dec2.ReadHeader.2 = none ∧
    dec2.ReadHeader.1.Header = Except.ok h ∧
    (∀ m : GoMap Nat, m.Perm (headerLoop h 0 []) →
      headerFill m (List.replicate m.length "") = some h) := by
  have hfill := headerFill_perm h hn (headerLoop h 0 []) (List.Perm.refl _)
  have hH : ∀ d : Decoder, (d.WithHeader h).Header = Except.ok h := by
    intro d
    simp only [Decoder.Header, Decoder.WithHeader, Option.getD_some, hfill]
  refine ⟨hH dec, ?_, ?_, fun m hm => headerFill_perm h hn m hm⟩
  · simp [Decoder.ReadHeader, hr]
  · have : dec2.ReadHeader.1 = Decoder.WithHeader { dec2 with r := r1 } h := by
      simp [Decoder.ReadHeader, hr]
    rw [this]
    exact hH _

theorem Header_inverse_witness :
    (Decoder.ReadHeader (NewDecoder [Except.ok ["str", "n"],
        Except.ok ["this is a string", "12345"]])).1.Header = Except.ok ["str", "n"] :=
  (Header_inverse (NewDecoder []) (NewDecoder [Except.ok ["str", "n"],
    Except.ok ["this is a string", "12345"]]) ["str", "n"]
    [Except.ok ["this is a string", "12345"]] (by decide) rfl).2.2.1

/-! ## Claims on nil pointers, maps and whole-record hooks -/

theorem encodeValue_nil (lib : Lib) (nv : String) (f : Field) (elem : Ty)
    (hty : f.ty = Ty.ptr elem) : encodeValue lib nv f Value.nil = Except.ok nv := by
  unfold encodeValue
  rw [hty]
  simp

/-- C13: for a pointer-typed tagged field that holds nil, the string that `Encode`
computes for `line[index]` is the configured nil value (the empty string after
`NewEncoder`, the string given to `WithNilValue` after it), whatever per-value marshalers
the field has and whatever the kind of its element: the nil test comes first. The loop pass
stores it at the position of the field's column, and under an explicit duplicate-free
header, with every field renderable and no later field of the same column, the row handed
to the sink has the nil value at that column. -/
theorem Encode_nil_pointer (lib : Lib) (enc : Encoder) (h : List String) (pre post : Record)
    (f : Field) (elem : Ty) (hty : f.ty = Ty.ptr elem) (hx : f.column ≠ "" ∧ f.column ≠ "-")
    (hn : h.Nodup) (hne : h ≠ [])
    (hall : ∀ fv ∈ pre ++ (f, Value.nil) :: post, fv.1.column ≠ "" ∧ fv.1.column ≠ "-" →
      fv.1.column ∈ h ∧ ∃ s, encodeValue lib enc.nilVal fv.1 fv.2 = Except.ok s)
    (hpost : ∀ fv ∈ post, fv.1.column ≠ f.column) :
    (∀ (nv : String) (m1 m2 : Option (Value → String)),
      encodeValue lib nv { f with addrMarshaller := m1, valueMarshaller := m2 } Value.nil =
        Except.ok nv) ∧
    (∀ (hdr : GoMap Nat) (nv : String) (al : Bool) (line : List String) (index : Nat),
      hdr.get? f.column = some index → index < line.length →
      encodeField lib hdr nv al f Value.nil line = (line.set index nv, none)) ∧
    (∀ w, (NewEncoder w).nilVal = "") ∧
    (∀ s, (enc.WithNilValue s).nilVal = s) ∧
    ((enc.WithHeader h).Encode lib (structPtr (pre ++ (f, Value.nil) :: post))).1.w.rows =
      enc.w.rows ++
        [h.map (columnEntry lib enc.nilVal (pre ++ (f, Value.nil) :: post))] ∧
    columnEntry lib enc.nilVal (pre ++ (f, Value.nil) :: post) f.column = enc.nilVal := by
  refine ⟨?_, ?_, fun _ => rfl, fun _ => rfl, ?_, ?_⟩
  · intro nv m1 m2
    exact encodeValue_nil lib nv _ elem hty
  · intro hdr nv al line index hcol hlt
    exact encodeField_put lib hdr nv al f Value.nil line index nv hx hcol hlt
      (encodeValue_nil lib nv f elem hty)
  · rw [Encode_header_row lib enc h _ hn hne hall]
    exact Write_rows _ _
  · exact columnEntry_last lib enc.nilVal pre post f Value.nil enc.nilVal hx hpost
      (encodeValue_nil lib enc.nilVal f elem hty)

theorem Encode_nil_pointer_witness :
    (Encoder.Encode noFloatLib
        (((NewEncoder emptyWriter).WithNilValue " --").WithHeader ["str", "n"])
        (structPtr (simpleTestPointer Value.nil 12345))).1.w.rows =
      emptyWriter.rows ++ [["str", "n"].map
        (columnEntry noFloatLib " --" (simpleTestPointer Value.nil 12345))] ∧
    columnEntry noFloatLib " --" (simpleTestPointer Value.nil 12345) "str" = " --" :=
  (Encode_nil_pointer noFloatLib ((NewEncoder emptyWriter).WithNilValue " --") ["str", "n"] []
    [({ name := "IntVal", ty := Ty.int, tag := [("csv", "n")] }, Value.int 12345)]
    { name := "StringVal", ty := Ty.ptr Ty.string, tag := [("csv", "str,omitempty")] }
    Ty.string rfl (by decide) (by decide) (by decide)
    (by
      intro fv hfv _
      simp only [List.nil_append, List.mem_cons, List.mem_singleton, List.not_mem_nil,
        or_false] at hfv
      rcases hfv with rfl | rfl
      · exact ⟨by decide, " --", rfl⟩
      · exact ⟨by decide, "12345", rfl⟩)
    (by
      intro fv hfv
      simp only [List.mem_singleton] at hfv
      subst hfv
      decide)).2.2.2.2

/-- The loop of `encodeMap` over an index whose positions are distinct and in range puts
the map's value for every name at the name's position and leaves the other positions as
they were. -/
theorem encodeMapLoop_spec (m : GoMap String) :
    ∀ (hdr : GoMap Nat) (buf : List String), (∀ kv ∈ hdr, kv.2 < buf.length) →
      (hdr.map Prod.snd).Nodup →
      ∃ out, encodeMapLoop m hdr buf = (out, none) ∧ out.length = buf.length ∧
        (∀ kv ∈ hdr, out[kv.2]? = some ((m.get? kv.1).getD "")) ∧
        (∀ p : Nat, p ∉ hdr.map Prod.snd → out[p]? = buf[p]?) := by
  intro hdr
  induction hdr with
  | nil => intro buf _ _; exact ⟨buf, rfl, rfl, by simp, fun _ _ => rfl⟩
  | cons kv rest ih =>
    obtain ⟨k, i⟩ := kv
    intro buf hlt hnd
    have hi : i < buf.length := hlt (k, i) (by simp)
    simp only [List.map_cons, List.nodup_cons] at hnd
    obtain ⟨out, h1, h2, h3, h4⟩ := ih (buf.set i ((m.get? k).getD ""))
      (fun kv hkv => by simpa using hlt kv (List.mem_cons_of_mem _ hkv)) hnd.2
    refine ⟨out, by simp [encodeMapLoop, hi, h1], by simpa using h2, ?_, ?_⟩
    · intro kv hkv
      rcases List.mem_cons.mp hkv with rfl | hkv
      · rw [h4 i hnd.1]
        simp [hi]
      · exact h3 kv hkv
    · intro p hp
      simp only [List.map_cons, List.mem_cons, not_or] at hp
      rw [h4 p hp.2]
      simp [List.getElem?_set, Ne.symm hp.1]

/-- Whatever the order in which the entries of the index of a duplicate-free list of names
are visited, the loop of `encodeMap` builds the row of the map's values in header order. -/
theorem encodeMapLoop_perm (m : GoMap String) (h : List String) (hn : h.Nodup)
    (idx : GoMap Nat) (hp : idx.Perm (headerLoop h 0 [])) :
    encodeMapLoop m idx (List.replicate idx.length "") =
      (h.map (fun name => (m.get? name).getD ""), none) := by
  have hidx : headerLoop h 0 [] = indexFrom h 0 := by
    have := headerLoop_nodup h hn 0 [] (by simp)
    simpa using this
  rw [hidx] at hp
  have hlen : idx.length = h.length := by rw [hp.length_eq, indexFrom_length]
  have hpos : (idx.map Prod.snd).Perm (List.range' 0 h.length) := by
    rw [← indexFrom_positions]
    exact hp.map _
  have hnd : (idx.map Prod.snd).Nodup := hpos.nodup_iff.mpr (List.nodup_range' 0 h.length)
  have hlt : ∀ kv ∈ idx, kv.2 < (List.replicate idx.length "").length := by
    intro kv hkv
    have hmem : kv.2 ∈ idx.map Prod.snd := List.mem_map_of_mem _ hkv
    have := (hpos.mem_iff).mp hmem
    simp only [List.mem_range'_1, zero_add] at this
    simp only [List.length_replicate]
    omega
  obtain ⟨out, h1, h2, h3, _⟩ := encodeMapLoop_spec m idx (List.replicate idx.length "") hlt hnd
  rw [h1]
  congr 1
  apply List.ext_getElem?
  intro p
  by_cases hpl : p < h.length
  · have hk : h[p]? = some h[p] := List.getElem?_eq_getElem hpl
    have hmem : (h[p], p) ∈ idx := by
      have := mem_indexFrom h 0 p h[p] hk
      rw [zero_add] at this
      exact (hp.mem_iff).mpr this
    rw [h3 _ hmem, List.getElem?_map, hk]
    rfl
  · have h5 : out.length ≤ p := by
      rw [h2, List.length_replicate]
      omega
    rw [List.getElem?_eq_none h5, List.getElem?_eq_none (by simp; omega)]

/-- C14 (as stated, refuted): after `WithHeader(["a","a"])` a header is established (the
index `a ↦ 1`), yet encoding the map `{a: x}` writes no row: the row has one entry and the
write of `line[1]` panics. -/
theorem Encode_map_duplicate_header :
    (Encoder.Encode noFloatLib ((NewEncoder emptyWriter).WithHeader ["a", "a"])
        { shape := Shape.map [("a", "x")] }).2 = some (Err.panicked "index out of range") ∧
    (Encoder.Encode noFloatLib ((NewEncoder emptyWriter).WithHeader ["a", "a"])
        { shape := Shape.map [("a", "x")] }).1.w.rows = [] := by
  decide

/-- C14 (amended): encoding a string map, passed by value or by pointer: on an encoder
without header (`enc0`) `Encode` returns `ErrMissingHeader` and the sink is handed nothing;
after `WithHeader(h)` with a duplicate-free, non-empty `h` it hands the sink exactly one
row and returns the sink's result; the row has one entry per name of `h`, in header order,
each the map's value for that name, the empty string for a name that is not a key of the
map; and this is so whatever the order in which the entries of the index are visited. -/
theorem Encode_map (lib : Lib) (enc0 enc : Encoder) (h : List String) (m : GoMap String)
    (h0 : enc0.hdr = []) (hn : h.Nodup) (hne : h ≠ []) :
    enc0.Encode lib { shape := Shape.map m } = (enc0, some Err.ErrMissingHeader) ∧
    enc0.Encode lib { shape := Shape.mapPtr m } = (enc0, some Err.ErrMissingHeader) ∧
    ((enc.WithHeader h).Encode lib { shape := Shape.map m }).1.w.rows =
      enc.w.rows ++ [h.map (fun name => (m.get? name).getD "")] ∧
    ((enc.WithHeader h).Encode lib { shape := Shape.map m }).2 =
      (enc.w.Write (h.map (fun name => (m.get? name).getD ""))).2 ∧
    (enc.WithHeader h).Encode lib { shape := Shape.mapPtr m } =
      (enc.WithHeader h).Encode lib { shape := Shape.map m } ∧
    (∀ idx : GoMap Nat, idx.Perm (enc.WithHeader h).hdr →
      encodeMapLoop m idx (List.replicate idx.length "") =
        (h.map (fun name => (m.get? name).getD ""), none)) := by
  have hloop := encodeMapLoop_perm m h hn (headerLoop h 0 []) (List.Perm.refl _)
  have hlen : (headerLoop h 0 []).length = h.length := (header_nodup h hn).1
  have hlen0 : ¬ (headerLoop h 0 []).length = 0 := by
    rw [hlen]
    intro hc
    exact hne (List.length_eq_zero.mp hc)
  have hE : (enc.WithHeader h).Encode lib { shape := Shape.map m } =
      ({ enc.WithHeader h with
          w := (enc.w.Write (h.map (fun name => (m.get? name).getD ""))).1 },
        (enc.w.Write (h.map (fun name => (m.get? name).getD ""))).2) := by
    simp only [Encoder.Encode, Encoder.encodeMap, Encoder.WithHeader, hlen0, if_false, hloop]
  refine ⟨by simp [Encoder.Encode, Encoder.encodeMap, h0],
    by simp [Encoder.Encode, Encoder.encodeMap, h0], ?_, ?_, rfl,
    fun idx hidx => encodeMapLoop_perm m h hn idx hidx⟩
  · rw [hE]
    exact Write_rows _ _
  · rw [hE]

theorem Encode_map_witness :
    (Encoder.Encode noFloatLib ((NewEncoder emptyWriter).WithHeader ["str", "n", "x"])
        { shape := Shape.map [("str", "I am a string!"), ("n", "12345")] }).1.w.rows =
      emptyWriter.rows ++ [["str", "n", "x"].map (fun name =>
        (GoMap.get? [("str", "I am a string!"), ("n", "12345")] name).getD "")] :=
  (Encode_map noFloatLib (NewEncoder emptyWriter) (NewEncoder emptyWriter) ["str", "n", "x"]
    [("str", "I am a string!"), ("n", "12345")] rfl (by decide) (by decide)).2.2.1

/-- The map that `decodeMap` leaves: every header name is set to the row value at its
position, every other key keeps its entry. -/
theorem decodeMap_spec (row : List String) :
    ∀ (hdr : GoMap Nat) (u : GoMap String), hdr.keys.Nodup →
      (∀ kv ∈ hdr, kv.2 < row.length) →
      (decodeMap row hdr u).2 = none ∧
        ∀ name, GoMap.get? (decodeMap row hdr u).1 name =
          match GoMap.get? hdr name with
          | some i => row.get? i
          | none => GoMap.get? u name := by
  intro hdr
  induction hdr with
  | nil => intro u _ _; simp [decodeMap, GoMap.get?]
  | cons kv rest ih =>
    obtain ⟨k, i⟩ := kv
    intro u hnd hlt
    have hi : i < row.length := hlt (k, i) (by simp)
    simp only [GoMap.keys, List.map_cons, List.nodup_cons] at hnd
    have hcell : row.get? i = some row[i] := by
      rw [List.get?_eq_getElem?]
      exact List.getElem?_eq_getElem hi
    obtain ⟨h1, h2⟩ := ih (u.set k row[i]) hnd.2
      (fun kv hkv => hlt kv (List.mem_cons_of_mem _ hkv))
    simp only [decodeMap, hcell]
    refine ⟨h1, ?_⟩
    intro name
    rw [h2 name, GoMap.get?_set]
    by_cases hk : k = name
    · subst hk
      rw [GoMap.get?_not_key rest k hnd.1]
      simp [GoMap.get?, hcell]
    · simp [GoMap.get?, hk]

theorem decodeMapNil_in_bounds (row : List String) (hdr : GoMap Nat)
    (hlong : ∀ kv ∈ hdr, kv.2 < row.length) :
    decodeMapNil row hdr =
      if hdr = [] then none else some (Err.panicked "assignment to entry in nil map") := by
  cases hdr with
  | nil => rfl
  | cons kv rest =>
    obtain ⟨k, i⟩ := kv
    have hi : i < row.length := hlong (k, i) (by simp)
    have hcell : row.get? i = some row[i] := by
      rw [List.get?_eq_getElem?]
      exact List.getElem?_eq_getElem hi
    simp only [decodeMapNil, hcell]
    simp

/-- C15 (as stated, refuted): a nil `map[string]string` is a string map; with header
`[str, n]` and the row `["string val", "1234"]`, long enough for it, `Decode` into the nil
map, by value or behind a pointer, does not return without error: the first assignment
`u[k] = line[v]` panics. -/
theorem Decode_nil_map :
    (Decoder.Decode noFloatLib
        ((NewDecoder [Except.ok ["string val", "1234"]]).WithHeader ["str", "n"])
        { shape := Shape.nilMap }).2.2 =
      some (Err.panicked "assignment to entry in nil map") ∧
    (Decoder.Decode noFloatLib
        ((NewDecoder [Except.ok ["string val", "1234"]]).WithHeader ["str", "n"])
        { shape := Shape.nilMapPtr }).2.2 =
      some (Err.panicked "assignment to entry in nil map") := by
  decide

/-- C15 (amended): decoding into a string map that is not nil, passed by value or by
pointer, under an established header index and with a row long enough for it: `Decode`
returns no error, and in the map it leaves every header name is set to the row value at the
name's position, every other key keeps its entry. A `MapUnmarshaler` target is handed
exactly the map that this produces from an empty map, and `Decode` returns what
`UnmarshalCSVMap` returns. Into a nil map `Decode` returns no error only under an empty
header; otherwise it panics on the assignment to the nil map. -/
theorem Decode_map (lib : Lib) (dec : Decoder) (hdr : GoMap Nat) (line : List String)
    (r1 : Reader) (m : GoMap String) (v : Target)
    (u : Shape → GoMap String → Shape × Option Err)
    (hh : dec.hdr = some hdr) (hk : hdr.keys.Nodup)
    (hr : dec.r.Read = (Except.ok line, r1)) (hlong : ∀ kv ∈ hdr, kv.2 < line.length)
    (hv1 : v.UnmarshalCSV = none) (hv2 : v.UnmarshalCSVMap = some u) :
    dec.Decode lib { shape := Shape.map m } =
      ({ dec with r := r1 }, { shape := Shape.map (decodeMap line hdr m).1 }, none) ∧
    dec.Decode lib { shape := Shape.mapPtr m } =
      ({ dec with r := r1 }, { shape := Shape.mapPtr (decodeMap line hdr m).1 }, none) ∧
    (∀ name, GoMap.get? (decodeMap line hdr m).1 name =
      match GoMap.get? hdr name with
      | some i => line.get? i
      | none => GoMap.get? m name) ∧
    dec.Decode lib v =
      ({ dec with r := r1 }, { v with shape := (u v.shape (decodeMap line hdr []).1).1 },
        (u v.shape (decodeMap line hdr []).1).2) ∧
    (∀ name, GoMap.get? (decodeMap line hdr []).1 name =
      match GoMap.get? hdr name with
      | some i => line.get? i
      | none => none) ∧
    (dec.Decode lib { shape := Shape.nilMap }).2.2 =
      (if hdr = [] then none else some (Err.panicked "assignment to entry in nil map")) ∧
    (dec.Decode lib { shape := Shape.nilMapPtr }).2.2 =
      (if hdr = [] then none else some (Err.panicked "assignment to entry in nil map")) := by
  obtain ⟨h1, h2⟩ := decodeMap_spec line hdr m hk hlong
  obtain ⟨h3, h4⟩ := decodeMap_spec line hdr [] hk hlong
  have hnil := decodeMapNil_in_bounds line hdr hlong
  refine ⟨?_, ?_, h2, ?_, ?_, ?_, ?_⟩
  · simp only [Decoder.Decode, hh, hr]
    rw [h1]
  · simp only [Decoder.Decode, hh, hr]
    rw [h1]
  · simp only [Decoder.Decode, hh, hr, hv1, hv2]
    rcases hd : decodeMap line hdr [] with ⟨m0, _ | e⟩
    · rfl
    · rw [hd] at h3
      simp at h3
  · intro name
    rw [h4 name]
    rfl
  · simp only [Decoder.Decode, hh, hr]
    exact hnil
  · simp only [Decoder.Decode, hh, hr]
    exact hnil

theorem Decode_map_witness :
    (Decoder.Decode noFloatLib
        ((NewDecoder [Except.ok ["string val", "1234"]]).WithHeader ["str", "n"])
        { shape := Shape.map [("other", "kept")] }).2.2 = none :=
  by
    have h := (Decode_map noFloatLib
      ((NewDecoder [Except.ok ["string val", "1234"]]).WithHeader ["str", "n"])
      [("str", 0), ("n", 1)] ["string val", "1234"] [] [("other", "kept")]
      { shape := Shape.nonPointer, UnmarshalCSVMap := some (fun s _ => (s, none)) }
      (fun s _ => (s, none)) rfl (by decide) rfl (by decide) rfl rfl).1
    rw [h]

/-- C16: when a header is established and a row is read, a `Decode` target that
implements `Unmarshaler` is handed the entire row just read, unchanged, and `Decode`
returns what `UnmarshalCSV` returns, whatever the shape of the target and whether or not it
also implements `MapUnmarshaler`: the header plays no part. When the argument of `Encode`
implements `Marshaler`, `Encode` hands the sink exactly the row that `MarshalCSV` returns
and returns the sink's result, or returns the error of `MarshalCSV` with the sink handed
nothing; the header of the encoder plays no part. -/
theorem whole_record_hooks (lib : Lib) (dec : Decoder) (enc : Encoder) (hdr : GoMap Nat)
    (line : List String) (r1 : Reader) (vd ve : Target)
    (u : Shape → List String → Shape × Option Err) (m : Shape → List String × Option Err)
    (hh : dec.hdr = some hdr) (hr : dec.r.Read = (Except.ok line, r1))
    (hu : vd.UnmarshalCSV = some u) (hm : ve.MarshalCSV = some m) :
    dec.Decode lib vd =
      ({ dec with r := r1 }, { vd with shape := (u vd.shape line).1 }, (u vd.shape line).2) ∧
    ((m ve.shape).2 = none →
      enc.Encode lib ve =
        ({ enc with w := (enc.w.Write (m ve.shape).1).1 }, (enc.w.Write (m ve.shape).1).2) ∧
      (enc.Encode lib ve).1.w.rows = enc.w.rows ++ [(m ve.shape).1]) ∧
    (∀ e, (m ve.shape).2 = some e → enc.Encode lib ve = (enc, some e)) := by
  refine ⟨by simp [Decoder.Decode, hh, hr, hu], ?_, ?_⟩
  · intro hnone
    have hE : enc.Encode lib ve =
        ({ enc with w := (enc.w.Write (m ve.shape).1).1 },
          (enc.w.Write (m ve.shape).1).2) := by
      simp only [Encoder.Encode, hm]
      rcases hmv : m ve.shape with ⟨row, _ | e⟩
      · rfl
      · rw [hmv] at hnone
        simp at hnone
    refine ⟨hE, ?_⟩
    rw [hE]
    exact Write_rows _ _
  · intro e he
    simp only [Encoder.Encode, hm]
    rcases hmv : m ve.shape with ⟨row, _ | e1⟩
    · rw [hmv] at he
      simp at he
    · rw [hmv] at he
      simp only [Option.some.injEq] at he
      subst he
      rfl

theorem whole_record_hooks_witness :
    (Decoder.Decode noFloatLib
        ((NewDecoder [Except.ok ["string val", "1234"]]).WithHeader ["str", "n"])
        { shape := Shape.structPtr (simpleTest "" 0),
          UnmarshalCSV := some (fun s row => (s, if row.length = 2 then none
            else some (Err.other "row"))),
          UnmarshalCSVMap := some (fun s _ => (s, some (Err.other "map"))) }).2.2 = none :=
  by
    have h := (whole_record_hooks noFloatLib
      ((NewDecoder [Except.ok ["string val", "1234"]]).WithHeader ["str", "n"])
      (NewEncoder emptyWriter) [("str", 0), ("n", 1)] ["string val", "1234"] []
      { shape := Shape.structPtr (simpleTest "" 0),
        UnmarshalCSV := some (fun s row => (s, if row.length = 2 then none
          else some (Err.other "row"))),
        UnmarshalCSVMap := some (fun s _ => (s, some (Err.other "map"))) }
      { shape := Shape.structPtr (simpleTest "" 0),
        MarshalCSV := some (fun _ => (["x"], none)) }
      _ (fun _ => (["x"], none)) rfl rfl rfl rfl).1
    rw [h]
    rfl

/-! ## Claims on per-field hooks, excluded fields and the base tag -/

theorem decodeValue_eq (lib : Lib) (f : Field) (v : Value) (cell : String) :
    decodeValue lib f v cell =
      match f.valueUnmarshaler with
      | some u =>
        if (match f.kind with | Ty.ptr _ => false | _ => true) then
          (f.wrap (f.slot v), some Err.ErrNonPointerReceiver)
        else (f.wrap (u (f.slot v) cell).1, (u (f.slot v) cell).2)
      | none =>
        match f.addrUnmarshaler with
        | some u => (f.wrap (u (f.slot v) cell).1, (u (f.slot v) cell).2)
        | none =>
          match decodeKind lib f.tag f.kind cell with
          | Except.error e => (f.wrap (f.slot v), some e)
          | Except.ok x => (f.wrap x, none) := by
  unfold decodeValue Field.kind Field.slot Field.wrap
  cases hty : f.ty <;> simp

theorem columnEntry_other (lib : Lib) (nv : String) (pre post : Record) (f : Field) (v : Value)
    (name : String) (hne : name ≠ f.column) :
    columnEntry lib nv (pre ++ (f, v) :: post) name = columnEntry lib nv (pre ++ post) name := by
  unfold columnEntry
  rw [columnEntryFrom_append, columnEntryFrom_append]
  have hc : ¬ (f.column = name ∧ f.column ≠ "" ∧ f.column ≠ "-") := fun hc => hne hc.1.symm
  simp only [columnEntryFrom, hc, if_false]

/-- C17 (as stated, refuted): in the struct `valueMarshalerPointerTest` of the tests the
field `Test` is tagged and its value implements `MarshalCSVValue`; when the field is nil,
the row entry at its column is the nil value `""`, not a string returned by the hook. And
for a tagged string-kind field `Test` whose type implements `UnmarshalCSVValue` with a
value receiver (so the value and its addressable slot both implement the hook), `Decode`
with header `[str, prefixed]` and row `["string val", "other"]` returns
`ErrNonPointerReceiver` and leaves the field as it was: the row string is not passed to
the hook. -/
theorem Encode_hook_nil_pointer :
    (Encoder.Encode noFloatLib (NewEncoder emptyWriter)
        (structPtr (valueMarshalerPointerTest "this is a string value" Value.nil))).1.w.rows =
      [["this is a string value", ""]] ∧
    (Decoder.Decode noFloatLib
        ((NewDecoder [Except.ok ["string val", "other"]]).WithHeader ["str", "prefixed"])
        (structPtr [({ name := "StringVal", ty := Ty.string, tag := [("csv", "str")] },
            Value.str ""),
          ({ name := "Test", ty := Ty.string, tag := [("csv", "prefixed")],
             valueUnmarshaler := some unmarshalPrefixed,
             addrUnmarshaler := some unmarshalPrefixed }, Value.str "")])).2.2 =
      some Err.ErrNonPointerReceiver ∧
    (Decoder.Decode noFloatLib
        ((NewDecoder [Except.ok ["string val", "other"]]).WithHeader ["str", "prefixed"])
        (structPtr [({ name := "StringVal", ty := Ty.string, tag := [("csv", "str")] },
            Value.str ""),
          ({ name := "Test", ty := Ty.string, tag := [("csv", "prefixed")],
             valueUnmarshaler := some unmarshalPrefixed,
             addrUnmarshaler := some unmarshalPrefixed }, Value.str "")])).2.1.values =
      [Value.str "string val", Value.str ""] := by
  decide

/-- C17 (amended): let `f` be a tagged field. Encode: when the field is not a nil pointer
and its addressable slot, or else its value, implements `MarshalCSVValue`, the string
computed for the column is exactly what the hook returns; under an explicit duplicate-free
header, with every field renderable and no later field of the same column, that string is
the row entry at the field's column; and whatever `f` is, the entries of the other columns
are those of the record without the field. Decode: when the value itself does not implement
`UnmarshalCSVValue` but its addressable slot does, a pass that reaches the field (column in
the header, not skipped by the nil-value rule) hands the raw row string to the hook, on the
field's own value for a plain field and on a fresh zero value for a pointer field, and
applies no built-in conversion; the field then holds what the hook left. When `Decode`
returns no error every field holds what its own loop pass computed. The Encode statements
ask nothing of the unmarshalling side and the Decode statements nothing of the marshalling
side. -/
theorem per_field_hooks (lib : Lib) (enc : Encoder) (dec : Decoder) (pre post : Record)
    (f : Field) (v : Value) (hx : f.column ≠ "" ∧ f.column ≠ "-") :
    (∀ m : Value → String,
      f.addrMarshaller = some m ∨ (f.addrMarshaller = none ∧ f.valueMarshaller = some m) →
      ¬ ((∃ elem, f.ty = Ty.ptr elem) ∧ v = Value.nil) →
      encodeValue lib enc.nilVal f v = Except.ok (m v) ∧
      ∀ h : List String, h.Nodup → h ≠ [] →
        (∀ fv ∈ pre ++ (f, v) :: post, fv.1.column ≠ "" ∧ fv.1.column ≠ "-" →
          fv.1.column ∈ h ∧ ∃ s, encodeValue lib enc.nilVal fv.1 fv.2 = Except.ok s) →
        (∀ fv ∈ post, fv.1.column ≠ f.column) →
        ((enc.WithHeader h).Encode lib (structPtr (pre ++ (f, v) :: post))).1.w.rows =
            enc.w.rows ++ [h.map (columnEntry lib enc.nilVal (pre ++ (f, v) :: post))] ∧
          columnEntry lib enc.nilVal (pre ++ (f, v) :: post) f.column = m v) ∧
    (∀ name, name ≠ f.column →
      columnEntry lib enc.nilVal (pre ++ (f, v) :: post) name =
        columnEntry lib enc.nilVal (pre ++ post) name) ∧
    (∀ (u : UnmarshalHook) (hdr : GoMap Nat) (line : List String) (r1 : Reader)
        (index : Nat) (cell : String),
      f.valueUnmarshaler = none → f.addrUnmarshaler = some u →
      dec.hdr = some hdr → dec.r.Read = (Except.ok line, r1) →
      hdr.get? f.column = some index → line.get? index = some cell →
      ¬ (cell = dec.nilVal ∧ omitEmpty f.options = true) →
      decodeField lib hdr dec.nilVal dec.allowMissingColumns line f v =
          (f.wrap (u (f.slot v) cell).1, (u (f.slot v) cell).2) ∧
        ((decodeFields lib hdr dec.nilVal dec.allowMissingColumns line pre).2 = none →
          (dec.Decode lib (structPtr (pre ++ (f, v) :: post))).2.1.values.get? pre.length =
            some (f.wrap (u (f.slot v) cell).1))) ∧
    (∀ (hdr : GoMap Nat) (line : List String) (r1 : Reader),
      dec.hdr = some hdr → dec.r.Read = (Except.ok line, r1) →
      (dec.Decode lib (structPtr (pre ++ (f, v) :: post))).2.2 = none →
      (dec.Decode lib (structPtr (pre ++ (f, v) :: post))).2.1.values =
        (pre ++ (f, v) :: post).map (fun fv =>
          (decodeField lib hdr dec.nilVal dec.allowMissingColumns line fv.1 fv.2).1)) := by
  refine ⟨?_, ?_, ?_, ?_⟩
  · intro m hm hnil
    have henc : encodeValue lib enc.nilVal f v = Except.ok (m v) := by
      unfold encodeValue
      have hc : ¬ ((match f.ty with | Ty.ptr _ => true | _ => false) = true ∧
          v = Value.nil) := by
        intro hc
        apply hnil
        refine ⟨?_, hc.2⟩
        cases hty : f.ty <;> simp [hty] at hc
        exact ⟨_, rfl⟩
      simp only [hc, if_false]
      rcases hm with hm | ⟨hm1, hm2⟩
      · simp [hm]
      · simp [hm1, hm2]
    refine ⟨henc, ?_⟩
    intro h hn hne hall hpost
    refine ⟨?_, columnEntry_last lib enc.nilVal pre post f v (m v) hx hpost henc⟩
    rw [Encode_header_row lib enc h _ hn hne hall]
    exact Write_rows _ _
  · intro name hname
    exact columnEntry_other lib enc.nilVal pre post f v name hname
  · intro u hdr line r1 index cell hu1 hu2 hh hr hcol hcell hskip
    have hstep : decodeField lib hdr dec.nilVal dec.allowMissingColumns line f v =
        (f.wrap (u (f.slot v) cell).1, (u (f.slot v) cell).2) := by
      rw [decodeField_reached lib hdr dec.nilVal dec.allowMissingColumns line f v index cell hx
        hcol hcell hskip, decodeValue_eq, hu1, hu2]
    refine ⟨hstep, ?_⟩
    intro hpre
    rw [Decode_field_value lib dec hdr line r1 pre post f v hh hr hpre, hstep]
  · intro hdr line r1 hh hr hok
    rw [Decode_structPtr lib dec hdr line r1 _ hh hr] at hok ⊢
    simp only at hok
    obtain ⟨h1, _⟩ := decodeFields_ok lib hdr dec.nilVal dec.allowMissingColumns line _ hok
    simp only [values_structPtr]
    rw [h1, List.map_map]
    rfl

theorem per_field_hooks_witness :
    (Decoder.Decode noFloatLib
        ((NewDecoder [Except.ok ["string val", "other"]]).WithHeader ["str", "prefixed"])
        (structPtr ([({ name := "StringVal", ty := Ty.string, tag := [("csv", "str")] },
            Value.str "")] ++
          ({ name := "Test", ty := Ty.ptr Ty.string, tag := [("csv", "prefixed")],
             addrUnmarshaler := some unmarshalPrefixed }, Value.nil) ::
          []))).2.1.values.get? 1 = some (Value.ptr (Value.str "prefix other")) :=
  ((per_field_hooks noFloatLib (NewEncoder emptyWriter)
    ((NewDecoder [Except.ok ["string val", "other"]]).WithHeader ["str", "prefixed"])
    [({ name := "StringVal", ty := Ty.string, tag := [("csv", "str")] }, Value.str "")] []
    { name := "Test", ty := Ty.ptr Ty.string, tag := [("csv", "prefixed")],
      addrUnmarshaler := some unmarshalPrefixed }
    Value.nil (by decide)).2.2.1 unmarshalPrefixed [("str", 0), ("prefixed", 1)]
    ["string val", "other"] [] 1 "other" rfl rfl rfl rfl (by decide) (by decide)
    (by decide)).2 (by decide)

/-- C18: let `f` be a field whose value itself implements `UnmarshalCSVValue` (the method
has a value receiver) and whose kind, after the pointer of a pointer field is followed, is
not a pointer. When `Decode` reaches the field (row read, fields before it processed
without error, column in the header, cell not skipped by the nil-value rule), it returns
`ErrNonPointerReceiver`; the hook is not invoked: the outcome of the pass is the same
whatever hook stands in its place, and a field that is not pointer-typed keeps its value;
the fields declared after it are untouched. -/
theorem Decode_non_pointer_receiver (lib : Lib) (dec : Decoder) (hdr : GoMap Nat)
    (line : List String) (r1 : Reader) (pre post : Record) (f : Field) (v : Value)
    (u : UnmarshalHook) (index : Nat) (cell : String)
    (hh : dec.hdr = some hdr) (hr : dec.r.Read = (Except.ok line, r1))
    (hx : f.column ≠ "" ∧ f.column ≠ "-") (hcol : hdr.get? f.column = some index)
    (hcell : line.get? index = some cell)
    (hskip : ¬ (cell = dec.nilVal ∧ omitEmpty f.options = true))
    (hpre : (decodeFields lib hdr dec.nilVal dec.allowMissingColumns line pre).2 = none)
    (hu : f.valueUnmarshaler = some u) (hk : ∀ e, f.kind ≠ Ty.ptr e) :
    (dec.Decode lib (structPtr (pre ++ (f, v) :: post))).2.2 =
      some Err.ErrNonPointerReceiver ∧
    (dec.Decode lib (structPtr (pre ++ (f, v) :: post))).2.1.values =
      (dec.Decode lib (structPtr pre)).2.1.values ++ f.wrap (f.slot v) :: post.map Prod.snd ∧
    ((∀ e, f.ty ≠ Ty.ptr e) → f.wrap (f.slot v) = v) ∧
    (∀ u1 : UnmarshalHook,
      decodeField lib hdr dec.nilVal dec.allowMissingColumns line
        { f with valueUnmarshaler := some u1 } v =
          (f.wrap (f.slot v), some Err.ErrNonPointerReceiver)) := by
  have hstepG : ∀ u1 : UnmarshalHook,
      decodeField lib hdr dec.nilVal dec.allowMissingColumns line
        { f with valueUnmarshaler := some u1 } v =
          (f.wrap (f.slot v), some Err.ErrNonPointerReceiver) := by
    intro u1
    rw [decodeField_reached lib hdr dec.nilVal dec.allowMissingColumns line
      { f with valueUnmarshaler := some u1 } v index cell hx hcol hcell hskip, decodeValue_eq]
    have hk1 : (match (Field.kind { f with valueUnmarshaler := some u1 }) with
        | Ty.ptr _ => false | _ => true) = true := by
      have hke : Field.kind { f with valueUnmarshaler := some u1 } = f.kind := rfl
      rw [hke]
      cases hkk : f.kind <;> first
        | rfl
        | exact absurd hkk (hk _)
    simp only [hk1, if_true]
    rfl
  have hstep : decodeField lib hdr dec.nilVal dec.allowMissingColumns line f v =
      (f.wrap (f.slot v), some Err.ErrNonPointerReceiver) := by
    have := hstepG u
    have hf : { f with valueUnmarshaler := some u } = f := by
      cases f
      simp only at hu
      simp [hu]
    rw [hf] at this
    exact this
  refine ⟨?_, ?_, ?_, hstepG⟩
  · rw [Decode_structPtr lib dec hdr line r1 _ hh hr]
    simp only
    rw [decodeFields_append]
    rcases hp : decodeFields lib hdr dec.nilVal dec.allowMissingColumns line pre
      with ⟨pre1, _ | e⟩
    · simp [decodeFields, hstep]
    · rw [hp] at hpre; simp at hpre
  · rw [Decode_structPtr lib dec hdr line r1 _ hh hr, Decode_structPtr lib dec hdr line r1 _ hh hr]
    simp only [values_structPtr]
    rw [decodeFields_append]
    rcases hp : decodeFields lib hdr dec.nilVal dec.allowMissingColumns line pre
      with ⟨pre1, _ | e⟩
    · simp [decodeFields, hstep]
    · rw [hp] at hpre; simp at hpre
  · intro hnp
    unfold Field.wrap Field.slot
    cases hty : f.ty <;> first
      | rfl
      | exact absurd hty (hnp _)

theorem Decode_non_pointer_receiver_witness :
    (Decoder.Decode noFloatLib
        ((NewDecoder [Except.ok ["string val", "other"]]).WithHeader ["str", "prefixed"])
        (structPtr [({ name := "StringVal", ty := Ty.string, tag := [("csv", "str")] },
            Value.str ""),
          ({ name := "Test", ty := Ty.string, tag := [("csv", "prefixed")],
             valueUnmarshaler := some unmarshalPrefixed }, Value.str "")])).2.2 =
      some Err.ErrNonPointerReceiver :=
  (Decode_non_pointer_receiver noFloatLib
    ((NewDecoder [Except.ok ["string val", "other"]]).WithHeader ["str", "prefixed"])
    [("str", 0), ("prefixed", 1)] ["string val", "other"] []
    [({ name := "StringVal", ty := Ty.string, tag := [("csv", "str")] }, Value.str "")] []
    { name := "Test", ty := Ty.string, tag := [("csv", "prefixed")],
      valueUnmarshaler := some unmarshalPrefixed }
    (Value.str "") unmarshalPrefixed 1 "other" rfl rfl (by decide) (by decide) (by decide)
    (by decide) (by decide) rfl (by intro e h; simp [Field.kind] at h)).1

/-! ## Claims on excluded fields -/

theorem column_excluded (f : Field)
    (hx : f.tag.Lookup "csv" = none ∨ f.tag.Lookup "csv" = some "-") :
    ¬ (f.column ≠ "" ∧ f.column ≠ "-") := by
  rcases hx with hx | hx
  · have hc : f.column = "" := by
      simp only [Field.column, StructTag.Get, hx]
      rfl
    exact fun h => h.1 hc
  · have hc : f.column = "-" := by
      simp only [Field.column, StructTag.Get, hx]
      rfl
    exact fun h => h.2 hc

theorem buildHeaderLoop_keys (fs : List Field) :
    ∀ (i j : Nat) (m1 m2 : GoMap Nat), m1.keys = m2.keys →
      (buildHeaderLoop fs i m1).keys = (buildHeaderLoop fs j m2).keys := by
  induction fs with
  | nil => intro i j m1 m2 h; simpa [buildHeaderLoop] using h
  | cons f rest ih =>
    intro i j m1 m2 h
    simp only [buildHeaderLoop]
    split
    · exact ih _ _ _ _ h
    · apply ih
      rw [GoMap.keys_set, GoMap.keys_set, h]

theorem buildHeaderLoop_append (a b : List Field) :
    ∀ (i : Nat) (m : GoMap Nat),
      buildHeaderLoop (a ++ b) i m = buildHeaderLoop b (i + a.length) (buildHeaderLoop a i m) := by
  induction a with
  | nil => intro i m; simp [buildHeaderLoop]
  | cons f rest ih =>
    intro i m
    simp only [List.cons_append, buildHeaderLoop, List.length_cons, List.append_eq]
    split
    · rw [ih]
      congr 1
      omega
    · rw [ih]
      congr 1
      omega

/-- C19: let `f` be a struct field with no `csv` tag or with the tag `-`. Decode, whatever
the state of the decoder (header, rows): after the call the field holds its prior value,
and the record and the error are those of the same call on the struct without the field,
with the field put back. Encode: the loop pass of the field leaves the row as it is and
raises no error, the header derived from the struct has the same column names as the one
derived without the field, and under an established header the call is the same call as
on the struct without the field. -/
theorem excluded_field (lib : Lib) (dec : Decoder) (enc : Encoder) (pre post : Record)
    (f : Field) (v : Value)
    (hx : f.tag.Lookup "csv" = none ∨ f.tag.Lookup "csv" = some "-") :
    (dec.Decode lib (structPtr (pre ++ (f, v) :: post))).2.1.values.get? pre.length = some v ∧
    (dec.Decode lib (structPtr (pre ++ (f, v) :: post))).2.1.values =
      (dec.Decode lib (structPtr (pre ++ post))).2.1.values.take pre.length ++ v ::
        (dec.Decode lib (structPtr (pre ++ post))).2.1.values.drop pre.length ∧
    (dec.Decode lib (structPtr (pre ++ (f, v) :: post))).2.2 =
      (dec.Decode lib (structPtr (pre ++ post))).2.2 ∧
    (dec.Decode lib (structPtr (pre ++ (f, v) :: post))).1 =
      (dec.Decode lib (structPtr (pre ++ post))).1 ∧
    (∀ (hdr : GoMap Nat) (line : List String),
      encodeField lib hdr enc.nilVal enc.allowMissingColumns f v line = (line, none)) ∧
    (enc.buildHeader ((pre ++ (f, v) :: post).map Prod.fst)).hdr.keys =
      (enc.buildHeader ((pre ++ post).map Prod.fst)).hdr.keys ∧
    (enc.hdr ≠ [] →
      enc.Encode lib (structPtr (pre ++ (f, v) :: post)) =
        enc.Encode lib (structPtr (pre ++ post))) := by
  have hc := column_excluded f hx
  have hvals : (dec.Decode lib (structPtr (pre ++ (f, v) :: post))).2.1.values =
      (dec.Decode lib (structPtr (pre ++ post))).2.1.values.take pre.length ++ v ::
        (dec.Decode lib (structPtr (pre ++ post))).2.1.values.drop pre.length ∧
      (dec.Decode lib (structPtr (pre ++ (f, v) :: post))).2.2 =
        (dec.Decode lib (structPtr (pre ++ post))).2.2 ∧
      (dec.Decode lib (structPtr (pre ++ (f, v) :: post))).1 =
        (dec.Decode lib (structPtr (pre ++ post))).1 := by
    cases hh : dec.hdr with
    | none => simp [Decoder.Decode, hh, values_structPtr]
    | some hdr =>
      rcases hr : dec.r.Read with ⟨_ | row, r1⟩
      · simp [Decoder.Decode, hh, hr, values_structPtr]
      · rw [Decode_structPtr lib dec hdr row r1 _ hh hr,
          Decode_structPtr lib dec hdr row r1 _ hh hr]
        simp only [values_structPtr]
        rw [decodeFields_skip lib hdr dec.nilVal dec.allowMissingColumns row pre post f v
          (decodeField_excluded lib hdr dec.nilVal dec.allowMissingColumns row f v hc)]
        exact ⟨values_insert _ _ f v, rfl, trivial⟩
  have hlen : pre.length ≤ (dec.Decode lib (structPtr (pre ++ post))).2.1.values.length := by
    cases hh : dec.hdr with
    | none => simp [Decoder.Decode, hh, values_structPtr]
    | some hdr =>
      rcases hr : dec.r.Read with ⟨_ | row, r1⟩
      · simp [Decoder.Decode, hh, hr, values_structPtr]
      · rw [Decode_structPtr lib dec hdr row r1 _ hh hr]
        simp only [values_structPtr, List.length_map, decodeFields_length, List.length_append]
        omega
  refine ⟨?_, hvals.1, hvals.2.1, hvals.2.2, ?_, ?_, ?_⟩
  · rw [hvals.1, List.get?_eq_getElem?, List.getElem?_append_right (by simp)]
    simp [Nat.min_eq_left hlen]
  · intro hdr line
    exact encodeField_excluded lib hdr enc.nilVal enc.allowMissingColumns f v line hc
  · unfold Field.column at hc
    have hc1 : (parseTag (f.tag.Get "csv")).1 = "" ∨ (parseTag (f.tag.Get "csv")).1 = "-" := by
      tauto
    simp only [Encoder.buildHeader, List.map_append, List.map_cons, buildHeaderLoop_append,
      buildHeaderLoop, hc1, if_true]
    exact buildHeaderLoop_keys _ _ _ _ _ rfl
  · intro hne
    rw [Encode_structPtr lib enc _ hne, Encode_structPtr lib enc _ hne,
      encodeFields_skip lib enc.hdr enc.nilVal enc.allowMissingColumns pre post f v _
        (fun line => encodeField_excluded lib enc.hdr enc.nilVal enc.allowMissingColumns f v
          line hc)]

theorem excluded_field_witness :
    (Decoder.Decode noFloatLib
        ((NewDecoder [Except.ok ["string val", "1234"]]).WithHeader ["str", "n"])
        (structPtr ([({ name := "StringVal", ty := Ty.string, tag := [("csv", "str")] },
            Value.str ""),
          ({ name := "IntVal", ty := Ty.int, tag := [("csv", "n")] }, Value.int 0)] ++
          ({ name := "IntVal2", ty := Ty.int, tag := [("csv", "-")] }, Value.int 7) ::
          [({ name := "IntVal3", ty := Ty.int, tag := [] },
            Value.int 9)]))).2.1.values.get? 2 = some (Value.int 7) :=
  (excluded_field noFloatLib
    ((NewDecoder [Except.ok ["string val", "1234"]]).WithHeader ["str", "n"])
    (NewEncoder emptyWriter)
    [({ name := "StringVal", ty := Ty.string, tag := [("csv", "str")] }, Value.str ""),
      ({ name := "IntVal", ty := Ty.int, tag := [("csv", "n")] }, Value.int 0)]
    [({ name := "IntVal3", ty := Ty.int, tag := [] }, Value.int 9)]
    { name := "IntVal2", ty := Ty.int, tag := [("csv", "-")] } (Value.int 7)
    (Or.inr rfl)).1

/-! ## Claims on the base tag -/

theorem Encode_ready (lib : Lib) (enc : Encoder) (rec : Record) :
    enc.Encode lib (structPtr rec) =
      match encodeFields lib (enc.ready rec).hdr enc.nilVal enc.allowMissingColumns rec
          (List.replicate (enc.ready rec).hdr.length "") with
      | (_, some e) => (enc.ready rec, some e)
      | (row, none) =>
        ({ enc.ready rec with w := (enc.w.Write row).1 }, (enc.w.Write row).2) := by
  unfold Encoder.Encode Encoder.ready
  by_cases h : enc.hdr.length = 0
  · simp [structPtr, h, Encoder.buildHeader]
  · simp [structPtr, h]

theorem ready_w (enc : Encoder) (rec : Record) : (enc.ready rec).w = enc.w := by
  unfold Encoder.ready
  split <;> rfl

theorem base_invalid (tag : StructTag) (baseStr : String)
    (hb : tag.Lookup "base" = some baseStr) (hbad : (strconv.ParseInt baseStr 10 32).2 ≠ none) :
    (base tag).2 = some Err.ErrInvalidIntBase := by
  unfold base
  rw [hb]
  rcases hp : strconv.ParseInt baseStr 10 32 with ⟨b, _ | e⟩
  · rw [hp] at hbad
    exact absurd rfl hbad
  · simp only [hp]

theorem formatWithBase_invalid (tag : StructTag) (fmt : Int → Option String) (baseStr : String)
    (hb : tag.Lookup "base" = some baseStr) (hbad : (strconv.ParseInt baseStr 10 32).2 ≠ none) :
    formatWithBase tag fmt = Except.error Err.ErrInvalidIntBase := by
  unfold formatWithBase
  rw [hb]
  rcases hp : strconv.ParseInt baseStr 10 32 with ⟨b, _ | e⟩
  · rw [hp] at hbad
    exact absurd rfl hbad
  · simp only [hp]

theorem decodeInt_invalid (bits : Nat) (tag : StructTag) (bitSize : Nat) (cell : String)
    (h : (base tag).2 = some Err.ErrInvalidIntBase) :
    decodeInt bits tag bitSize cell = Except.error Err.ErrInvalidIntBase := by
  unfold decodeInt
  rcases hp : base tag with ⟨b, _ | e⟩
  · rw [hp] at h
    simp at h
  · rw [hp] at h
    simp only [Option.some.injEq] at h
    simp [h]

theorem decodeUint_invalid (bits : Nat) (tag : StructTag) (bitSize : Nat) (cell : String)
    (h : (base tag).2 = some Err.ErrInvalidIntBase) :
    decodeUint bits tag bitSize cell = Except.error Err.ErrInvalidIntBase := by
  unfold decodeUint
  rcases hp : base tag with ⟨b, _ | e⟩
  · rw [hp] at h
    simp at h
  · rw [hp] at h
    simp only [Option.some.injEq] at h
    simp [h]

theorem integer_not_ptr (t : Ty) (v : Value)
    (hty : (∃ bits n, t.intBits = some bits ∧ v = Value.int n) ∨
      (∃ bits n, t.uintBits = some bits ∧ v = Value.uint n)) :
    ∀ elem, t ≠ Ty.ptr elem := by
  rcases hty with ⟨bits, _, h, _⟩ | ⟨bits, _, h, _⟩
  · exact intBits_not_ptr t bits h
  · exact uintBits_not_ptr t bits h

theorem encodeKind_invalid_base (lib : Lib) (tag : StructTag) (t : Ty) (v : Value)
    (baseStr : String)
    (hty : (∃ bits n, t.intBits = some bits ∧ v = Value.int n) ∨
      (∃ bits n, t.uintBits = some bits ∧ v = Value.uint n))
    (hb : tag.Lookup "base" = some baseStr) (hbad : (strconv.ParseInt baseStr 10 32).2 ≠ none) :
    encodeKind lib tag t v = Except.error Err.ErrInvalidIntBase := by
  rcases hty with ⟨bits, n, h, rfl⟩ | ⟨bits, n, h, rfl⟩
  · rcases intBits_cases t bits h with h1 | h1 | h1 | h1 | h1 <;>
      simp only [h1.1, encodeKind, formatWithBase_invalid tag _ baseStr hb hbad]
  · rcases uintBits_cases t bits h with h1 | h1 | h1 | h1 | h1 <;>
      simp only [h1.1, encodeKind, formatWithBase_invalid tag _ baseStr hb hbad]

theorem decodeKind_invalid_base (lib : Lib) (tag : StructTag) (t : Ty) (v : Value)
    (baseStr : String) (cell : String)
    (hty : (∃ bits n, t.intBits = some bits ∧ v = Value.int n) ∨
      (∃ bits n, t.uintBits = some bits ∧ v = Value.uint n))
    (hb : tag.Lookup "base" = some baseStr) (hbad : (strconv.ParseInt baseStr 10 32).2 ≠ none) :
    decodeKind lib tag t cell = Except.error Err.ErrInvalidIntBase := by
  have hbase := base_invalid tag baseStr hb hbad
  rcases hty with ⟨bits, n, h, _⟩ | ⟨bits, n, h, _⟩
  · rcases intBits_cases t bits h with h1 | h1 | h1 | h1 | h1 <;>
      simp only [h1.1, decodeKind, decodeInt_invalid _ tag _ cell hbase]
  · rcases uintBits_cases t bits h with h1 | h1 | h1 | h1 | h1 <;>
      simp only [h1.1, decodeKind, decodeUint_invalid _ tag _ cell hbase]

/-- C20: let `f` be a field of a signed or unsigned integer type, holding a value of that
type and converted by the built-in rules, whose `base` tag is present and is not the
decimal numeral of a 32-bit integer (as `base:"z"`). When `Encode` reaches the field (its
column is in the header in use, the fields before it were rendered without error), it
returns `ErrInvalidIntBase` and the sink is left as it was: no row is written. When
`Decode` reaches the field (row read, fields before it decoded without error, column in
the header, cell not skipped by the nil-value rule), it returns `ErrInvalidIntBase`, the
field keeps its prior value, and the fields after it are untouched. -/
theorem invalid_int_base (lib : Lib) (enc : Encoder) (dec : Decoder) (hdr : GoMap Nat)
    (row : List String) (r1 : Reader) (pre post : Record) (f : Field) (v : Value)
    (baseStr : String) (index idx : Nat) (cell : String)
    (hp : f.plain)
    (hty : (∃ bits n, f.ty.intBits = some bits ∧ v = Value.int n) ∨
      (∃ bits n, f.ty.uintBits = some bits ∧ v = Value.uint n))
    (hx : f.column ≠ "" ∧ f.column ≠ "-")
    (hb : f.tag.Lookup "base" = some baseStr)
    (hbad : (strconv.ParseInt baseStr 10 32).2 ≠ none)
    (hecol : (enc.ready (pre ++ (f, v) :: post)).hdr.get? f.column = some idx)
    (hepre : (encodeFields lib (enc.ready (pre ++ (f, v) :: post)).hdr enc.nilVal
      enc.allowMissingColumns pre
      (List.replicate (enc.ready (pre ++ (f, v) :: post)).hdr.length "")).2 = none)
    (hh : dec.hdr = some hdr) (hr : dec.r.Read = (Except.ok row, r1))
    (hcol : hdr.get? f.column = some index) (hcell : row.get? index = some cell)
    (hskip : ¬ (cell = dec.nilVal ∧ omitEmpty f.options = true))
    (hpre : (decodeFields lib hdr dec.nilVal dec.allowMissingColumns row pre).2 = none) :
    enc.Encode lib (structPtr (pre ++ (f, v) :: post)) =
      (enc.ready (pre ++ (f, v) :: post), some Err.ErrInvalidIntBase) ∧
    (enc.Encode lib (structPtr (pre ++ (f, v) :: post))).1.w = enc.w ∧
    (dec.Decode lib (structPtr (pre ++ (f, v) :: post))).2.2 = some Err.ErrInvalidIntBase ∧
    (dec.Decode lib (structPtr (pre ++ (f, v) :: post))).2.1.values =
      (dec.Decode lib (structPtr pre)).2.1.values ++ v :: post.map Prod.snd := by
  have hnp := integer_not_ptr f.ty v hty
  have henc : enc.Encode lib (structPtr (pre ++ (f, v) :: post)) =
      (enc.ready (pre ++ (f, v) :: post), some Err.ErrInvalidIntBase) := by
    rw [Encode_ready, encodeFields_append]
    rcases hq : encodeFields lib (enc.ready (pre ++ (f, v) :: post)).hdr enc.nilVal
      enc.allowMissingColumns pre
      (List.replicate (enc.ready (pre ++ (f, v) :: post)).hdr.length "") with ⟨row1, _ | e⟩
    · have hv : encodeValue lib enc.nilVal f v = Except.error Err.ErrInvalidIntBase := by
        rw [encodeValue_plain lib enc.nilVal f v hp hnp]
        exact encodeKind_invalid_base lib f.tag f.ty v baseStr hty hb hbad
      have hx1 : ¬ ((parseTag (f.tag.Get "csv")).1 = "" ∨
          (parseTag (f.tag.Get "csv")).1 = "-") := by
        unfold Field.column at hx
        tauto
      unfold Field.column at hecol
      simp only [encodeFields, encodeField, hx1, if_false, hecol, hv]
    · rw [hq] at hepre
      simp at hepre
  have hstep : decodeField lib hdr dec.nilVal dec.allowMissingColumns row f v =
      (v, some Err.ErrInvalidIntBase) := by
    rw [decodeField_reached lib hdr dec.nilVal dec.allowMissingColumns row f v index cell hx
      hcol hcell hskip, decodeValue_plain lib f v cell hp hnp,
      decodeKind_invalid_base lib f.tag f.ty v baseStr cell hty hb hbad]
  refine ⟨henc, ?_, ?_, ?_⟩
  · rw [henc]
    exact ready_w enc _
  · rw [Decode_structPtr lib dec hdr row r1 _ hh hr]
    simp only
    rw [decodeFields_append]
    rcases hq : decodeFields lib hdr dec.nilVal dec.allowMissingColumns row pre
      with ⟨pre1, _ | e⟩
    · simp [decodeFields, hstep]
    · rw [hq] at hpre; simp at hpre
  · rw [Decode_structPtr lib dec hdr row r1 _ hh hr, Decode_structPtr lib dec hdr row r1 _ hh hr]
    simp only [values_structPtr]
    rw [decodeFields_append]
    rcases hq : decodeFields lib hdr dec.nilVal dec.allowMissingColumns row pre
      with ⟨pre1, _ | e⟩
    · simp [decodeFields, hstep]
    · rw [hq] at hpre; simp at hpre

theorem invalid_int_base_witness :
    Encoder.Encode noFloatLib (NewEncoder emptyWriter) (structPtr (intTestBadBase 1)) =
      (Encoder.ready (NewEncoder emptyWriter) (intTestBadBase 1),
        some Err.ErrInvalidIntBase) :=
  (invalid_int_base noFloatLib (NewEncoder emptyWriter)
    ((NewDecoder [Except.ok ["1"]]).WithHeader ["a"]) [("a", 0)] ["1"] [] [] []
    { name := "A", ty := Ty.int, tag := [("csv", "a"), ("base", "z")] } (Value.int 1)
    "z" 0 0 "1" ⟨rfl, rfl, rfl, rfl⟩ (Or.inl ⟨64, 1, rfl, rfl⟩) (by decide) rfl (by decide)
    (by decide) (by decide) rfl rfl (by decide) (by decide) (by decide) (by decide)).1

/-! ## Claims on float fields -/

theorem encodeValue_plain_ptr (lib : Lib) (nv : String) (f : Field) (t : Ty) (x : Value)
    (hp : f.plain) (hty : f.ty = Ty.ptr t) :
    encodeValue lib nv f (Value.ptr x) = encodeKind lib f.tag t x := by
  obtain ⟨h1, h2, h3, h4⟩ := hp
  unfold encodeValue
  rw [h3, h4, hty]
  simp

theorem encodeKind_float (lib : Lib) (tag : StructTag) (t : Ty) (x : GoFloat)
    (ht : t = Ty.float32 ∨ t = Ty.float64) :
    encodeKind lib tag t (Value.float x) =
      if tag.Get "format" = "" then
        match strconv.ParseInt
            (if tag.Get "precision" = "" then "-1" else tag.Get "precision") 10 32 with
        | (_, some _) => Except.error Err.ErrInvalidFloatPrecision
        | (precision, none) => Except.ok (lib.FormatFloat x precision)
      else Except.ok (lib.Sprintf (tag.Get "format") x) := by
  rcases ht with rfl | rfl <;> rfl

theorem encodeValue_float (lib : Lib) (nv : String) (f : Field) (v : Value) (t : Ty)
    (x : GoFloat) (hp : f.plain) (ht : t = Ty.float32 ∨ t = Ty.float64)
    (hv : (f.ty = t ∧ v = Value.float x) ∨ (f.ty = Ty.ptr t ∧ v = Value.ptr (Value.float x))) :
    encodeValue lib nv f v = encodeKind lib f.tag t (Value.float x) := by
  rcases hv with ⟨h1, rfl⟩ | ⟨h1, rfl⟩
  · rw [encodeValue_plain lib nv f _ hp, h1]
    intro elem he
    rw [h1] at he
    rcases ht with rfl | rfl <;> simp at he
  · exact encodeValue_plain_ptr lib nv f t _ hp h1

/-- The field loop of `Encode` stops at a field that is reached (column in the header,
fields before it rendered) and cannot be rendered: the error is returned, the header is the
one in use and the sink is as before. -/
theorem Encode_field_error (lib : Lib) (enc : Encoder) (pre post : Record) (f : Field)
    (v : Value) (e : Err) (idx : Nat) (hx : f.column ≠ "" ∧ f.column ≠ "-")
    (hecol : (enc.ready (pre ++ (f, v) :: post)).hdr.get? f.column = some idx)
    (hepre : (encodeFields lib (enc.ready (pre ++ (f, v) :: post)).hdr enc.nilVal
      enc.allowMissingColumns pre
      (List.replicate (enc.ready (pre ++ (f, v) :: post)).hdr.length "")).2 = none)
    (hv : encodeValue lib enc.nilVal f v = Except.error e) :
    enc.Encode lib (structPtr (pre ++ (f, v) :: post)) =
      (enc.ready (pre ++ (f, v) :: post), some e) := by
  rw [Encode_ready, encodeFields_append]
  rcases hq : encodeFields lib (enc.ready (pre ++ (f, v) :: post)).hdr enc.nilVal
    enc.allowMissingColumns pre
    (List.replicate (enc.ready (pre ++ (f, v) :: post)).hdr.length "") with ⟨row1, _ | e1⟩
  · have hx1 : ¬ ((parseTag (f.tag.Get "csv")).1 = "" ∨
        (parseTag (f.tag.Get "csv")).1 = "-") := by
      unfold Field.column at hx
      tauto
    unfold Field.column at hecol
    simp only [encodeFields, encodeField, hx1, if_false, hecol, hv]
  · rw [hq] at hepre
    simp at hepre

set_option maxRecDepth 20000 in
/-- C21 (code at the failing input): the `float64` field of `floatEmptyPrecision` carries
the tag `precision:""`, which is present and is not the numeral of an integer (`ParseInt`
rejects the empty string), and no format; `ErrInvalidFloatPrecision` is documented as
returned when the precision of the tag cannot be converted, but `Encode` returns no error
and writes a row whose entry is rendered with precision -1. -/
theorem Encode_empty_precision :
    (strconv.ParseInt "" 10 32).2 = some Err.numSyn ∧
    (Encoder.Encode callLib (NewEncoder emptyWriter)
        (structPtr (floatEmptyPrecision { bits := 7 }))).2 = none ∧
    (Encoder.Encode callLib (NewEncoder emptyWriter)
        (structPtr (floatEmptyPrecision { bits := 7 }))).1.w.rows =
      [["FormatFloat(#7,f,-1,64)"]] := by
  decide

/-- The rendering of a float field by `Encode`, as the code has it. Let `f` be a field of
type `float32` or `float64`, or a pointer to one that is not nil, rendered by the built-in
rules and holding `x`. When the `format` tag is not empty the string computed for the
column is `fmt.Sprintf(format, x)`, whatever the `precision` tag. When it is empty: with
the `precision` tag absent or empty the string is `strconv.FormatFloat(x, 'f', -1, 64)`;
with a `precision` tag that is the decimal numeral of a 32-bit integer `n` it is
`strconv.FormatFloat(x, 'f', n, 64)`; with a non-empty `precision` tag that is no such
numeral, `Encode`, once it reaches the field, returns `ErrInvalidFloatPrecision` and leaves
the sink as it was. Under an explicit duplicate-free header, with every field renderable
and no later field of the same column, the string computed is the row entry at the field's
column. -/
theorem float_format_precision (lib : Lib) (enc : Encoder) (pre post : Record) (f : Field)
    (v : Value) (t : Ty) (x : GoFloat)
    (hp : f.plain) (ht : t = Ty.float32 ∨ t = Ty.float64)
    (hx : f.column ≠ "" ∧ f.column ≠ "-")
    (hv : (f.ty = t ∧ v = Value.float x) ∨
      (f.ty = Ty.ptr t ∧ v = Value.ptr (Value.float x))) :
    (f.tag.Get "format" ≠ "" →
      encodeValue lib enc.nilVal f v = Except.ok (lib.Sprintf (f.tag.Get "format") x)) ∧
    (f.tag.Get "format" = "" → f.tag.Get "precision" = "" →
      encodeValue lib enc.nilVal f v = Except.ok (lib.FormatFloat x (-1))) ∧
    (∀ n : Int, f.tag.Get "format" = "" → f.tag.Get "precision" ≠ "" →
      strconv.ParseInt (f.tag.Get "precision") 10 32 = (n, none) →
      encodeValue lib enc.nilVal f v = Except.ok (lib.FormatFloat x n)) ∧
    (∀ idx : Nat, f.tag.Get "format" = "" → f.tag.Get "precision" ≠ "" →
      (strconv.ParseInt (f.tag.Get "precision") 10 32).2 ≠ none →
      (enc.ready (pre ++ (f, v) :: post)).hdr.get? f.column = some idx →
      (encodeFields lib (enc.ready (pre ++ (f, v) :: post)).hdr enc.nilVal
        enc.allowMissingColumns pre
        (List.replicate (enc.ready (pre ++ (f, v) :: post)).hdr.length "")).2 = none →
      enc.Encode lib (structPtr (pre ++ (f, v) :: post)) =
          (enc.ready (pre ++ (f, v) :: post), some Err.ErrInvalidFloatPrecision) ∧
        (enc.Encode lib (structPtr (pre ++ (f, v) :: post))).1.w = enc.w) ∧
    (∀ (h : List String) (s : String), encodeValue lib enc.nilVal f v = Except.ok s →
      h.Nodup → h ≠ [] →
      (∀ fv ∈ pre ++ (f, v) :: post, fv.1.column ≠ "" ∧ fv.1.column ≠ "-" →
        fv.1.column ∈ h ∧ ∃ s1, encodeValue lib enc.nilVal fv.1 fv.2 = Except.ok s1) →
      (∀ fv ∈ post, fv.1.column ≠ f.column) →
      ((enc.WithHeader h).Encode lib (structPtr (pre ++ (f, v) :: post))).1.w.rows =
          enc.w.rows ++ [h.map (columnEntry lib enc.nilVal (pre ++ (f, v) :: post))] ∧
        columnEntry lib enc.nilVal (pre ++ (f, v) :: post) f.column = s) := by
  have hk := encodeValue_float lib enc.nilVal f v t x hp ht hv
  have hm1 : strconv.ParseInt "-1" 10 32 = (-1, none) := by decide
  refine ⟨?_, ?_, ?_, ?_, ?_⟩
  · intro hf
    rw [hk, encodeKind_float lib f.tag t x ht]
    simp only [hf, if_false]
  · intro hf hpr
    rw [hk, encodeKind_float lib f.tag t x ht]
    simp only [hf, hpr, if_true, hm1]
  · intro n hf hpr hn
    rw [hk, encodeKind_float lib f.tag t x ht]
    simp only [hf, hpr, if_true, if_false, hn]
  · intro idx hf hpr hbad hecol hepre
    have he : encodeValue lib enc.nilVal f v = Except.error Err.ErrInvalidFloatPrecision := by
      rw [hk, encodeKind_float lib f.tag t x ht]
      simp only [hf, hpr, if_true, if_false]
      rcases hq : strconv.ParseInt (f.tag.Get "precision") 10 32 with ⟨n, _ | e⟩
      · rw [hq] at hbad
        exact absurd rfl hbad
      · rfl
    have hE := Encode_field_error lib enc pre post f v _ idx hx hecol hepre he
    refine ⟨hE, ?_⟩
    rw [hE]
    exact ready_w enc _
  · intro h s hs hn hne hall hpost
    refine ⟨?_, columnEntry_last lib enc.nilVal pre post f v s hx hpost hs⟩
    rw [Encode_header_row lib enc h _ hn hne hall]
    exact Write_rows _ _

theorem float_format_precision_witness :
    Encoder.Encode noFloatLib (NewEncoder emptyWriter)
        (structPtr (floatTestBadPrecision { bits := 7 })) =
      (Encoder.ready (NewEncoder emptyWriter) (floatTestBadPrecision { bits := 7 }),
        some Err.ErrInvalidFloatPrecision) :=
  ((float_format_precision noFloatLib (NewEncoder emptyWriter) [] []
    { name := "A", ty := Ty.float64, tag := [("csv", "c"), ("precision", "Z")] }
    (Value.float { bits := 7 }) Ty.float64 { bits := 7 } ⟨rfl, rfl, rfl, rfl⟩ (Or.inr rfl)
    (by decide) (Or.inl ⟨rfl, rfl⟩)).2.2.2.1 0 (by decide) (by decide) (by decide) (by decide)
    (by decide)).1

/-! ## Claims on unsupported field types and arguments -/

theorem encodeKind_not_builtin (lib : Lib) (tag : StructTag) (t : Ty) (x : Value)
    (ht : t.builtin = false) : encodeKind lib tag t x = Except.error Err.ErrInvalidDestType := by
  cases t <;> simp [Ty.builtin] at ht <;> simp [encodeKind]

theorem decodeKind_not_builtin (lib : Lib) (tag : StructTag) (t : Ty) (cell : String)
    (ht : t.builtin = false) :
    decodeKind lib tag t cell = Except.error Err.ErrInvalidDestType := by
  cases t <;> simp [Ty.builtin] at ht <;> simp [decodeKind]

theorem decodeValue_plain_kind (lib : Lib) (f : Field) (v : Value) (cell : String)
    (hp : f.plain) :
    decodeValue lib f v cell =
      match decodeKind lib f.tag f.kind cell with
      | Except.error e => (f.wrap (f.slot v), some e)
      | Except.ok x => (f.wrap x, none) := by
  rw [decodeValue_eq, hp.1, hp.2.1]

/-- The field loop of `Decode` stops at a field whose pass returns an error: the error is
returned, the fields before it are as their passes left them and the fields after it are
untouched. -/
theorem Decode_field_error (lib : Lib) (dec : Decoder) (hdr : GoMap Nat) (row : List String)
    (r1 : Reader) (pre post : Record) (f : Field) (v v1 : Value) (e : Err)
    (hh : dec.hdr = some hdr) (hr : dec.r.Read = (Except.ok row, r1))
    (hpre : (decodeFields lib hdr dec.nilVal dec.allowMissingColumns row pre).2 = none)
    (hstep : decodeField lib hdr dec.nilVal dec.allowMissingColumns row f v = (v1, some e)) :
    (dec.Decode lib (structPtr (pre ++ (f, v) :: post))).2.2 = some e ∧
    (dec.Decode lib (structPtr (pre ++ (f, v) :: post))).2.1.values =
      (dec.Decode lib (structPtr pre)).2.1.values ++ v1 :: post.map Prod.snd := by
  rw [Decode_structPtr lib dec hdr row r1 _ hh hr, Decode_structPtr lib dec hdr row r1 _ hh hr]
  simp only [values_structPtr]
  rw [decodeFields_append]
  rcases hq : decodeFields lib hdr dec.nilVal dec.allowMissingColumns row pre
    with ⟨pre1, _ | e1⟩
  · simp [decodeFields, hstep]
  · rw [hq] at hpre; simp at hpre

/-- C22: let `f` be a tagged field without per-field hooks whose kind, after the pointer of
a pointer field is followed, is none of string, bool, the integers, the floats and
`time.Time` (a slice, an interface, a nested struct, a further pointer). When `Encode`
reaches the conversion of the field (column in the header in use, fields before it
rendered, the field not a nil pointer), it returns `ErrInvalidDestType` and leaves the sink
as it was. When `Decode` reaches the conversion of the field (row read, fields before it
decoded, column in the header, cell not skipped by the nil-value rule), it returns
`ErrInvalidDestType`, and the fields after it are untouched. -/
theorem invalid_dest_type (lib : Lib) (enc : Encoder) (dec : Decoder) (hdr : GoMap Nat)
    (row : List String) (r1 : Reader) (pre post : Record) (f : Field) (v : Value)
    (index idx : Nat) (cell : String)
    (hp : f.plain) (hk : f.kind.builtin = false)
    (hx : f.column ≠ "" ∧ f.column ≠ "-")
    (hv : (∀ e, f.ty ≠ Ty.ptr e) ∨ (∃ x, v = Value.ptr x))
    (hecol : (enc.ready (pre ++ (f, v) :: post)).hdr.get? f.column = some idx)
    (hepre : (encodeFields lib (enc.ready (pre ++ (f, v) :: post)).hdr enc.nilVal
      enc.allowMissingColumns pre
      (List.replicate (enc.ready (pre ++ (f, v) :: post)).hdr.length "")).2 = none)
    (hh : dec.hdr = some hdr) (hr : dec.r.Read = (Except.ok row, r1))
    (hcol : hdr.get? f.column = some index) (hcell : row.get? index = some cell)
    (hskip : ¬ (cell = dec.nilVal ∧ omitEmpty f.options = true))
    (hpre : (decodeFields lib hdr dec.nilVal dec.allowMissingColumns row pre).2 = none) :
    enc.Encode lib (structPtr (pre ++ (f, v) :: post)) =
      (enc.ready (pre ++ (f, v) :: post), some Err.ErrInvalidDestType) ∧
    (enc.Encode lib (structPtr (pre ++ (f, v) :: post))).1.w = enc.w ∧
    (dec.Decode lib (structPtr (pre ++ (f, v) :: post))).2.2 = some Err.ErrInvalidDestType ∧
    (dec.Decode lib (structPtr (pre ++ (f, v) :: post))).2.1.values =
      (dec.Decode lib (structPtr pre)).2.1.values ++ f.wrap (f.slot v) :: post.map Prod.snd := by
  have henc : encodeValue lib enc.nilVal f v = Except.error Err.ErrInvalidDestType := by
    by_cases hptr : ∃ e, f.ty = Ty.ptr e
    · obtain ⟨e, he⟩ := hptr
      rcases hv with hv | ⟨x, rfl⟩
      · exact absurd he (hv e)
      · rw [encodeValue_plain_ptr lib _ f e x hp he]
        apply encodeKind_not_builtin
        have hke : f.kind = e := by simp [Field.kind, he]
        rw [← hke]
        exact hk
    · have hnp : ∀ e, f.ty ≠ Ty.ptr e := fun e he => hptr ⟨e, he⟩
      rw [encodeValue_plain lib _ f v hp hnp]
      apply encodeKind_not_builtin
      have hke : f.kind = f.ty := by
        unfold Field.kind
        cases hty : f.ty <;> first
          | rfl
          | exact absurd hty (hnp _)
      rw [← hke]
      exact hk
  have hE := Encode_field_error lib enc pre post f v _ idx hx hecol hepre henc
  have hstep : decodeField lib hdr dec.nilVal dec.allowMissingColumns row f v =
      (f.wrap (f.slot v), some Err.ErrInvalidDestType) := by
    rw [decodeField_reached lib hdr dec.nilVal dec.allowMissingColumns row f v index cell hx
      hcol hcell hskip, decodeValue_plain_kind lib f v cell hp,
      decodeKind_not_builtin lib f.tag f.kind cell hk]
  obtain ⟨hD1, hD2⟩ := Decode_field_error lib dec hdr row r1 pre post f v _ _ hh hr hpre hstep
  refine ⟨hE, ?_, hD1, hD2⟩
  rw [hE]
  exact ready_w enc _

theorem invalid_dest_type_witness :
    Encoder.Encode noFloatLib (NewEncoder emptyWriter) (structPtr invalidSliceTest) =
      (Encoder.ready (NewEncoder emptyWriter) invalidSliceTest,
        some Err.ErrInvalidDestType) :=
  (invalid_dest_type noFloatLib (NewEncoder emptyWriter)
    ((NewDecoder [Except.ok ["x"]]).WithHeader ["a"]) [("a", 0)] ["x"] [] [] []
    { name := "A", ty := Ty.slice, tag := [("csv", "a")] } Value.other 0 0 "x"
    ⟨rfl, rfl, rfl, rfl⟩ rfl (by decide) (Or.inl (by intro e h; simp at h)) (by decide)
    (by decide) rfl rfl (by decide) (by decide) (by decide) (by decide)).1

/-- C23 (as stated, refuted): a pointer to something that is not a struct (as `*int`) is
not a handle to a structured record, nor a string map, nor a `Marshaler`; `Encode` does not
return `ErrInvalidType` for it: the reflection call `NumField` panics. The argument `nil`
(an interface holding nothing) is none of these either, and `Encode` panics on it at the
call of `Kind` on the nil `reflect.TypeOf(nil)`. -/
theorem Encode_pointer_to_non_struct :
    (Encoder.Encode noFloatLib (NewEncoder emptyWriter) { shape := Shape.otherPtr }).2 =
      some (Err.panicked "reflect: NumField of non-struct type") ∧
    (Encoder.Encode noFloatLib (NewEncoder emptyWriter) { shape := Shape.otherPtr }).2 ≠
      some Err.ErrInvalidType ∧
    (Encoder.Encode noFloatLib (NewEncoder emptyWriter) { shape := Shape.nilIface }).2 =
      some (Err.panicked "invalid memory address or nil pointer dereference") := by
  decide

/-- C23 (amended): for every argument that holds a value (is not nil) and is not a
pointer, nor a string map (nil or not, by value or by pointer), nor a `Marshaler`, `Encode`
returns `ErrInvalidType` and leaves the encoder, its sink included, as it was: no row is
written. Every struct passed by value is such an argument. -/
theorem Encode_nonPointer (lib : Lib) (enc : Encoder) (v : Target)
    (hm : v.MarshalCSV = none) (hs : v.shape = Shape.nonPointer) :
    enc.Encode lib v = (enc, some Err.ErrInvalidType) ∧ (enc.Encode lib v).1.w = enc.w := by
  have h : enc.Encode lib v = (enc, some Err.ErrInvalidType) := by
    unfold Encoder.Encode
    rw [hm, hs]
  exact ⟨h, by rw [h]⟩

theorem Encode_nonPointer_witness :
    Encoder.Encode noFloatLib (NewEncoder emptyWriter) { shape := Shape.nonPointer } =
      (NewEncoder emptyWriter, some Err.ErrInvalidType) :=
  (Encode_nonPointer noFloatLib (NewEncoder emptyWriter) { shape := Shape.nonPointer }
    rfl rfl).1

/-! ## Claims on bool fields and on the range of integers -/

theorem wrap_plain (f : Field) (x : Value) (hnp : ∀ e, f.ty ≠ Ty.ptr e) : f.wrap x = x := by
  unfold Field.wrap
  cases hty : f.ty <;> first
    | rfl
    | exact absurd hty (hnp _)

theorem slot_plain (f : Field) (v : Value) (hnp : ∀ e, f.ty ≠ Ty.ptr e) : f.slot v = v := by
  unfold Field.slot
  cases hty : f.ty <;> first
    | rfl
    | exact absurd hty (hnp _)

theorem kind_plain (f : Field) (hnp : ∀ e, f.ty ≠ Ty.ptr e) : f.kind = f.ty := by
  unfold Field.kind
  cases hty : f.ty <;> first
    | rfl
    | exact absurd hty (hnp _)

theorem ParseBool_cases (cell : String) :
    (cell ∈ ["1", "t", "T", "TRUE", "true", "True"] →
      strconv.ParseBool cell = Except.ok true) ∧
    (cell ∈ ["0", "f", "F", "FALSE", "false", "False"] →
      strconv.ParseBool cell = Except.ok false) ∧
    (cell ∉ ["1", "t", "T", "TRUE", "true", "True"] →
      cell ∉ ["0", "f", "F", "FALSE", "false", "False"] →
      strconv.ParseBool cell = Except.error Err.numSyn) := by
  refine ⟨?_, ?_, ?_⟩
  · intro h
    simp only [List.mem_cons, List.mem_singleton, List.not_mem_nil, or_false] at h
    unfold strconv.ParseBool
    rw [if_pos h]
  · intro h
    simp only [List.mem_cons, List.mem_singleton, List.not_mem_nil, or_false] at h
    rcases h with rfl | rfl | rfl | rfl | rfl | rfl <;> rfl
  · intro h1 h2
    simp only [List.mem_cons, List.mem_singleton, List.not_mem_nil, or_false] at h1 h2
    unfold strconv.ParseBool
    rw [if_neg h1, if_neg h2]

/-- C24 (as stated, refuted): `tRuE` is a casing of the string `true`; with header `[t, f]`
and row `["tRuE", "false"]`, `Decode` into `boolTest` returns a syntax error and the field
`True` stays `false`. -/
theorem Decode_bool_mixed_case :
    (Decoder.Decode noFloatLib
        ((NewDecoder [Except.ok ["tRuE", "false"]]).WithHeader ["t", "f"])
        (structPtr (boolTest false false))).2.2 = some Err.numSyn ∧
    (Decoder.Decode noFloatLib
        ((NewDecoder [Except.ok ["tRuE", "false"]]).WithHeader ["t", "f"])
        (structPtr (boolTest false false))).2.1.values =
      [Value.bool false, Value.bool false] := by
  decide

/-- C24 (amended): let `f` be a tagged field of kind bool (a `bool`, or a pointer to one)
converted by the built-in rule, and let `Decode` reach it (row read, fields before it
decoded, column in the header, cell not skipped by the nil-value rule). For the spellings
`1`, `t`, `T`, `TRUE`, `true`, `True` the field is assigned true, for `0`, `f`, `F`,
`FALSE`, `false`, `False` it is assigned false, and the loop goes on; for every other
string, other casings included, `Decode` returns a syntax error, a `bool` field keeps its
prior value, and the fields after it are untouched. -/
theorem Decode_bool (lib : Lib) (dec : Decoder) (hdr : GoMap Nat) (row : List String)
    (r1 : Reader) (pre post : Record) (f : Field) (v : Value) (index : Nat) (cell : String)
    (hp : f.plain) (hk : f.kind = Ty.bool) (hx : f.column ≠ "" ∧ f.column ≠ "-")
    (hh : dec.hdr = some hdr) (hr : dec.r.Read = (Except.ok row, r1))
    (hcol : hdr.get? f.column = some index) (hcell : row.get? index = some cell)
    (hskip : ¬ (cell = dec.nilVal ∧ omitEmpty f.options = true))
    (hpre : (decodeFields lib hdr dec.nilVal dec.allowMissingColumns row pre).2 = none) :
    (cell ∈ ["1", "t", "T", "TRUE", "true", "True"] →
      decodeField lib hdr dec.nilVal dec.allowMissingColumns row f v =
          (f.wrap (Value.bool true), none) ∧
        (dec.Decode lib (structPtr (pre ++ (f, v) :: post))).2.1.values.get? pre.length =
          some (f.wrap (Value.bool true))) ∧
    (cell ∈ ["0", "f", "F", "FALSE", "false", "False"] →
      decodeField lib hdr dec.nilVal dec.allowMissingColumns row f v =
          (f.wrap (Value.bool false), none) ∧
        (dec.Decode lib (structPtr (pre ++ (f, v) :: post))).2.1.values.get? pre.length =
          some (f.wrap (Value.bool false))) ∧
    (cell ∉ ["1", "t", "T", "TRUE", "true", "True"] →
      cell ∉ ["0", "f", "F", "FALSE", "false", "False"] →
      (dec.Decode lib (structPtr (pre ++ (f, v) :: post))).2.2 = some Err.numSyn ∧
        (dec.Decode lib (structPtr (pre ++ (f, v) :: post))).2.1.values =
          (dec.Decode lib (structPtr pre)).2.1.values ++
            f.wrap (f.slot v) :: post.map Prod.snd) ∧
    (f.ty = Ty.bool → (∀ x, f.wrap x = x) ∧ f.slot v = v) := by
  obtain ⟨hb1, hb2, hb3⟩ := ParseBool_cases cell
  have hstep : decodeField lib hdr dec.nilVal dec.allowMissingColumns row f v =
      match strconv.ParseBool cell with
      | Except.error e => (f.wrap (f.slot v), some e)
      | Except.ok b => (f.wrap (Value.bool b), none) := by
    rw [decodeField_reached lib hdr dec.nilVal dec.allowMissingColumns row f v index cell hx
      hcol hcell hskip, decodeValue_plain_kind lib f v cell hp, hk]
    simp only [decodeKind]
    cases strconv.ParseBool cell <;> rfl
  have hval := Decode_field_value lib dec hdr row r1 pre post f v hh hr hpre
  refine ⟨?_, ?_, ?_, ?_⟩
  · intro h
    rw [hb1 h] at hstep
    refine ⟨hstep, ?_⟩
    rw [hval, hstep]
  · intro h
    rw [hb2 h] at hstep
    refine ⟨hstep, ?_⟩
    rw [hval, hstep]
  · intro h1 h2
    rw [hb3 h1 h2] at hstep
    exact Decode_field_error lib dec hdr row r1 pre post f v _ _ hh hr hpre hstep
  · intro hty
    have hnp : ∀ e, f.ty ≠ Ty.ptr e := by
      intro e he
      rw [hty] at he
      simp at he
    exact ⟨fun x => wrap_plain f x hnp, slot_plain f v hnp⟩

theorem Decode_bool_witness :
    (Decoder.Decode noFloatLib
        ((NewDecoder [Except.ok ["true", "false"]]).WithHeader ["t", "f"])
        (structPtr ([] ++ ({ name := "True", ty := Ty.bool, tag := [("csv", "t")] },
            Value.bool false) ::
          [({ name := "False", ty := Ty.bool, tag := [("csv", "f")] },
            Value.bool true)]))).2.1.values.get? 0 =
      some (Field.wrap { name := "True", ty := Ty.bool, tag := [("csv", "t")] }
        (Value.bool true)) :=
  ((Decode_bool noFloatLib ((NewDecoder [Except.ok ["true", "false"]]).WithHeader ["t", "f"])
    [("t", 0), ("f", 1)] ["true", "false"] [] []
    [({ name := "False", ty := Ty.bool, tag := [("csv", "f")] }, Value.bool true)]
    { name := "True", ty := Ty.bool, tag := [("csv", "t")] } (Value.bool false) 0 "true"
    ⟨rfl, rfl, rfl, rfl⟩ rfl (by decide) rfl rfl (by decide) (by decide) (by decide)
    (by decide)).1 (by decide)).2

/-! ## Claims on the range check of integer fields -/

theorem natDenotes_unique (b : Nat) (cs : List Char) (n m : Nat)
    (h1 : natDenotes b cs n) (h2 : natDenotes b cs m) : n = m := by
  obtain ⟨_, ds1, hd1, _, rfl⟩ := h1
  obtain ⟨_, ds2, hd2, _, rfl⟩ := h2
  have hds : ds1 = ds2 := by
    apply List.map_injective_iff.mpr (Option.some_injective Nat)
    rw [← hd1, ← hd2]
  rw [hds]

theorem natDenotes_head (b : Nat) (c : Char) (cs : List Char) (n : Nat)
    (h : natDenotes b (c :: cs) n) : digitValue c ≠ none := by
  obtain ⟨_, ds, hd, _, _⟩ := h
  cases ds with
  | nil => simp at hd
  | cons d rest =>
    simp only [List.map_cons, List.cons.injEq] at hd
    rw [hd.1]
    simp

theorem intDenotes_unique (b : Nat) (s : String) (z1 z2 : Int)
    (h1 : intDenotes b s z1) (h2 : intDenotes b s z2) : z1 = z2 := by
  unfold intDenotes at h1 h2
  split at h1
  · rename_i cs heq
    rw [heq] at h2
    simp only at h2
    obtain ⟨n1, hn1, rfl⟩ := h1
    obtain ⟨n2, hn2, rfl⟩ := h2
    rw [natDenotes_unique b cs n1 n2 hn1 hn2]
  · rename_i cs heq
    rw [heq] at h2
    simp only at h2
    obtain ⟨n1, hn1, rfl⟩ := h1
    obtain ⟨n2, hn2, rfl⟩ := h2
    rw [natDenotes_unique b cs n1 n2 hn1 hn2]
  · rename_i hneg hpos
    split at h2
    · rename_i cs heq
      exact absurd heq (hneg cs)
    · rename_i cs heq
      exact absurd heq (hpos cs)
    · obtain ⟨n1, hn1, rfl⟩ := h1
      obtain ⟨n2, hn2, rfl⟩ := h2
      rw [natDenotes_unique b _ n1 n2 hn1 hn2]

/-- A string that is a numeral of base `b` denotes, as a signed string, the same number. -/
theorem intDenotes_of_nat (b : Nat) (s : String) (n : Nat) (z : Int)
    (h1 : natDenotes b s.data n) (h2 : intDenotes b s z) : z = (n : Int) := by
  unfold intDenotes at h2
  split at h2
  · rename_i cs heq
    rw [heq] at h1
    exact absurd (by decide) (natDenotes_head b _ cs n h1)
  · rename_i cs heq
    rw [heq] at h1
    exact absurd (by decide) (natDenotes_head b _ cs n h1)
  · obtain ⟨n2, hn2, rfl⟩ := h2
    rw [natDenotes_unique b _ n n2 h1 hn2]

theorem decodeInt_range (bits : Nat) (tag : StructTag) (bitSize : Nat) (cell : String)
    (x : Value) (b : Int) (hbase : base tag = (b, none)) (hb : 2 ≤ b ∧ b ≤ 36)
    (hbs : bitSize ≤ 64) (hbs1 : bitSize ≠ 1)
    (h : decodeInt bits tag bitSize cell = Except.ok x) :
    ∃ z : Int, intDenotes b.toNat cell z ∧
      -(2 ^ ((if bitSize = 0 then 64 else bitSize) - 1) : Int) ≤ z ∧
      z < 2 ^ ((if bitSize = 0 then 64 else bitSize) - 1) := by
  unfold decodeInt at h
  rw [hbase] at h
  simp only at h
  rcases hparse : strconv.ParseInt cell b bitSize with ⟨z, _ | e⟩
  · exact ⟨z, strconv.ParseInt_sound cell b bitSize z hb hbs hbs1 hparse⟩
  · rw [hparse] at h
    simp at h

theorem decodeUint_range (bits : Nat) (tag : StructTag) (bitSize : Nat) (cell : String)
    (x : Value) (b : Int) (hbase : base tag = (b, none)) (hb : 2 ≤ b ∧ b ≤ 36)
    (h : decodeUint bits tag bitSize cell = Except.ok x) :
    ∃ n : Nat, natDenotes b.toNat cell.data n ∧
      n < 2 ^ (if bitSize = 0 then 64 else bitSize) := by
  unfold decodeUint at h
  rw [hbase] at h
  simp only at h
  rcases hparse : strconv.ParseUint cell b bitSize with ⟨n, _ | e⟩
  · exact ⟨n, strconv.ParseUint_sound cell b bitSize n hb hparse⟩
  · rw [hparse] at h
    simp at h

theorem decodeKind_int_range (lib : Lib) (tag : StructTag) (kind : Ty) (bits : Nat)
    (cell : String) (x : Value) (b : Int) (hk : kind.intBits = some bits)
    (hbase : base tag = (b, none)) (hb : 2 ≤ b ∧ b ≤ 36)
    (h : decodeKind lib tag kind cell = Except.ok x) :
    ∃ z : Int, intDenotes b.toNat cell z ∧ -(2 ^ (bits - 1) : Int) ≤ z ∧
      z < 2 ^ (bits - 1) := by
  rcases intBits_cases kind bits hk with ⟨rfl, rfl⟩ | ⟨rfl, rfl⟩ | ⟨rfl, rfl⟩ | ⟨rfl, rfl⟩ |
    ⟨rfl, rfl⟩ <;> simp only [decodeKind, strconv.IntSize] at h
  · simpa using decodeInt_range 64 tag 0 cell x b hbase hb (by omega) (by omega) h
  · simpa using decodeInt_range 8 tag 8 cell x b hbase hb (by omega) (by omega) h
  · simpa using decodeInt_range 16 tag 16 cell x b hbase hb (by omega) (by omega) h
  · simpa using decodeInt_range 32 tag 32 cell x b hbase hb (by omega) (by omega) h
  · simpa using decodeInt_range 64 tag 64 cell x b hbase hb (by omega) (by omega) h

theorem decodeKind_uint_range (lib : Lib) (tag : StructTag) (kind : Ty) (bits : Nat)
    (cell : String) (x : Value) (b : Int) (hk : kind.uintBits = some bits)
    (hbase : base tag = (b, none)) (hb : 2 ≤ b ∧ b ≤ 36)
    (h : decodeKind lib tag kind cell = Except.ok x) :
    ∃ n : Nat, natDenotes b.toNat cell.data n ∧ n < 2 ^ bits := by
  rcases uintBits_cases kind bits hk with ⟨rfl, rfl⟩ | ⟨rfl, rfl⟩ | ⟨rfl, rfl⟩ | ⟨rfl, rfl⟩ |
    ⟨rfl, rfl⟩ <;> simp only [decodeKind, strconv.IntSize] at h
  · simpa using decodeUint_range 64 tag 0 cell x b hbase hb h
  · simpa using decodeUint_range 8 tag 8 cell x b hbase hb h
  · simpa using decodeUint_range 16 tag 16 cell x b hbase hb h
  · simpa using decodeUint_range 32 tag 32 cell x b hbase hb h
  · simpa using decodeUint_range 64 tag 64 cell x b hbase hb h

/-- C25: let `f` be a field of a signed integer type of width `w` (8, 16, 32 or 64; the
native `int` is 64 bits wide), or of an unsigned one, converted by the built-in rule under
a base `b` in `2..36`, and let the row string at its column denote in base `b` (an optional
sign, then digits below `b`) an integer `z` outside `[-2^(w-1), 2^(w-1)-1]`, for an
unsigned field outside `[0, 2^w-1]` (every negative `z` is). When `Decode` reaches the
field it returns an error, the field keeps its prior value (no wrapped or truncated value
is stored), and the fields after it are untouched. -/
theorem Decode_integer_out_of_range (lib : Lib) (dec : Decoder) (hdr : GoMap Nat)
    (row : List String) (r1 : Reader) (pre post : Record) (f : Field) (v : Value)
    (index : Nat) (cell : String) (b z : Int) (w : Nat)
    (hp : f.plain)
    (hty : (f.ty.intBits = some w ∧ (z < -(2 ^ (w - 1) : Int) ∨ (2 ^ (w - 1) : Int) ≤ z)) ∨
      (f.ty.uintBits = some w ∧ (z < 0 ∨ (2 ^ w : Int) ≤ z)))
    (hx : f.column ≠ "" ∧ f.column ≠ "-")
    (hbase : base f.tag = (b, none)) (hb : 2 ≤ b ∧ b ≤ 36)
    (hden : intDenotes b.toNat cell z)
    (hh : dec.hdr = some hdr) (hr : dec.r.Read = (Except.ok row, r1))
    (hcol : hdr.get? f.column = some index) (hcell : row.get? index = some cell)
    (hskip : ¬ (cell = dec.nilVal ∧ omitEmpty f.options = true))
    (hpre : (decodeFields lib hdr dec.nilVal dec.allowMissingColumns row pre).2 = none) :
    ∃ e : Err, (dec.Decode lib (structPtr (pre ++ (f, v) :: post))).2.2 = some e ∧
      (dec.Decode lib (structPtr (pre ++ (f, v) :: post))).2.1.values =
        (dec.Decode lib (structPtr pre)).2.1.values ++ v :: post.map Prod.snd := by
  have hnp : ∀ e, f.ty ≠ Ty.ptr e := by
    rcases hty with ⟨h, _⟩ | ⟨h, _⟩
    · exact intBits_not_ptr f.ty w h
    · exact uintBits_not_ptr f.ty w h
  have hfail : ∃ e, decodeKind lib f.tag f.ty cell = Except.error e := by
    rcases hk : decodeKind lib f.tag f.ty cell with e | x
    · exact ⟨e, rfl⟩
    · exfalso
      rcases hty with ⟨h, hout⟩ | ⟨h, hout⟩
      · obtain ⟨z1, hz1, hlo, hhi⟩ :=
          decodeKind_int_range lib f.tag f.ty w cell x b h hbase hb hk
        have hzz := intDenotes_unique b.toNat cell z z1 hden hz1
        subst hzz
        omega
      · obtain ⟨n, hn, hlt⟩ := decodeKind_uint_range lib f.tag f.ty w cell x b h hbase hb hk
        have hzn := intDenotes_of_nat b.toNat cell n z hn hden
        subst hzn
        have hlt1 : ((n : Nat) : Int) < (2 ^ w : Int) := by exact_mod_cast hlt
        omega
  obtain ⟨e, he⟩ := hfail
  have hstep : decodeField lib hdr dec.nilVal dec.allowMissingColumns row f v = (v, some e) := by
    rw [decodeField_reached lib hdr dec.nilVal dec.allowMissingColumns row f v index cell hx
      hcol hcell hskip, decodeValue_plain lib f v cell hp hnp, he]
  exact ⟨e, Decode_field_error lib dec hdr row r1 pre post f v v e hh hr hpre hstep⟩

theorem Decode_integer_out_of_range_witness :
    ∃ e : Err,
      (Decoder.Decode noFloatLib ((NewDecoder [Except.ok ["128"]]).WithHeader ["a"])
        (structPtr ([] ++ ({ name := "A", ty := Ty.int8, tag := [("csv", "a")] },
          Value.int 5) :: []))).2.2 = some e ∧
      (Decoder.Decode noFloatLib ((NewDecoder [Except.ok ["128"]]).WithHeader ["a"])
        (structPtr ([] ++ ({ name := "A", ty := Ty.int8, tag := [("csv", "a")] },
          Value.int 5) :: []))).2.1.values =
        (Decoder.Decode noFloatLib ((NewDecoder [Except.ok ["128"]]).WithHeader ["a"])
          (structPtr [])).2.1.values ++ Value.int 5 :: List.map Prod.snd ([] : Record) :=
  Decode_integer_out_of_range noFloatLib ((NewDecoder [Except.ok ["128"]]).WithHeader ["a"])
    [("a", 0)] ["128"] [] [] []
    { name := "A", ty := Ty.int8, tag := [("csv", "a")] } (Value.int 5) 0 "128" 10 128 8
    ⟨rfl, rfl, rfl, rfl⟩ (Or.inl ⟨rfl, Or.inr (by decide)⟩) (by decide) rfl (by decide)
    (strconv.intDenotes_plain 10 "128" '1' ['2', '8'] 128 rfl (by decide) (by decide)
      ⟨by simp, [1, 2, 8], by decide, by decide, by decide⟩)
    rfl rfl (by decide) (by decide) (by decide) (by decide)

/-! ## Claims on failures of the row source and on partial decoding -/

/-- C26: when the next `Read` of the row source fails with `e`, `ReadHeader` returns `e`
itself and the header index of the decoder is as before; `Decode`, for a decoder with a
header and whatever the target and its hooks, returns `e` itself and the target is as
before. A decoder without a header does not read the source at all: `Decode` returns
`ErrMissingHeader` and the decoder, its source included, is as before. -/
theorem read_failure (lib : Lib) (dec : Decoder) (v : Target) (e : Err) (r1 : Reader)
    (hr : dec.r.Read = (Except.error e, r1)) :
    dec.ReadHeader = ({ dec with r := r1 }, some e) ∧
    dec.ReadHeader.1.hdr = dec.hdr ∧
    (∀ hdr : GoMap Nat, dec.hdr = some hdr →
      dec.Decode lib v = ({ dec with r := r1 }, v, some e)) ∧
    (dec.hdr = none → dec.Decode lib v = (dec, v, some Err.ErrMissingHeader)) := by
  have h1 : dec.ReadHeader = ({ dec with r := r1 }, some e) := by
    unfold Decoder.ReadHeader
    rw [hr]
  refine ⟨h1, ?_, ?_, ?_⟩
  · rw [h1]
  · intro hdr hh
    unfold Decoder.Decode
    rw [hh]
    simp only [hr]
  · intro hh
    unfold Decoder.Decode
    rw [hh]

theorem read_failure_witness :
    Decoder.ReadHeader (NewDecoder []) = ({ NewDecoder [] with r := [] }, some Err.EOF) :=
  (read_failure noFloatLib (NewDecoder []) (structPtr (simpleTest "" 0)) Err.EOF [] rfl).1

/-- C28: let the pass of `Decode` over a struct fail at the field `f` with the error `e`,
the fields before `f` having been processed without error. `Decode` returns `e`; the fields
declared after `f` hold their prior values; every field before `f` holds what its own pass
computed, and for a field in scope (column in the header, cell not skipped by the nil-value
rule) that is the value decoded from the row string `cell` at its column: for a field
converted by the built-in rules the conversion of `cell` succeeded with a value `x` and the
field holds `x` (a pointer field points to `x`), in particular a string field holds `cell`
itself; for a field converted by its own `UnmarshalCSVValue` the field holds what the hook
stored on being handed `cell`. -/
theorem Decode_no_rollback (lib : Lib) (dec : Decoder) (hdr : GoMap Nat) (row : List String)
    (r1 : Reader) (pre post : Record) (f : Field) (v v1 : Value) (e : Err)
    (hh : dec.hdr = some hdr) (hr : dec.r.Read = (Except.ok row, r1))
    (hpre : (decodeFields lib hdr dec.nilVal dec.allowMissingColumns row pre).2 = none)
    (hstep : decodeField lib hdr dec.nilVal dec.allowMissingColumns row f v = (v1, some e)) :
    (dec.Decode lib (structPtr (pre ++ (f, v) :: post))).2.2 = some e ∧
    (dec.Decode lib (structPtr (pre ++ (f, v) :: post))).2.1.values =
      pre.map (fun fv =>
          (decodeField lib hdr dec.nilVal dec.allowMissingColumns row fv.1 fv.2).1) ++
        v1 :: post.map Prod.snd ∧
    (∀ fv ∈ pre, ∀ (index : Nat) (cell : String),
      fv.1.column ≠ "" ∧ fv.1.column ≠ "-" → hdr.get? fv.1.column = some index →
      row.get? index = some cell → ¬ (cell = dec.nilVal ∧ omitEmpty fv.1.options = true) →
      (fv.1.plain →
        ∃ x, decodeKind lib fv.1.tag fv.1.kind cell = Except.ok x ∧
          (decodeField lib hdr dec.nilVal dec.allowMissingColumns row fv.1 fv.2).1 =
            fv.1.wrap x) ∧
      (fv.1.plain → fv.1.ty = Ty.string →
        (decodeField lib hdr dec.nilVal dec.allowMissingColumns row fv.1 fv.2).1 =
          Value.str cell) ∧
      (∀ u : UnmarshalHook, fv.1.valueUnmarshaler = none → fv.1.addrUnmarshaler = some u →
        (decodeField lib hdr dec.nilVal dec.allowMissingColumns row fv.1 fv.2).1 =
            fv.1.wrap (u (fv.1.slot fv.2) cell).1 ∧
          (u (fv.1.slot fv.2) cell).2 = none)) := by
  obtain ⟨hD1, hD2⟩ := Decode_field_error lib dec hdr row r1 pre post f v v1 e hh hr hpre hstep
  obtain ⟨hp1, hp2⟩ := decodeFields_ok lib hdr dec.nilVal dec.allowMissingColumns row pre hpre
  refine ⟨hD1, ?_, ?_⟩
  · rw [hD2, Decode_structPtr lib dec hdr row r1 _ hh hr]
    simp only [values_structPtr]
    rw [hp1, List.map_map]
    rfl
  · intro fv hfv index cell hx hcol hcell hskip
    have hreach := decodeField_reached lib hdr dec.nilVal dec.allowMissingColumns row fv.1 fv.2
      index cell hx hcol hcell hskip
    have hnone := hp2 fv hfv
    rw [hreach] at hnone
    rw [hreach]
    have hplain : fv.1.plain →
        ∃ x, decodeKind lib fv.1.tag fv.1.kind cell = Except.ok x ∧
          (decodeValue lib fv.1 fv.2 cell).1 = fv.1.wrap x := by
      intro hp
      rw [decodeValue_plain_kind lib fv.1 fv.2 cell hp] at hnone ⊢
      rcases hk : decodeKind lib fv.1.tag fv.1.kind cell with e1 | x
      · rw [hk] at hnone
        simp at hnone
      · exact ⟨x, rfl, rfl⟩
    refine ⟨hplain, ?_, ?_⟩
    · intro hp hty
      obtain ⟨x, hx1, hx2⟩ := hplain hp
      have hnp : ∀ t, fv.1.ty ≠ Ty.ptr t := by
        intro t ht
        rw [hty] at ht
        simp at ht
      rw [kind_plain fv.1 hnp, hty] at hx1
      simp only [decodeKind, Except.ok.injEq] at hx1
      rw [hx2, wrap_plain fv.1 x hnp, ← hx1]
    · intro u hu1 hu2
      rw [decodeValue_eq, hu1, hu2] at hnone ⊢
      exact ⟨rfl, hnone⟩

theorem Decode_no_rollback_witness :
    (Decoder.Decode noFloatLib
        ((NewDecoder [Except.ok ["hello", "x", "later"]]).WithHeader ["str", "n", "s2"])
        (structPtr ([({ name := "StringVal", ty := Ty.string, tag := [("csv", "str")] },
            Value.str "")] ++
          ({ name := "IntVal", ty := Ty.int, tag := [("csv", "n")] }, Value.int 7) ::
          [({ name := "Later", ty := Ty.string, tag := [("csv", "s2")] },
            Value.str "prior")]))).2.2 = some Err.numSyn ∧
    (Decoder.Decode noFloatLib
        ((NewDecoder [Except.ok ["hello", "x", "later"]]).WithHeader ["str", "n", "s2"])
        (structPtr ([({ name := "StringVal", ty := Ty.string, tag := [("csv", "str")] },
            Value.str "")] ++
          ({ name := "IntVal", ty := Ty.int, tag := [("csv", "n")] }, Value.int 7) ::
          [({ name := "Later", ty := Ty.string, tag := [("csv", "s2")] },
            Value.str "prior")]))).2.1.values =
      [Value.str "hello", Value.int 7, Value.str "prior"] :=
  match Decode_no_rollback noFloatLib
    ((NewDecoder [Except.ok ["hello", "x", "later"]]).WithHeader ["str", "n", "s2"])
    [("str", 0), ("n", 1), ("s2", 2)] ["hello", "x", "later"] []
    [({ name := "StringVal", ty := Ty.string, tag := [("csv", "str")] }, Value.str "")]
    [({ name := "Later", ty := Ty.string, tag := [("csv", "s2")] }, Value.str "prior")]
    { name := "IntVal", ty := Ty.int, tag := [("csv", "n")] } (Value.int 7) (Value.int 7)
    Err.numSyn rfl rfl (by decide) (by decide) with
  | ⟨h1, h2, _⟩ => ⟨h1, by rw [h2]; decide⟩

/-! ## Claims on row accesses and on the single write of `Encode` -/

theorem get?_of_lt (row : List String) (i : Nat) (h : i < row.length) :
    ∃ cell, row.get? i = some cell := by
  rw [List.get?_eq_getElem?]
  exact ⟨row[i], List.getElem?_eq_getElem h⟩

theorem decodeMap_in_bounds (row : List String) (hdr : GoMap Nat) :
    ∀ u : GoMap String, (∀ kv ∈ hdr, kv.2 < row.length) → (decodeMap row hdr u).2 = none := by
  induction hdr with
  | nil => intro u _; rfl
  | cons kv rest ih =>
    intro u hall
    obtain ⟨k, i⟩ := kv
    obtain ⟨cell, hcell⟩ := get?_of_lt row i (hall (k, i) (by simp))
    simp only [decodeMap, hcell]
    exact ih _ (fun kv hkv => hall kv (List.mem_cons_of_mem _ hkv))

/-- With every referenced index inside the row, the pass of a field is skipped, or stopped
by the missing-column rule, or is the conversion of a cell of the row. -/
theorem decodeField_in_bounds (lib : Lib) (hdr : GoMap Nat) (nv : String) (al : Bool)
    (row : List String) (f : Field) (v : Value)
    (hb : f.column ≠ "" ∧ f.column ≠ "-" → ∀ i, hdr.get? f.column = some i → i < row.length) :
    decodeField lib hdr nv al row f v = (v, none) ∨
      decodeField lib hdr nv al row f v = (v, some Err.ErrMissingColumn) ∨
      ∃ i cell, hdr.get? f.column = some i ∧ row.get? i = some cell ∧
        decodeField lib hdr nv al row f v = decodeValue lib f v cell := by
  unfold Field.column at hb
  unfold decodeField Field.column
  simp only
  split
  · exact Or.inl rfl
  · rename_i hx
    rcases hcol : hdr.get? (parseTag (f.tag.Get "csv")).1 with _ | i
    · simp only
      split
      · exact Or.inl rfl
      · exact Or.inr (Or.inl rfl)
    · obtain ⟨cell, hcell⟩ := get?_of_lt row i
        (hb ⟨fun h => hx (Or.inl h), fun h => hx (Or.inr h)⟩ i hcol)
      simp only [hcell]
      split
      · exact Or.inl rfl
      · exact Or.inr (Or.inr ⟨i, cell, rfl, hcell, rfl⟩)

theorem decodeFields_in_bounds (lib : Lib) (hdr : GoMap Nat) (nv : String) (al : Bool)
    (row : List String) (e : Err) (he : e ≠ Err.ErrMissingColumn) :
    ∀ rec : Record,
      (∀ fv ∈ rec, fv.1.column ≠ "" ∧ fv.1.column ≠ "-" →
        ∀ i, hdr.get? fv.1.column = some i → i < row.length) →
      (decodeFields lib hdr nv al row rec).2 = some e →
      ∃ fv ∈ rec, ∃ i cell, hdr.get? fv.1.column = some i ∧ row.get? i = some cell ∧
        (decodeValue lib fv.1 fv.2 cell).2 = some e := by
  intro rec
  induction rec with
  | nil => intro _ h; simp [decodeFields] at h
  | cons fv rest ih =>
    obtain ⟨f, v⟩ := fv
    intro hall h
    simp only [decodeFields] at h
    rcases hstep : decodeField lib hdr nv al row f v with ⟨v1, _ | e1⟩
    · rw [hstep] at h
      simp only at h
      obtain ⟨fv, hfv, hres⟩ := ih (fun fv hfv => hall fv (List.mem_cons_of_mem _ hfv)) h
      exact ⟨fv, List.mem_cons_of_mem _ hfv, hres⟩
    · rw [hstep] at h
      simp only [Option.some.injEq] at h
      subst h
      rcases decodeField_in_bounds lib hdr nv al row f v (hall (f, v) (by simp)) with
        h1 | h1 | ⟨i, cell, hcol, hcell, h1⟩
      · rw [h1] at hstep
        simp at hstep
      · rw [h1] at hstep
        simp only [Prod.mk.injEq, Option.some.injEq] at hstep
        exact absurd hstep.2.symm he
      · refine ⟨(f, v), by simp, i, cell, hcol, hcell, ?_⟩
        rw [← h1, hstep]

/-- C29 (as stated, refuted): with header `[str, n]` the struct `simpleTest` references the
column indices 0 and 1; the row `["x"]` has length 1, which is at least the maximum
referenced index, and `Decode` fails on the access `line[1]`, out of range. -/
theorem Decode_row_as_long_as_max_index :
    (["x"] : List String).length ≥ 1 ∧
    (Decoder.Decode noFloatLib ((NewDecoder [Except.ok ["x"]]).WithHeader ["str", "n"])
        (structPtr (simpleTest "" 0))).2.2 = some (Err.panicked "index out of range") := by
  decide

/-- C29 (amended): let the decoder have a header index and the source give a row. For a
struct target whose tagged fields reference only column indices below the length of the
row, every pass of the field loop is a skip, a stop by the missing-column rule, or the
conversion of a cell that the row does hold, and an index-out-of-range failure of `Decode`
can only be one that a conversion (a hook or a library function) returned itself. For a
string-map or `MapUnmarshaler` target, with every index of the header below the length of
the row, the copy of the row into the map reads only cells that the row holds: into a map
that is not nil it never fails, and `Decode` returns no error, or the error of
`UnmarshalCSVMap`; into a nil map the only failure is the assignment to the nil map, never
an access to the row. -/
theorem Decode_row_in_bounds (lib : Lib) (dec : Decoder) (hdr : GoMap Nat) (row : List String)
    (r1 : Reader) (v : Target)
    (hh : dec.hdr = some hdr) (hr : dec.r.Read = (Except.ok row, r1))
    (hu : v.UnmarshalCSV = none) :
    (∀ rec : Record, v.UnmarshalCSVMap = none → v.shape = Shape.structPtr rec →
      (∀ fv ∈ rec, fv.1.column ≠ "" ∧ fv.1.column ≠ "-" →
        ∀ i, hdr.get? fv.1.column = some i → i < row.length) →
      (∀ fv ∈ rec,
        decodeField lib hdr dec.nilVal dec.allowMissingColumns row fv.1 fv.2 = (fv.2, none) ∨
        decodeField lib hdr dec.nilVal dec.allowMissingColumns row fv.1 fv.2 =
          (fv.2, some Err.ErrMissingColumn) ∨
        ∃ i cell, hdr.get? fv.1.column = some i ∧ row.get? i = some cell ∧
          decodeField lib hdr dec.nilVal dec.allowMissingColumns row fv.1 fv.2 =
            decodeValue lib fv.1 fv.2 cell) ∧
      ((dec.Decode lib v).2.2 = some (Err.panicked "index out of range") →
        ∃ fv ∈ rec, ∃ i cell, hdr.get? fv.1.column = some i ∧ row.get? i = some cell ∧
          (decodeValue lib fv.1 fv.2 cell).2 = some (Err.panicked "index out of range"))) ∧
    (∀ m : GoMap String, v.UnmarshalCSVMap = none →
      v.shape = Shape.map m ∨ v.shape = Shape.mapPtr m →
      (∀ kv ∈ hdr, kv.2 < row.length) →
      (decodeMap row hdr m).2 = none ∧ (dec.Decode lib v).2.2 = none) ∧
    (∀ u, v.UnmarshalCSVMap = some u → (∀ kv ∈ hdr, kv.2 < row.length) →
      (decodeMap row hdr []).2 = none ∧
        (dec.Decode lib v).2.2 = (u v.shape (decodeMap row hdr []).1).2) ∧
    (v.UnmarshalCSVMap = none → v.shape = Shape.nilMap ∨ v.shape = Shape.nilMapPtr →
      (∀ kv ∈ hdr, kv.2 < row.length) →
      (dec.Decode lib v).2.2 ≠ some (Err.panicked "index out of range") ∧
        ((dec.Decode lib v).2.2 = none ∨
          (dec.Decode lib v).2.2 = some (Err.panicked "assignment to entry in nil map"))) := by
  refine ⟨?_, ?_, ?_, ?_⟩
  · intro rec hum hs hall
    refine ⟨fun fv hfv => decodeField_in_bounds lib hdr dec.nilVal dec.allowMissingColumns row
      fv.1 fv.2 (hall fv hfv), ?_⟩
    intro hpanic
    have hD : (dec.Decode lib v).2.2 =
        (decodeFields lib hdr dec.nilVal dec.allowMissingColumns row rec).2 := by
      simp [Decoder.Decode, hh, hr, hu, hum, hs]
    rw [hD] at hpanic
    exact decodeFields_in_bounds lib hdr dec.nilVal dec.allowMissingColumns row _
      (by simp) rec hall hpanic
  · intro m hum hs hall
    have hm := decodeMap_in_bounds row hdr m hall
    refine ⟨hm, ?_⟩
    rcases hs with hs | hs
    · simp [Decoder.Decode, hh, hr, hu, hum, hs, hm]
    · simp [Decoder.Decode, hh, hr, hu, hum, hs, hm]
  · intro u hum hall
    have hm := decodeMap_in_bounds row hdr [] hall
    refine ⟨hm, ?_⟩
    rcases hq : decodeMap row hdr [] with ⟨m1, _ | e⟩
    · simp [Decoder.Decode, hh, hr, hu, hum, hq]
    · rw [hq] at hm
      simp at hm
  · intro hum hs hall
    have hnil := decodeMapNil_in_bounds row hdr hall
    have hD : (dec.Decode lib v).2.2 = decodeMapNil row hdr := by
      rcases hs with hs | hs <;> simp [Decoder.Decode, hh, hr, hu, hum, hs]
    rw [hD, hnil]
    by_cases h0 : hdr = []
    · simp [h0]
    · simp [h0]

theorem Decode_row_in_bounds_witness :
    (decodeMap ["x", "y"] [("a", 0), ("b", 1)] []).2 = none ∧
    (Decoder.Decode noFloatLib ((NewDecoder [Except.ok ["x", "y"]]).WithHeader ["a", "b"])
      { shape := Shape.map [] }).2.2 = none :=
  (Decode_row_in_bounds noFloatLib ((NewDecoder [Except.ok ["x", "y"]]).WithHeader ["a", "b"])
    [("a", 0), ("b", 1)] ["x", "y"] [] { shape := Shape.map [] } rfl rfl rfl).2.1 [] rfl
    (Or.inl rfl) (by decide)

/-! ## Claim on the single write of `Encode` -/

theorem encodeMap_outcome (enc : Encoder) (mp : GoMap String) :
    ((enc.encodeMap mp).1.w = enc.w ∧ (enc.encodeMap mp).2 ≠ none) ∨
    ∃ row : List String,
      (enc.encodeMap mp).1.w = (enc.w.Write row).1 ∧
      (enc.encodeMap mp).2 = (enc.w.Write row).2 ∧
      encodeMapLoop mp enc.hdr (List.replicate enc.hdr.length "") = (row, none) := by
  unfold Encoder.encodeMap
  by_cases h0 : enc.hdr.length = 0
  · left
    simp [h0]
  · rcases hq : encodeMapLoop mp enc.hdr (List.replicate enc.hdr.length "") with ⟨row, _ | e⟩
    · right
      refine ⟨row, ?_, ?_, rfl⟩
      · simp [h0, hq]
      · simp [h0, hq]
    · left
      simp [h0, hq]

theorem Encode_struct_outcome (lib : Lib) (enc : Encoder) (rec : Record) :
    ((enc.Encode lib (structPtr rec)).1.w = enc.w ∧ (enc.Encode lib (structPtr rec)).2 ≠ none) ∨
    ∃ row : List String,
      (enc.Encode lib (structPtr rec)).1.w = (enc.w.Write row).1 ∧
      (enc.Encode lib (structPtr rec)).2 = (enc.w.Write row).2 ∧
      encodeFields lib (enc.ready rec).hdr enc.nilVal enc.allowMissingColumns rec
        (List.replicate (enc.ready rec).hdr.length "") = (row, none) := by
  rw [Encode_ready]
  rcases hq : encodeFields lib (enc.ready rec).hdr enc.nilVal enc.allowMissingColumns rec
    (List.replicate (enc.ready rec).hdr.length "") with ⟨row, _ | e⟩
  · right
    exact ⟨row, rfl, rfl, rfl⟩
  · left
    simp only
    exact ⟨ready_w enc rec, by simp⟩

theorem Encode_eq_struct (lib : Lib) (enc : Encoder) (v : Target) (rec : Record)
    (hm : v.MarshalCSV = none) (hs : v.shape = Shape.structPtr rec) :
    enc.Encode lib v = enc.Encode lib (structPtr rec) := by
  unfold Encoder.Encode
  rw [hm, hs]
  rfl

theorem Encode_eq_map (lib : Lib) (enc : Encoder) (v : Target) (mp : GoMap String)
    (hm : v.MarshalCSV = none)
    (hs : v.shape = Shape.map mp ∨ v.shape = Shape.mapPtr mp ∨
      ((v.shape = Shape.nilMap ∨ v.shape = Shape.nilMapPtr) ∧ mp = [])) :
    enc.Encode lib v = enc.encodeMap mp := by
  unfold Encoder.Encode
  rw [hm]
  rcases hs with hs | hs | ⟨hs | hs, rfl⟩ <;> rw [hs]

/-- C30: every call of `Encode` ends in one of two ways. Either it returns an error and the
sink is exactly as before (no `Write` took place); or `Write` was called once, with a row
that is complete: the row a `Marshaler` returned without error, or the row of a string map
(a nil map is read as an empty one) after the loop over the whole header, or the row of a
struct after the loop over all its fields without error; the sink then holds that one row
more and `Encode` returns what `Write` returned. Hence, whenever `Encode` returns an error `e` that the sink does not
itself answer (`ErrInvalidType`, `ErrMissingHeader`, `ErrMissingColumn`,
`ErrInvalidIntBase`, `ErrInvalidFloatPrecision`, `ErrInvalidDestType`, the error of a
`Marshaler`), no row has been handed to the sink. -/
theorem Encode_single_write (lib : Lib) (enc : Encoder) (v : Target) :
    (((enc.Encode lib v).1.w = enc.w ∧ (enc.Encode lib v).2 ≠ none) ∨
      ∃ row : List String,
        (enc.Encode lib v).1.w = (enc.w.Write row).1 ∧
        (enc.Encode lib v).1.w.rows = enc.w.rows ++ [row] ∧
        (enc.Encode lib v).2 = (enc.w.Write row).2 ∧
        ((∃ m, v.MarshalCSV = some m ∧ m v.shape = (row, none)) ∨
          (v.MarshalCSV = none ∧
            ∃ mp, (v.shape = Shape.map mp ∨ v.shape = Shape.mapPtr mp ∨
                ((v.shape = Shape.nilMap ∨ v.shape = Shape.nilMapPtr) ∧ mp = [])) ∧
              encodeMapLoop mp enc.hdr (List.replicate enc.hdr.length "") = (row, none)) ∨
          (v.MarshalCSV = none ∧ ∃ rec, v.shape = Shape.structPtr rec ∧
            encodeFields lib (enc.ready rec).hdr enc.nilVal enc.allowMissingColumns rec
              (List.replicate (enc.ready rec).hdr.length "") = (row, none)))) ∧
    (∀ e : Err, (enc.Encode lib v).2 = some e → (∀ row, (enc.w.Write row).2 ≠ some e) →
      (enc.Encode lib v).1.w = enc.w ∧ (enc.Encode lib v).1.w.rows = enc.w.rows) := by
  have hmain : ((enc.Encode lib v).1.w = enc.w ∧ (enc.Encode lib v).2 ≠ none) ∨
      ∃ row : List String,
        (enc.Encode lib v).1.w = (enc.w.Write row).1 ∧
        (enc.Encode lib v).1.w.rows = enc.w.rows ++ [row] ∧
        (enc.Encode lib v).2 = (enc.w.Write row).2 ∧
        ((∃ m, v.MarshalCSV = some m ∧ m v.shape = (row, none)) ∨
          (v.MarshalCSV = none ∧
            ∃ mp, (v.shape = Shape.map mp ∨ v.shape = Shape.mapPtr mp ∨
                ((v.shape = Shape.nilMap ∨ v.shape = Shape.nilMapPtr) ∧ mp = [])) ∧
              encodeMapLoop mp enc.hdr (List.replicate enc.hdr.length "") = (row, none)) ∨
          (v.MarshalCSV = none ∧ ∃ rec, v.shape = Shape.structPtr rec ∧
            encodeFields lib (enc.ready rec).hdr enc.nilVal enc.allowMissingColumns rec
              (List.replicate (enc.ready rec).hdr.length "") = (row, none))) := by
    cases hm : v.MarshalCSV with
    | some m =>
      rcases hq : m v.shape with ⟨row, _ | e⟩
      · right
        have hE : enc.Encode lib v =
            ({ enc with w := (enc.w.Write row).1 }, (enc.w.Write row).2) := by
          simp [Encoder.Encode, hm, hq]
        refine ⟨row, by rw [hE], ?_, by rw [hE], Or.inl ⟨m, rfl, hq⟩⟩
        rw [hE]
        exact Write_rows _ _
      · left
        have hE : enc.Encode lib v = (enc, some e) := by
          simp [Encoder.Encode, hm, hq]
        rw [hE]
        exact ⟨rfl, by simp⟩
    | none =>
      cases hs : v.shape with
      | map mp =>
        rw [Encode_eq_map lib enc v mp hm (Or.inl hs)]
        rcases encodeMap_outcome enc mp with h | ⟨row, h1, h2, h3⟩
        · exact Or.inl h
        · right
          refine ⟨row, h1, ?_, h2, Or.inr (Or.inl ⟨rfl, mp, Or.inl rfl, h3⟩)⟩
          rw [h1]
          exact Write_rows _ _
      | mapPtr mp =>
        rw [Encode_eq_map lib enc v mp hm (Or.inr (Or.inl hs))]
        rcases encodeMap_outcome enc mp with h | ⟨row, h1, h2, h3⟩
        · exact Or.inl h
        · right
          refine ⟨row, h1, ?_, h2, Or.inr (Or.inl ⟨rfl, mp, Or.inr (Or.inl rfl), h3⟩)⟩
          rw [h1]
          exact Write_rows _ _
      | nilMap =>
        rw [Encode_eq_map lib enc v [] hm (Or.inr (Or.inr ⟨Or.inl hs, rfl⟩))]
        rcases encodeMap_outcome enc [] with h | ⟨row, h1, h2, h3⟩
        · exact Or.inl h
        · right
          refine ⟨row, h1, ?_, h2,
            Or.inr (Or.inl ⟨rfl, [], Or.inr (Or.inr ⟨Or.inl rfl, rfl⟩), h3⟩)⟩
          rw [h1]
          exact Write_rows _ _
      | nilMapPtr =>
        rw [Encode_eq_map lib enc v [] hm (Or.inr (Or.inr ⟨Or.inr hs, rfl⟩))]
        rcases encodeMap_outcome enc [] with h | ⟨row, h1, h2, h3⟩
        · exact Or.inl h
        · right
          refine ⟨row, h1, ?_, h2,
            Or.inr (Or.inl ⟨rfl, [], Or.inr (Or.inr ⟨Or.inr rfl, rfl⟩), h3⟩)⟩
          rw [h1]
          exact Write_rows _ _
      | nilIface =>
        left
        have hE : enc.Encode lib v =
            (enc, some (Err.panicked "invalid memory address or nil pointer dereference")) := by
          simp [Encoder.Encode, hm, hs]
        rw [hE]
        exact ⟨rfl, by simp⟩
      | structPtr rec =>
        rw [Encode_eq_struct lib enc v rec hm hs]
        rcases Encode_struct_outcome lib enc rec with h | ⟨row, h1, h2, h3⟩
        · exact Or.inl h
        · right
          refine ⟨row, h1, ?_, h2, Or.inr (Or.inr ⟨rfl, rec, rfl, h3⟩)⟩
          rw [h1]
          exact Write_rows _ _
      | otherPtr =>
        left
        have hE : enc.Encode lib v =
            (enc, some (Err.panicked "reflect: NumField of non-struct type")) := by
          simp [Encoder.Encode, hm, hs]
        rw [hE]
        exact ⟨rfl, by simp⟩
      | nonPointer =>
        left
        have hE : enc.Encode lib v = (enc, some Err.ErrInvalidType) := by
          simp [Encoder.Encode, hm, hs]
        rw [hE]
        exact ⟨rfl, by simp⟩
  refine ⟨hmain, ?_⟩
  intro e he hsink
  rcases hmain with h | ⟨row, _, _, h2, _⟩
  · exact ⟨h.1, by rw [h.1]⟩
  · rw [h2] at he
    exact absurd he (hsink row)

theorem Encode_single_write_witness :
    (Encoder.Encode noFloatLib (NewEncoder emptyWriter) (structPtr (intTestBadBase 1))).1.w =
        (NewEncoder emptyWriter).w ∧
      (Encoder.Encode noFloatLib (NewEncoder emptyWriter)
        (structPtr (intTestBadBase 1))).1.w.rows = (NewEncoder emptyWriter).w.rows :=
  (Encode_single_write noFloatLib (NewEncoder emptyWriter) (structPtr (intTestBadBase 1))).2
    Err.ErrInvalidIntBase (by decide)
    (by intro row; simp [Writer.Write, NewEncoder, emptyWriter])

/-! ## Claims on pointer fields in `Decode` and on the base handed to the formatter -/

theorem slot_ptr (f : Field) (elem : Ty) (v : Value) (hty : f.ty = Ty.ptr elem) :
    f.slot v = elem.zero := by
  unfold Field.slot
  rw [hty]

theorem wrap_ptr (f : Field) (elem : Ty) (x : Value) (hty : f.ty = Ty.ptr elem) :
    f.wrap x = Value.ptr x := by
  unfold Field.wrap
  rw [hty]

theorem kind_ptr (f : Field) (elem : Ty) (hty : f.ty = Ty.ptr elem) : f.kind = elem := by
  unfold Field.kind
  rw [hty]

theorem not_ptr_test (t : Ty) (hk : ∀ e, t ≠ Ty.ptr e) :
    (match t with | Ty.ptr _ => false | _ => true) = true := by
  cases t <;> first
    | rfl
    | exact absurd rfl (hk _)

/-- C31 (as stated, refuted): the field of `failingHookPointer` is a pointer whose type
converts the row string by its own `UnmarshalCSVValue`, which stores the string and then
fails. With header `[a]` and row `["x"]` the field is reached; `Decode` returns the error
of the conversion and the field points to `"x"`, not to the zero value `""`. -/
theorem Decode_pointer_failing_hook :
    (Decoder.Decode noFloatLib ((NewDecoder [Except.ok ["x"]]).WithHeader ["a"])
        (structPtr (failingHookPointer (Value.ptr (Value.str "old"))))).2.2 =
      some (Err.other "rejected") ∧
    (Decoder.Decode noFloatLib ((NewDecoder [Except.ok ["x"]]).WithHeader ["a"])
        (structPtr (failingHookPointer (Value.ptr (Value.str "old"))))).2.1.values =
      [Value.ptr (Value.str "x")] ∧
    Ty.zero Ty.string = Value.str "" := by
  decide

/-- C31 (amended): let `f` be a pointer-typed field that `Decode` reaches (row read, fields
before it decoded, column in the header, cell not skipped by the nil-value rule). The field
is pointed at a freshly allocated zero value before the row string is converted: the pass
does not depend on what the field held, and after `Decode` the field is a pointer that is
not nil. When the built-in conversion then fails, or a hook with a value receiver is
refused, `Decode` returns the error and the field points to the zero value. When a
per-field hook with a pointer receiver fails, `Decode` returns its error and the field
points to the fresh value as the hook left it. In each case the fields after it are
untouched. -/
theorem Decode_pointer_replaced (lib : Lib) (dec : Decoder) (hdr : GoMap Nat)
    (row : List String) (r1 : Reader) (pre post : Record) (f : Field) (elem : Ty) (v : Value)
    (index : Nat) (cell : String)
    (hty : f.ty = Ty.ptr elem) (hx : f.column ≠ "" ∧ f.column ≠ "-")
    (hh : dec.hdr = some hdr) (hr : dec.r.Read = (Except.ok row, r1))
    (hcol : hdr.get? f.column = some index) (hcell : row.get? index = some cell)
    (hskip : ¬ (cell = dec.nilVal ∧ omitEmpty f.options = true))
    (hpre : (decodeFields lib hdr dec.nilVal dec.allowMissingColumns row pre).2 = none) :
    (∀ v0 : Value, decodeField lib hdr dec.nilVal dec.allowMissingColumns row f v0 =
      decodeField lib hdr dec.nilVal dec.allowMissingColumns row f v) ∧
    (∃ x, (dec.Decode lib (structPtr (pre ++ (f, v) :: post))).2.1.values.get? pre.length =
      some (Value.ptr x)) ∧
    (f.plain → ∀ e : Err, decodeKind lib f.tag elem cell = Except.error e →
      (dec.Decode lib (structPtr (pre ++ (f, v) :: post))).2.2 = some e ∧
        (dec.Decode lib (structPtr (pre ++ (f, v) :: post))).2.1.values =
          (dec.Decode lib (structPtr pre)).2.1.values ++
            Value.ptr elem.zero :: post.map Prod.snd) ∧
    (∀ u : UnmarshalHook, f.valueUnmarshaler = some u → (∀ t, elem ≠ Ty.ptr t) →
      (dec.Decode lib (structPtr (pre ++ (f, v) :: post))).2.2 =
          some Err.ErrNonPointerReceiver ∧
        (dec.Decode lib (structPtr (pre ++ (f, v) :: post))).2.1.values =
          (dec.Decode lib (structPtr pre)).2.1.values ++
            Value.ptr elem.zero :: post.map Prod.snd) ∧
    (∀ (u : UnmarshalHook) (e : Err), f.valueUnmarshaler = none →
      f.addrUnmarshaler = some u → (u elem.zero cell).2 = some e →
      (dec.Decode lib (structPtr (pre ++ (f, v) :: post))).2.2 = some e ∧
        (dec.Decode lib (structPtr (pre ++ (f, v) :: post))).2.1.values =
          (dec.Decode lib (structPtr pre)).2.1.values ++
            Value.ptr (u elem.zero cell).1 :: post.map Prod.snd) := by
  have hreach : ∀ v0 : Value, decodeField lib hdr dec.nilVal dec.allowMissingColumns row f v0 =
      decodeValue lib f v0 cell := fun v0 =>
    decodeField_reached lib hdr dec.nilVal dec.allowMissingColumns row f v0 index cell hx
      hcol hcell hskip
  have hval := Decode_field_value lib dec hdr row r1 pre post f v hh hr hpre
  refine ⟨?_, ?_, ?_, ?_, ?_⟩
  · intro v0
    rw [hreach v0, hreach v, decodeValue_eq, decodeValue_eq, slot_ptr f elem v0 hty,
      slot_ptr f elem v hty]
  · obtain ⟨x, hx1⟩ := decodeValue_pointer lib f elem v cell hty
    refine ⟨x, ?_⟩
    rw [hval, hreach v, hx1]
  · intro hp e he
    have hstep : decodeField lib hdr dec.nilVal dec.allowMissingColumns row f v =
        (Value.ptr elem.zero, some e) := by
      rw [hreach v, decodeValue_plain_kind lib f v cell hp, kind_ptr f elem hty, he,
        slot_ptr f elem v hty, wrap_ptr f elem _ hty]
    exact Decode_field_error lib dec hdr row r1 pre post f v _ e hh hr hpre hstep
  · intro u hu hk
    have hstep : decodeField lib hdr dec.nilVal dec.allowMissingColumns row f v =
        (Value.ptr elem.zero, some Err.ErrNonPointerReceiver) := by
      rw [hreach v, decodeValue_eq, hu, kind_ptr f elem hty, slot_ptr f elem v hty,
        wrap_ptr f elem _ hty]
      simp only [not_ptr_test elem hk, if_true]
    exact Decode_field_error lib dec hdr row r1 pre post f v _ _ hh hr hpre hstep
  · intro u e hvu hau he
    have hstep : decodeField lib hdr dec.nilVal dec.allowMissingColumns row f v =
        (Value.ptr (u elem.zero cell).1, some e) := by
      rw [hreach v, decodeValue_eq, hvu, hau, slot_ptr f elem v hty]
      simp only [he, wrap_ptr f elem _ hty]
    exact Decode_field_error lib dec hdr row r1 pre post f v _ e hh hr hpre hstep

theorem Decode_pointer_replaced_witness :
    (Decoder.Decode noFloatLib ((NewDecoder [Except.ok ["x"]]).WithHeader ["a"])
        (structPtr ([] ++ ({ name := "A", ty := Ty.ptr Ty.int, tag := [("csv", "a")] },
          Value.ptr (Value.int 7)) :: []))).2.2 = some Err.numSyn ∧
      (Decoder.Decode noFloatLib ((NewDecoder [Except.ok ["x"]]).WithHeader ["a"])
        (structPtr ([] ++ ({ name := "A", ty := Ty.ptr Ty.int, tag := [("csv", "a")] },
          Value.ptr (Value.int 7)) :: []))).2.1.values =
        (Decoder.Decode noFloatLib ((NewDecoder [Except.ok ["x"]]).WithHeader ["a"])
          (structPtr [])).2.1.values ++
            Value.ptr (Ty.zero Ty.int) :: List.map Prod.snd ([] : Record) :=
  (Decode_pointer_replaced noFloatLib ((NewDecoder [Except.ok ["x"]]).WithHeader ["a"])
    [("a", 0)] ["x"] [] [] [] { name := "A", ty := Ty.ptr Ty.int, tag := [("csv", "a")] }
    Ty.int (Value.ptr (Value.int 7)) 0 "x" rfl (by decide) rfl rfl (by decide) (by decide)
    (by decide) (by decide)).2.2.1 ⟨rfl, rfl, rfl, rfl⟩ Err.numSyn rfl

/-! ## Claim on the base handed to the integer formatter -/

theorem formatBits_none (u : Nat) (b : Int) (neg : Bool) :
    strconv.formatBits u b neg = none ↔ ¬ (2 ≤ b ∧ b ≤ 36) := by
  unfold strconv.formatBits
  by_cases h : b < 2 ∨ b > 36
  · simp only [h, if_true, true_iff]
    omega
  · simp only [h, if_false]
    constructor
    · intro hc
      simp at hc
    · intro hc
      omega

/-- The rendering of an integer value of an integer kind is `formatWithBase` applied to a
formatter that is defined exactly on the bases `2..36`. -/
theorem encodeKind_integer (lib : Lib) (tag : StructTag) (t : Ty) (x : Value)
    (hty : (∃ bits n, t.intBits = some bits ∧ x = Value.int n) ∨
      (∃ bits n, t.uintBits = some bits ∧ x = Value.uint n)) :
    ∃ fmt : Int → Option String, encodeKind lib tag t x = formatWithBase tag fmt ∧
      ∀ b, fmt b = none ↔ ¬ (2 ≤ b ∧ b ≤ 36) := by
  rcases hty with ⟨bits, n, h, rfl⟩ | ⟨bits, n, h, rfl⟩
  · refine ⟨strconv.FormatInt n, ?_, fun b => formatBits_none _ b _⟩
    rcases intBits_cases t bits h with h1 | h1 | h1 | h1 | h1 <;>
      simp only [h1.1, encodeKind]
  · refine ⟨strconv.FormatUint n, ?_, fun b => formatBits_none _ b _⟩
    rcases uintBits_cases t bits h with h1 | h1 | h1 | h1 | h1 <;>
      simp only [h1.1, encodeKind]

theorem encodeValue_integer (lib : Lib) (nv : String) (f : Field) (v : Value) (t : Ty)
    (x : Value) (hp : f.plain)
    (hv : (f.ty = t ∧ v = x) ∨ (f.ty = Ty.ptr t ∧ v = Value.ptr x))
    (hty : (∃ bits n, t.intBits = some bits ∧ x = Value.int n) ∨
      (∃ bits n, t.uintBits = some bits ∧ x = Value.uint n)) :
    encodeValue lib nv f v = encodeKind lib f.tag t x := by
  rcases hv with ⟨h1, rfl⟩ | ⟨h1, rfl⟩
  · rw [encodeValue_plain lib nv f _ hp, h1]
    rw [h1]
    exact integer_not_ptr t v hty
  · exact encodeValue_plain_ptr lib nv f t _ hp h1

theorem formatWithBase_cases (tag : StructTag) (fmt : Int → Option String)
    (hfmt : ∀ b, fmt b = none ↔ ¬ (2 ≤ b ∧ b ≤ 36)) :
    (tag.Lookup "base" = none → ∃ str, formatWithBase tag fmt = Except.ok str) ∧
    (∀ s, tag.Lookup "base" = some s → (strconv.ParseInt s 10 32).2 ≠ none →
      formatWithBase tag fmt = Except.error Err.ErrInvalidIntBase) ∧
    (∀ s b, tag.Lookup "base" = some s → strconv.ParseInt s 10 32 = (b, none) →
      (2 ≤ b ∧ b ≤ 36 → ∃ str, formatWithBase tag fmt = Except.ok str) ∧
      (¬ (2 ≤ b ∧ b ≤ 36) → formatWithBase tag fmt =
        Except.error (Err.panicked "strconv: illegal AppendInt/FormatInt base"))) := by
  refine ⟨?_, ?_, ?_⟩
  · intro hl
    unfold formatWithBase
    rw [hl]
    rcases h10 : fmt 10 with _ | str
    · exact absurd ((hfmt 10).mp h10) (by omega)
    · exact ⟨str, rfl⟩
  · intro s hl hbad
    exact formatWithBase_invalid tag fmt s hl hbad
  · intro s b hl hparse
    unfold formatWithBase
    rw [hl]
    simp only [hparse]
    refine ⟨?_, ?_⟩
    · intro hb
      rcases hf : fmt b with _ | str
      · exact absurd hb ((hfmt b).mp hf)
      · exact ⟨str, rfl⟩
    · intro hb
      rw [(hfmt b).mpr hb]

/-- C32: let `f` be a field of a signed or unsigned integer type, or a pointer to one that
is not nil, rendered by the built-in rule. The string computed for its column is the error
`ErrInvalidIntBase` exactly when the `base` tag is present and is not the decimal numeral
of a 32-bit integer. Without a `base` tag the value is rendered (in base 10). With a tag
that parses to `b`, the value is rendered exactly when `b` lies in `2..36`; a `b` outside
that range (as 0, 1 or 37) is not rejected by `Encode` but handed to the formatter, which
panics, and `Encode`, once it reaches the field, ends with that panic and the sink as it
was. -/
theorem Encode_base_unchecked (lib : Lib) (enc : Encoder) (pre post : Record) (f : Field)
    (v : Value) (t : Ty) (x : Value)
    (hp : f.plain) (hx : f.column ≠ "" ∧ f.column ≠ "-")
    (hv : (f.ty = t ∧ v = x) ∨ (f.ty = Ty.ptr t ∧ v = Value.ptr x))
    (hty : (∃ bits n, t.intBits = some bits ∧ x = Value.int n) ∨
      (∃ bits n, t.uintBits = some bits ∧ x = Value.uint n)) :
    (encodeValue lib enc.nilVal f v = Except.error Err.ErrInvalidIntBase ↔
      ∃ s, f.tag.Lookup "base" = some s ∧ (strconv.ParseInt s 10 32).2 ≠ none) ∧
    (f.tag.Lookup "base" = none → ∃ str, encodeValue lib enc.nilVal f v = Except.ok str) ∧
    (∀ (s : String) (b : Int), f.tag.Lookup "base" = some s →
      strconv.ParseInt s 10 32 = (b, none) →
      ((∃ str, encodeValue lib enc.nilVal f v = Except.ok str) ↔ (2 ≤ b ∧ b ≤ 36)) ∧
      (¬ (2 ≤ b ∧ b ≤ 36) → encodeValue lib enc.nilVal f v =
        Except.error (Err.panicked "strconv: illegal AppendInt/FormatInt base"))) ∧
    (∀ (s : String) (b : Int) (idx : Nat), f.tag.Lookup "base" = some s →
      strconv.ParseInt s 10 32 = (b, none) → ¬ (2 ≤ b ∧ b ≤ 36) →
      (enc.ready (pre ++ (f, v) :: post)).hdr.get? f.column = some idx →
      (encodeFields lib (enc.ready (pre ++ (f, v) :: post)).hdr enc.nilVal
        enc.allowMissingColumns pre
        (List.replicate (enc.ready (pre ++ (f, v) :: post)).hdr.length "")).2 = none →
      enc.Encode lib (structPtr (pre ++ (f, v) :: post)) =
          (enc.ready (pre ++ (f, v) :: post),
            some (Err.panicked "strconv: illegal AppendInt/FormatInt base")) ∧
        (enc.Encode lib (structPtr (pre ++ (f, v) :: post))).1.w = enc.w) := by
  obtain ⟨fmt, hk, hfmt⟩ := encodeKind_integer lib f.tag t x hty
  have hE : encodeValue lib enc.nilVal f v = formatWithBase f.tag fmt := by
    rw [encodeValue_integer lib enc.nilVal f v t x hp hv hty, hk]
  obtain ⟨hc1, hc2, hc3⟩ := formatWithBase_cases f.tag fmt hfmt
  rw [hE]
  refine ⟨?_, hc1, ?_, ?_⟩
  · constructor
    · intro herr
      rcases hl : f.tag.Lookup "base" with _ | s
      · obtain ⟨str, hs⟩ := hc1 hl
        rw [hs] at herr
        simp at herr
      · refine ⟨s, rfl, ?_⟩
        intro hnone
        rcases hparse : strconv.ParseInt s 10 32 with ⟨b, oe⟩
        rw [hparse] at hnone
        simp only at hnone
        subst hnone
        by_cases hb : 2 ≤ b ∧ b ≤ 36
        · obtain ⟨str, hs⟩ := (hc3 s b hl hparse).1 hb
          rw [hs] at herr
          simp at herr
        · rw [(hc3 s b hl hparse).2 hb] at herr
          simp at herr
    · rintro ⟨s, hl, hbad⟩
      exact hc2 s hl hbad
  · intro s b hl hparse
    refine ⟨⟨?_, (hc3 s b hl hparse).1⟩, (hc3 s b hl hparse).2⟩
    rintro ⟨str, hs⟩
    by_contra hb
    rw [(hc3 s b hl hparse).2 hb] at hs
    simp at hs
  · intro s b idx hl hparse hb hecol hepre
    have hv1 : encodeValue lib enc.nilVal f v =
        Except.error (Err.panicked "strconv: illegal AppendInt/FormatInt base") := by
      rw [hE]
      exact (hc3 s b hl hparse).2 hb
    have hEnc := Encode_field_error lib enc pre post f v _ idx hx hecol hepre hv1
    refine ⟨hEnc, ?_⟩
    rw [hEnc]
    exact ready_w enc _

theorem Encode_base_unchecked_witness :
    Encoder.Encode noFloatLib (NewEncoder emptyWriter)
        (structPtr ([] ++
          ({ name := "A", ty := Ty.int, tag := [("csv", "a"), ("base", "37")] },
            Value.int 5) :: [])) =
      (Encoder.ready (NewEncoder emptyWriter)
        ([] ++
          ({ name := "A", ty := Ty.int, tag := [("csv", "a"), ("base", "37")] },
            Value.int 5) :: []),
        some (Err.panicked "strconv: illegal AppendInt/FormatInt base")) :=
  ((Encode_base_unchecked noFloatLib (NewEncoder emptyWriter) [] []
    { name := "A", ty := Ty.int, tag := [("csv", "a"), ("base", "37")] } (Value.int 5)
    Ty.int (Value.int 5) ⟨rfl, rfl, rfl, rfl⟩ (by decide) (Or.inl ⟨rfl, rfl⟩)
    (Or.inl ⟨64, 5, rfl, rfl⟩)).2.2.2 "37" 37 0 rfl (by decide) (by decide) (by decide)
    (by decide)).1

/-! ## Round trip of a base-16 field through `Encode` and `Decode` -/

theorem map_get? (h : List String) (g : String → String) (k : Nat) (c : String)
    (hk : h[k]? = some c) : (h.map g).get? k = some (g c) := by
  rw [List.get?_eq_getElem?, List.getElem?_map, hk]
  rfl

/-- C2: let `f` be a signed integer field (of kind `int`, `int8`, `int16`, `int32` or
`int64`) tagged `base:"16"` and `x` an integer representable in its width. `Encode`, under
an explicit duplicate-free header that holds the column of every field (all renderable, no
later field of the column of `f`), writes one row, whose entry at the column of `f` is the
string `s` rendered for `x`. When a decoder with the same header reads that row, and `s` is
not skipped by the nil-value rule, `Decode` stores `x` in the field again, whatever the
field and the other fields of the target held before, once the fields before it are decoded
without error. -/
theorem base16_roundtrip (lib : Lib) (enc : Encoder) (dec : Decoder) (h : List String)
    (r1 : Reader) (pre post pre0 post0 : Record) (f : Field) (bits : Nat) (x : Int)
    (v0 : Value)
    (hk : f.ty.intBits = some bits) (hp : f.plain) (hx : f.column ≠ "" ∧ f.column ≠ "-")
    (ht : f.tag.Lookup "base" = some "16")
    (hlo : -(2 ^ (bits - 1) : Int) ≤ x) (hhi : x < 2 ^ (bits - 1))
    (hn : h.Nodup) (hne : h ≠ [])
    (hall : ∀ fv ∈ pre ++ (f, Value.int x) :: post, fv.1.column ≠ "" ∧ fv.1.column ≠ "-" →
      fv.1.column ∈ h ∧ ∃ s, encodeValue lib enc.nilVal fv.1 fv.2 = Except.ok s)
    (hpost : ∀ fv ∈ post, fv.1.column ≠ f.column)
    (hh : dec.hdr = some (headerLoop h 0 []))
    (hr : dec.r.Read =
      (Except.ok (h.map (columnEntry lib enc.nilVal (pre ++ (f, Value.int x) :: post))), r1))
    (hskip : ∀ s, encodeValue lib enc.nilVal f (Value.int x) = Except.ok s →
      ¬ (s = dec.nilVal ∧ omitEmpty f.options = true))
    (hpre : (decodeFields lib (headerLoop h 0 []) dec.nilVal dec.allowMissingColumns
      (h.map (columnEntry lib enc.nilVal (pre ++ (f, Value.int x) :: post))) pre0).2 = none) :
    ∃ (s : String) (index : Nat),
      encodeValue lib enc.nilVal f (Value.int x) = Except.ok s ∧
      ((enc.WithHeader h).Encode lib (structPtr (pre ++ (f, Value.int x) :: post))).1.w.rows =
        enc.w.rows ++ [h.map (columnEntry lib enc.nilVal (pre ++ (f, Value.int x) :: post))] ∧
      (headerLoop h 0 []).get? f.column = some index ∧
      (h.map (columnEntry lib enc.nilVal (pre ++ (f, Value.int x) :: post))).get? index =
        some s ∧
      (dec.Decode lib (structPtr (pre0 ++ (f, v0) :: post0))).2.1.values.get? pre0.length =
        some (Value.int x) ∧
      decodeField lib (headerLoop h 0 []) dec.nilVal dec.allowMissingColumns
        (h.map (columnEntry lib enc.nilVal (pre ++ (f, Value.int x) :: post))) f v0 =
          (Value.int x, none) := by
  obtain ⟨s, hs1, hs2⟩ := base16_value_roundtrip lib enc.nilVal f bits x v0 hk hp ht hlo hhi
  have hmem : f.column ∈ h := (hall (f, Value.int x) (by simp) hx).1
  obtain ⟨_, _, hget⟩ := header_nodup h hn
  obtain ⟨index, hcol, hidx⟩ := hget f.column hmem
  have hentry := columnEntry_last lib enc.nilVal pre post f (Value.int x) s hx hpost hs1
  have hcell : (h.map (columnEntry lib enc.nilVal (pre ++ (f, Value.int x) :: post))).get?
      index = some s := by
    rw [map_get? h _ index f.column hidx, hentry]
  have hstep : decodeField lib (headerLoop h 0 []) dec.nilVal dec.allowMissingColumns
      (h.map (columnEntry lib enc.nilVal (pre ++ (f, Value.int x) :: post))) f v0 =
        (Value.int x, none) := by
    rw [decodeField_reached lib _ dec.nilVal dec.allowMissingColumns _ f v0 index s hx hcol
      hcell (hskip s hs1), hs2]
  refine ⟨s, index, hs1, ?_, hcol, hcell, ?_, hstep⟩
  · rw [Encode_header_row lib enc h _ hn hne hall]
    exact Write_rows _ _
  · rw [Decode_field_value lib dec _ _ r1 pre0 post0 f v0 hh hr hpre, hstep]

theorem base16_roundtrip_witness :
    ∃ s : String,
      encodeValue noFloatLib (NewEncoder emptyWriter).nilVal
        { name := "B", ty := Ty.int8, tag := [("csv", "b"), ("base", "16")] }
        (Value.int (-128)) = Except.ok s ∧
      ((NewEncoder emptyWriter).WithHeader ["b"]).Encode noFloatLib
        (structPtr ([] ++ ({ name := "B", ty := Ty.int8, tag := [("csv", "b"), ("base", "16")] },
          Value.int (-128)) :: [])) =
        ((NewEncoder { rows := [["-80"]], replies := [] }).WithHeader ["b"], none) ∧
      (Decoder.Decode noFloatLib ((NewDecoder [Except.ok ["-80"]]).WithHeader ["b"])
        (structPtr ([] ++ ({ name := "B", ty := Ty.int8, tag := [("csv", "b"), ("base", "16")] },
          Value.int 7) :: []))).2.1.values.get? 0 = some (Value.int (-128)) :=
  match base16_roundtrip noFloatLib (NewEncoder emptyWriter)
    ((NewDecoder [Except.ok ["-80"]]).WithHeader ["b"]) ["b"] [] [] [] [] []
    { name := "B", ty := Ty.int8, tag := [("csv", "b"), ("base", "16")] } 8 (-128)
    (Value.int 7) rfl ⟨rfl, rfl, rfl, rfl⟩ (by decide) rfl (by norm_num) (by norm_num)
    (by decide) (by decide)
    (by
      intro fv hfv _
      simp only [List.nil_append, List.mem_singleton] at hfv
      subst hfv
      exact ⟨by decide, "-80", rfl⟩)
    (by simp) rfl
    (by
      have hrow : List.map (columnEntry noFloatLib (NewEncoder emptyWriter).nilVal
          ([] ++ ({ name := "B", ty := Ty.int8, tag := [("csv", "b"), ("base", "16")] },
            Value.int (-128)) :: [])) ["b"] = ["-80"] := by decide
      rw [hrow]
      rfl)
    (by
      intro s hs
      have h80 : s = "-80" := by
        have h2 : (Except.ok "-80" : Except Err String) = Except.ok s := hs
        simpa using h2.symm
      subst h80
      decide)
    (by decide) with
  | ⟨s, _, h1, _, _, _, h5, _⟩ => ⟨s, h1, rfl, h5⟩

/-! ## Claim on the fixed-point rendering of floats -/

theorem digitChar_isDigit : ∀ d, d < 10 → (strconv.digitChar d).isDigit = true := by
  decide

theorem fractionDigits_length (k : Nat) :
    ∀ n, (strconv.fractionDigits k n).length = k := by
  induction k with
  | zero => intro n; rfl
  | succ k ih => intro n; simp [strconv.fractionDigits, ih]

theorem fractionDigits_digits (k : Nat) :
    ∀ n, ∀ c ∈ strconv.fractionDigits k n, c.isDigit = true := by
  induction k with
  | zero => intro n c hc; simp [strconv.fractionDigits] at hc
  | succ k ih =>
    intro n c hc
    simp only [strconv.fractionDigits, List.mem_append, List.mem_singleton] at hc
    rcases hc with hc | hc
    · exact ih _ c hc
    · rw [hc]
      exact digitChar_isDigit _ (Nat.mod_lt _ (by norm_num))

theorem decimalDigitsAux_digits (fuel : Nat) :
    ∀ n, ∀ c ∈ strconv.decimalDigitsAux fuel n, c.isDigit = true := by
  induction fuel with
  | zero => intro n c hc; simp [strconv.decimalDigitsAux] at hc
  | succ fuel ih =>
    intro n c hc
    simp only [strconv.decimalDigitsAux] at hc
    split at hc
    · rename_i hlt
      simp only [List.mem_singleton] at hc
      rw [hc]
      exact digitChar_isDigit n hlt
    · simp only [List.mem_append, List.mem_singleton] at hc
      rcases hc with hc | hc
      · exact ih _ c hc
      · rw [hc]
        exact digitChar_isDigit _ (Nat.mod_lt _ (by norm_num))

theorem decimalDigits_ne_nil (n : Nat) : strconv.decimalDigits n ≠ [] := by
  unfold strconv.decimalDigits
  simp only [strconv.decimalDigitsAux]
  split <;> simp

/-- The shape of the fixed-point rendering of a finite float: an optional minus sign and
the digits of the integer part, then, for a precision `N > 0`, a point and exactly `N`
digits. -/
theorem FormatFloatFixed_shape (x : GoFloat) (N : Nat) (hfin : x.finite) :
    ∃ ip fp : List Char,
      (strconv.FormatFloatFixed x N).data = ip ++ (if N = 0 then [] else '.' :: fp) ∧
      fp.length = N ∧ (∀ c ∈ fp, c.isDigit = true) ∧ ip ≠ [] ∧
      (∀ c ∈ ip, c = '-' ∨ c.isDigit = true) := by
  unfold GoFloat.finite at hfin
  unfold strconv.FormatFloatFixed
  simp only [hfin, if_false]
  refine ⟨_, strconv.fractionDigits N _, rfl, fractionDigits_length N _,
    fractionDigits_digits N _, ?_, ?_⟩
  · intro hc
    have := List.append_eq_nil.mp hc
    exact decimalDigits_ne_nil _ this.2
  · intro c hc
    simp only [List.mem_append] at hc
    rcases hc with hc | hc
    · left
      split at hc
      · simpa using hc
      · simp at hc
    · right
      exact decimalDigitsAux_digits _ _ c hc

theorem FormatFloatFixed_special (x : GoFloat) (N : Nat) (hfin : ¬ x.finite) :
    strconv.FormatFloatFixed x N = "NaN" ∨ strconv.FormatFloatFixed x N = "+Inf" ∨
      strconv.FormatFloatFixed x N = "-Inf" := by
  unfold GoFloat.finite at hfin
  have h : x.bits / 2 ^ 52 % 2 ^ 11 = 2047 := by
    by_contra hc
    exact hfin hc
  unfold strconv.FormatFloatFixed
  simp only [h, if_true]
  split
  · exact Or.inl rfl
  · split
    · exact Or.inr (Or.inr rfl)
    · exact Or.inr (Or.inl rfl)

theorem withFixedFormat_FormatFloat (lib : Lib) (x : GoFloat) (N : Nat) :
    (withFixedFormat lib).FormatFloat x (N : Int) = strconv.FormatFloatFixed x N := by
  simp [withFixedFormat]

/-- C27 (as stated, refuted): the `float64` field `C` of `floatTest` is tagged
`precision:"5"` and has no format tag; holding `+Inf` it is rendered as `+Inf`, which is
not fixed-point notation with five digits after a decimal point. -/
theorem Encode_float_infinity :
    (Encoder.Encode (withFixedFormat noFloatLib) (NewEncoder emptyWriter)
        (structPtr (floatTestC floatInf))).2 = none ∧
    (Encoder.Encode (withFixedFormat noFloatLib) (NewEncoder emptyWriter)
        (structPtr (floatTestC floatInf))).1.w.rows = [["+Inf"]] := by
  decide

set_option maxRecDepth 100000 in
/-- C27 (amended): let `f` be a float field (a `float32` or `float64`, or a pointer to one
that is not nil) rendered by the built-in rule, with no format tag and a precision tag that
is the decimal numeral of an integer `N ≥ 0`, holding `x`. The string `Encode` computes for
its column is `strconv.FormatFloat(x, 'f', N, 64)`, and under an explicit duplicate-free
header, with every field renderable and no later field of the same column, it is the row
entry at the field's column. For a finite `x` this string is in fixed-point notation: an
optional minus sign and the digits of the integer part, then, when `N > 0`, a decimal point
and exactly `N` digits (no point when `N = 0`); for a NaN or an infinity it is `NaN`, `+Inf`
or `-Inf`. With `N = 5` and the `float64` nearest to `1234567890.1234567` (it has the
exponent bits 1053 and lies within half a unit in the last place of that decimal) the
string is `1234567890.12346`, and `Encode` of the whole struct `floatTest` of
`TestEncoder_Float`, without a header set, writes one row with that string as its third
entry. -/
theorem Encode_float_fixed (lib : Lib) (enc : Encoder) (pre post : Record) (f : Field)
    (v : Value) (t : Ty) (x : GoFloat) (N : Nat) (p : String)
    (hp : f.plain) (ht : t = Ty.float32 ∨ t = Ty.float64)
    (hx : f.column ≠ "" ∧ f.column ≠ "-")
    (hv : (f.ty = t ∧ v = Value.float x) ∨
      (f.ty = Ty.ptr t ∧ v = Value.ptr (Value.float x)))
    (hfmt : f.tag.Get "format" = "") (hprec : f.tag.Get "precision" = p) (hpne : p ≠ "")
    (hparse : strconv.ParseInt p 10 32 = ((N : Int), none)) :
    encodeValue (withFixedFormat lib) enc.nilVal f v =
      Except.ok (strconv.FormatFloatFixed x N) ∧
    (∀ h : List String, h.Nodup → h ≠ [] →
      (∀ fv ∈ pre ++ (f, v) :: post, fv.1.column ≠ "" ∧ fv.1.column ≠ "-" →
        fv.1.column ∈ h ∧
          ∃ s1, encodeValue (withFixedFormat lib) enc.nilVal fv.1 fv.2 = Except.ok s1) →
      (∀ fv ∈ post, fv.1.column ≠ f.column) →
      ((enc.WithHeader h).Encode (withFixedFormat lib)
          (structPtr (pre ++ (f, v) :: post))).1.w.rows =
          enc.w.rows ++
            [h.map (columnEntry (withFixedFormat lib) enc.nilVal (pre ++ (f, v) :: post))] ∧
        columnEntry (withFixedFormat lib) enc.nilVal (pre ++ (f, v) :: post) f.column =
          strconv.FormatFloatFixed x N) ∧
    (x.finite → ∃ ip fp : List Char,
      (strconv.FormatFloatFixed x N).data = ip ++ (if N = 0 then [] else '.' :: fp) ∧
      fp.length = N ∧ (∀ c ∈ fp, c.isDigit = true) ∧ ip ≠ [] ∧
      (∀ c ∈ ip, c = '-' ∨ c.isDigit = true)) ∧
    (¬ x.finite → strconv.FormatFloatFixed x N = "NaN" ∨
      strconv.FormatFloatFixed x N = "+Inf" ∨ strconv.FormatFloatFixed x N = "-Inf") ∧
    (x = float1234567890 → N = 5 → strconv.FormatFloatFixed x N = "1234567890.12346") ∧
    ((float1234567890.bits / 2 ^ 63) % 2 = 0 ∧
      (float1234567890.bits / 2 ^ 52) % 2 ^ 11 = 1053 ∧
      12345678901234567 * 2 ^ (1075 - 1053) ≤
        (float1234567890.bits % 2 ^ 52 + 2 ^ 52) * 10 ^ 7 ∧
      2 * ((float1234567890.bits % 2 ^ 52 + 2 ^ 52) * 10 ^ 7 -
        12345678901234567 * 2 ^ (1075 - 1053)) ≤ 10 ^ 7) ∧
    (∀ a b : GoFloat,
      (Encoder.Encode (withFixedFormat lib) (NewEncoder emptyWriter)
        (structPtr (floatTest a b float1234567890))).1.w.rows =
          [[lib.FormatFloat a (-1), lib.Sprintf "%9.2f" b, "1234567890.12346"]]) := by
  have henc : encodeValue (withFixedFormat lib) enc.nilVal f v =
      Except.ok (strconv.FormatFloatFixed x N) := by
    rw [encodeValue_float (withFixedFormat lib) enc.nilVal f v t x hp ht hv,
      encodeKind_float (withFixedFormat lib) f.tag t x ht]
    rw [hprec]
    simp only [hfmt, hpne, if_true, if_false, hparse]
    rw [withFixedFormat_FormatFloat]
  refine ⟨henc, ?_, FormatFloatFixed_shape x N, FormatFloatFixed_special x N, ?_, ?_,
    fun a b => rfl⟩
  · intro h hn hne hall hpost
    refine ⟨?_, columnEntry_last (withFixedFormat lib) enc.nilVal pre post f v _ hx hpost henc⟩
    rw [Encode_header_row (withFixedFormat lib) enc h _ hn hne hall]
    exact Write_rows _ _
  · intro hx1 hN
    subst hx1
    subst hN
    decide
  · decide

theorem Encode_float_fixed_witness :
    (((NewEncoder emptyWriter).WithHeader ["c"]).Encode (withFixedFormat noFloatLib)
        (structPtr ([] ++
          ({ name := "C", ty := Ty.float64, tag := [("csv", "c"), ("precision", "5")] },
            Value.float float1234567890) :: []))).1.w.rows =
      [["1234567890.12346"]] := by
  obtain ⟨_, h2, _, _, h5, _, _⟩ := Encode_float_fixed noFloatLib (NewEncoder emptyWriter) [] []
    { name := "C", ty := Ty.float64, tag := [("csv", "c"), ("precision", "5")] }
    (Value.float float1234567890) Ty.float64 float1234567890 5 "5" ⟨rfl, rfl, rfl, rfl⟩
    (Or.inr rfl) (by decide) (Or.inl ⟨rfl, rfl⟩) (by decide) (by decide) (by decide)
    (by decide)
  obtain ⟨hrows, hentry⟩ := h2 ["c"] (by decide) (by decide)
    (by
      intro fv hfv _
      simp only [List.nil_append, List.mem_singleton] at hfv
      subst hfv
      exact ⟨by decide, _, rfl⟩)
    (by simp)
  have hcol : Field.column
      { name := "C", ty := Ty.float64, tag := [("csv", "c"), ("precision", "5")] } = "c" := by
    decide
  rw [hcol, h5 rfl rfl] at hentry
  rw [hrows]
  simp only [List.map_cons, List.map_nil, hentry]
  rfl


end gocsv
